import Mathlib

/-!
# datasetgo: conversions between COCO, Pascal VOC and CreateML annotations

A shallow embedding of the package `model` (files `coco.go`, `pascalvoc.go`, `createml.go`)
and of the conversions of `cmd/convert.go`.

* Go `int` is the 64-bit signed integer; values are kept as `Int`, and the one place where the
  source computes on parsed values (`Xmax - Xmin`) wraps explicitly (`wrapInt64`).
* Go `float32` is IEEE-754 binary32 with round-to-nearest-even (`F32`).
* A Go `map` is an association list with pairwise distinct keys (`GoMap`); `range` over a map
  visits the entries in an order the language leaves open (`MapIter`).
* The readers take the value already decoded from the file system: the slice that
  `ReadVOCAnnotationFromDir` produced, the document that `json.Unmarshal` produced, and the
  outcome of opening and probing each referenced image. The slice a reader appends to is the
  fresh `nil` slice every caller in `cmd/convert.go` passes.
* The functions that work on a path take the outside world as a record of functions (`Env`:
  directory listings, file contents, the decoders and encoders of the standard library, the
  clock, the probing of images) and return, beside the error, the files they read
  (`ReadOutcome`) or the calls of `ioutil.WriteFile` they made (`WriteOutcome`); a conversion
  of `cmd/convert.go` returns what it printed, the writer calls it made and what was written
  (`ConvertOutcome`).
* `filepath.Ext`, `strings.TrimSuffix` and `strings.ToLower` work on the characters of the
  string; wherever the source compares a lower-cased extension, so do the statements.
* Where a statement speaks of the number a `float32` value stands for, it is the rational
  number `F32.toRat` gives, and `trunc` is `truncRat`.
-/

namespace Datasetgo

/-! ## Go primitives -/

/-- Two-complement wrap-around of Go's 64-bit `int`. -/
def wrapInt64 (z : Int) : Int := (z + 2 ^ 63) % 2 ^ 64 - 2 ^ 63

/-- IEEE-754 binary32. Every finite binary32 value is a multiple of `2^-149` (the least
subnormal); a finite value is kept as its sign and its magnitude counted in that unit, so equal
values have equal representations and the two zeros stay apart. -/
inductive F32 where
  | fin (neg : Bool) (units : Nat)
  | inf (neg : Bool)
  | nan
  deriving DecidableEq, Repr

/-- Worker of `bitLen`: the first argument bounds the number of halvings. -/
def bitLenAux : Nat → Nat → Nat
  | 0, _ => 0
  | fuel + 1, m => if m = 0 then 0 else bitLenAux fuel (m / 2) + 1

/-- Number of binary digits of `m` (`0` for `0`). -/
def bitLen (m : Nat) : Nat := bitLenAux m m

/-- Round-to-nearest, ties-to-even, of the exact magnitude `m * 2^-(149+t)` to binary32.
The low `d` bits are dropped, where `d` leaves at most 24 significant bits and never goes
below the subnormal unit; a result of `2^128` or more overflows to infinity. -/
def roundUnits (neg : Bool) (m t : Nat) : F32 :=
  let d := max (bitLen m - 24) t
  let q := m / 2 ^ d
  let r := m % 2 ^ d
  let q1 := if 2 ^ d < 2 * r ∨ (2 * r = 2 ^ d ∧ q % 2 = 1) then q + 1 else q
  let k := q1 * 2 ^ (d - t)
  if 2 ^ 24 ≤ k / 2 ^ 253 then F32.inf neg else F32.fin neg k

namespace F32

/-- Positive zero, the zero value of `float32`. -/
def zero : F32 := fin false 0

/-- Conversion `float32(n)` of an integer. -/
def ofInt (n : Int) : F32 := roundUnits (decide (n < 0)) (n.natAbs * 2 ^ 149) 0

/-- Product `a * b` of two `float32` values. -/
def mul : F32 → F32 → F32
  | fin s k, fin s2 k2 => roundUnits (xor s s2) (k * k2) 149
  | fin s k, inf s2 => if k = 0 then nan else inf (xor s s2)
  | inf s, fin s2 k2 => if k2 = 0 then nan else inf (xor s s2)
  | inf s, inf s2 => inf (xor s s2)
  | _, _ => nan

/-- Signed count of units of a finite value. -/
def signedUnits (neg : Bool) (k : Nat) : Int := if neg then -(k : Int) else (k : Int)

/-- Sum `a + b` of two `float32` values. -/
def add : F32 → F32 → F32
  | fin s k, fin s2 k2 =>
    let e := signedUnits s k + signedUnits s2 k2
    if e = 0 then fin (s && s2) 0 else roundUnits (decide (e < 0)) e.natAbs 0
  | fin _ _, inf s2 => inf s2
  | inf s, fin _ _ => inf s
  | inf s, inf s2 => if s = s2 then inf s else nan
  | _, _ => nan

/-- Conversion `int(f)`: the fraction is discarded (truncation towards zero). For a value that
does not fit the 64-bit `int` (and for infinities and NaN) Go leaves the result to the
implementation; the amd64 instruction returns the least integer. -/
def toInt : F32 → Int
  | fin neg k =>
    let v := signedUnits neg (k / 2 ^ 149)
    if -(2 ^ 63) ≤ v ∧ v < 2 ^ 63 then v else -(2 ^ 63)
  | _ => -(2 ^ 63)

end F32

/-- Failures of the readers. The first three are values returned as `error`; `indexPanic` is
the run-time panic of an index expression out of range, which no caller recovers. -/
inductive GoError where
  | imageMissing (imageID annotationID : Int)
  | categoryMissing (categoryID annotationID : Int)
  | other (text : String)
  | indexPanic (index : Int) (len : Nat)
  deriving DecidableEq, Repr

namespace GoError

/-- Text of the error, as `fmt.Errorf` and the run-time format it. -/
def Error : GoError → String
  | imageMissing i a =>
    "the image with ID[" ++ toString i ++ "] does not exist(annotation with ID[" ++ toString a ++ "])"
  | categoryMissing c a =>
    "the category with ID[" ++ toString c ++ "] does not exist(annotation with ID[" ++ toString a ++ "])"
  | other text => text
  | indexPanic i n =>
    "runtime error: index out of range [" ++ toString i ++ "] with length " ++ toString n

/-- Whether the failure is a panic rather than a returned `error`. -/
def isPanic : GoError → Bool
  | indexPanic _ _ => true
  | _ => false

end GoError

instance instDecidableEqExcept {ε α : Type} [DecidableEq ε] [DecidableEq α] :
    DecidableEq (Except ε α)
  | .ok a, .ok b => if h : a = b then isTrue (by rw [h]) else isFalse (fun h2 => by cases h2; exact h rfl)
  | .error a, .error b => if h : a = b then isTrue (by rw [h]) else isFalse (fun h2 => by cases h2; exact h rfl)
  | .ok _, .error _ => isFalse (fun h2 => by cases h2)
  | .error _, .ok _ => isFalse (fun h2 => by cases h2)

/-- Index expression `s[i]` on a slice. -/
def sliceGet {α : Type} (s : List α) (i : Nat) : Except GoError α :=
  match s[i]? with
  | some a => .ok a
  | none => .error (.indexPanic i s.length)

/-- Assignment `s[i] = v` on a slice. -/
def sliceSet {α : Type} (s : List α) (i : Int) (v : α) : Except GoError (List α) :=
  if 0 ≤ i ∧ i < s.length then .ok (s.set i.toNat v) else .error (.indexPanic i s.length)

/-- Go map: the entries, with pairwise distinct keys, oldest key first. -/
abbrev GoMap (κ ν : Type) : Type := List (κ × ν)

namespace GoMap

variable {κ ν : Type} [DecidableEq κ]

/-- Result of `make(map[κ]ν)`. -/
def empty : GoMap κ ν := ([] : List (κ × ν))

/-- Lookup `v, ok := m[k]`. -/
def lookup : GoMap κ ν → κ → Option ν
  | [], _ => none
  | (k1, v) :: m, k => if k1 = k then some v else lookup m k

/-- Assignment `m[k] = v`: the value of a present key is replaced, a new key is added. -/
def store : GoMap κ ν → κ → ν → GoMap κ ν
  | [], k, v => [(k, v)]
  | (k1, v1) :: m, k, v => if k1 = k then (k, v) :: m else (k1, v1) :: store m k v

/-- Builtin `len(m)`. -/
def len (m : GoMap κ ν) : Nat := List.length m

/-- The entries of the map. -/
def entries (m : GoMap κ ν) : List (κ × ν) := m

end GoMap

/-- Order in which one `range` statement visits the entries of a map: some rearrangement of
the entries, not fixed by the language. -/
structure MapIter (α : Type) where
  order : List α → List α
  perm : ∀ l, (order l).Perm l

/-- Iteration that happens to visit the entries oldest key first. -/
def MapIter.insertionOrder (α : Type) : MapIter α := ⟨id, fun l => List.Perm.refl l⟩

/-- Iteration that happens to visit the entries newest key first. -/
def MapIter.reverseOrder (α : Type) : MapIter α := ⟨List.reverse, fun l => List.reverse_perm l⟩

/-! ## Data model (`coco.go`, `pascalvoc.go`, `createml.go`) -/

structure COCOInfo where
  Year : String
  Version : String
  Description : String
  Contributor : String
  URL : String
  DateCreated : String
  deriving DecidableEq, Repr

structure COCOLicense where
  ID : Int
  URL : String
  Name : String
  deriving DecidableEq, Repr

structure COCOCategory where
  ID : Int
  Name : String
  SuperCategory : String
  deriving DecidableEq, Repr

structure COCOImage where
  ID : Int
  License : Int
  FileName : String
  Height : Int
  Width : Int
  DateCaptured : String
  deriving DecidableEq, Repr

structure COCOAnnotation where
  ID : Int
  ImageID : Int
  CategoryID : Int
  BBox : List F32
  Area : F32
  Segmentation : List F32
  IsCrowd : Int
  deriving DecidableEq, Repr

structure COCOAnnotations where
  Info : COCOInfo
  Licenses : List COCOLicense
  Categories : List COCOCategory
  Images : List COCOImage
  Annotations : List COCOAnnotation
  deriving DecidableEq, Repr

structure VOCDataSource where
  Database : String
  Annotation : String
  Image : String
  deriving DecidableEq, Repr

structure VOCImageSize where
  Width : Int
  Height : Int
  Depth : Int
  deriving DecidableEq, Repr

/-- Pose of an object: a string type in the source. -/
abbrev VOCPose := String

def Front : VOCPose := "front"
def Rear : VOCPose := "rear"
def Left : VOCPose := "left"
def Right : VOCPose := "right"
def Unspecified : VOCPose := "unspecified"

structure VOCBndbox where
  Xmin : Int
  Xmax : Int
  Ymin : Int
  Ymax : Int
  deriving DecidableEq, Repr

structure VOCAnnotationItem where
  Name : String
  Pose : VOCPose
  Truncated : Int
  Difficult : Int
  Occluded : Int
  Bndbox : VOCBndbox
  deriving DecidableEq, Repr

/-- The type `xml.Name` of the standard library. -/
structure XMLName where
  Space : String
  Local : String
  deriving DecidableEq, Repr

structure VOCAnnotation where
  XMLName : XMLName
  Folder : String
  Filename : String
  Path : String
  Source : VOCDataSource
  Size : VOCImageSize
  Segmented : Int
  Object : List VOCAnnotationItem
  deriving DecidableEq, Repr

abbrev VOCAnnotations := List VOCAnnotation

structure CreateMLCoordinates where
  X : F32
  Y : F32
  Width : F32
  Height : F32
  deriving DecidableEq, Repr

structure CreateMLAnnotationItem where
  Label : String
  Coordinates : CreateMLCoordinates
  deriving DecidableEq, Repr

structure CreateMLAnnotation where
  Image : String
  Annotations : List CreateMLAnnotationItem
  deriving DecidableEq, Repr

abbrev CreateMLAnnotations := List CreateMLAnnotation

/-- Zero value of `COCOImage`, the content of a slot of `make([]COCOImage, n)`. -/
def COCOImage.zero : COCOImage := ⟨0, 0, "", 0, 0, ""⟩

/-- Zero value of `COCOCategory`, the content of a slot of `make([]COCOCategory, n)`. -/
def COCOCategory.zero : COCOCategory := ⟨0, "", ""⟩

/-- Outcome of `os.Open` followed by `image.DecodeConfig` on a referenced image file. -/
inductive ImageProbe where
  | openFailed (text : String)
  | decodeFailed (text : String)
  | config (Width Height : Int)
  deriving DecidableEq, Repr

/-! ## `coco.go`: building a COCO document -/

/-- State of the conversion loops of `coco.go`: the category map, the image slice and the
annotation slice built so far. -/
structure CocoBuild where
  categoriesMap : GoMap String COCOCategory
  images : List COCOImage
  annotationItems : List COCOAnnotation

/-- Lines 125-134 of `coco.go` (and, letter for letter, lines 223-232): the category stored
under `name`, created with the next free id when the name is new. -/
def resolveCategory (categoriesMap : GoMap String COCOCategory) (name : String) :
    COCOCategory × GoMap String COCOCategory :=
  match GoMap.lookup categoriesMap name with
  | some category => (category, categoriesMap)
  | none =>
    let mapLength := GoMap.len categoriesMap
    let category : COCOCategory := { ID := (mapLength : Int) + 1, Name := name, SuperCategory := "" }
    (category, GoMap.store categoriesMap name category)

/-- Line 135 of `coco.go`: `boxWidth := float32(obj.Bndbox.Xmax - obj.Bndbox.Xmin)`. -/
def vocBoxWidth (b : VOCBndbox) : F32 := F32.ofInt (wrapInt64 (b.Xmax - b.Xmin))

/-- Line 136 of `coco.go`: `boxHeight := float32(obj.Bndbox.Ymax - obj.Bndbox.Ymin)`. -/
def vocBoxHeight (b : VOCBndbox) : F32 := F32.ofInt (wrapInt64 (b.Ymax - b.Ymin))

/-- Line 141 of `coco.go`: the `BBox` slice built from a VOC bounding box. -/
def vocBBox (b : VOCBndbox) : List F32 :=
  [F32.ofInt b.Xmin, F32.ofInt b.Ymin, vocBoxWidth b, vocBoxHeight b]

/-- Body of the object loop of `ReadCOCOAnnotationsFromPascalVOCDir` (lines 123-147). -/
def vocObjectStep (annotaionsLength : Nat) (cocoImage : COCOImage) (st : CocoBuild) (i : Nat)
    (obj : VOCAnnotationItem) : CocoBuild :=
  let r := resolveCategory st.categoriesMap obj.Name
  let category := r.1
  let annotationItem : COCOAnnotation :=
    { ID := (annotaionsLength : Int) + (i : Int)
      ImageID := cocoImage.ID
      CategoryID := category.ID
      BBox := vocBBox obj.Bndbox
      Area := F32.mul (vocBoxWidth obj.Bndbox) (vocBoxHeight obj.Bndbox)
      Segmentation := []
      IsCrowd := 0 }
  { st with categoriesMap := r.2, annotationItems := st.annotationItems ++ [annotationItem] }

/-- Object loop `for i, obj := range vocAnnotation.Object`, entered at index `i`. -/
def vocObjectLoop (annotaionsLength : Nat) (cocoImage : COCOImage) :
    Nat → List VOCAnnotationItem → CocoBuild → CocoBuild
  | _, [], st => st
  | i, obj :: rest, st =>
    vocObjectLoop annotaionsLength cocoImage (i + 1) rest
      (vocObjectStep annotaionsLength cocoImage st i obj)

/-- Image loop `for index, vocAnnotation := range vocAnnotations` (lines 107-149), entered at
index `index`. The write `images[index] = cocoImage` stays inside the slice, which was made
with one slot per annotation. -/
def vocImageLoop : Nat → List VOCAnnotation → CocoBuild → CocoBuild
  | _, [], st => st
  | index, vocAnnotation :: rest, st =>
    let cocoImage : COCOImage :=
      { ID := (index : Int) + 1
        License := 1
        FileName := vocAnnotation.Filename
        Height := vocAnnotation.Size.Height
        Width := vocAnnotation.Size.Width
        DateCaptured := "" }
    let st1 : CocoBuild := { st with images := st.images.set index cocoImage }
    let annotaionsLength := st1.annotationItems.length
    vocImageLoop (index + 1) rest
      (vocObjectLoop annotaionsLength cocoImage 0 vocAnnotation.Object st1)

/-- Loop `for _, category := range categoriesMap { categories[category.ID-1] = category }`
over the categories in the order the iteration delivers them. -/
def fillCategories : List COCOCategory → List COCOCategory → Except GoError (List COCOCategory)
  | [], categories => .ok categories
  | category :: rest, categories =>
    match sliceSet categories (category.ID - 1) category with
    | .ok categories1 => fillCategories rest categories1
    | .error e => .error e

/-- The synthesized `info` block; `now` is `time.Now()` in the layout of the source. -/
def exportInfo (now : String) : COCOInfo :=
  { Year := "2022"
    Version := "1"
    Description := "Exported from datasetgo"
    Contributor := "5km@smslit.cn"
    URL := ""
    DateCreated := now }

/-- The synthesized license. -/
def exportLicense : COCOLicense := { ID := 1, URL := "", Name := "5km" }

/-- Tail shared by both COCO builders (lines 151-163 and 247-259): the category slice is
filled from the map and the document is assembled. -/
def finishCoco (now : String) (it : MapIter (String × COCOCategory)) (st : CocoBuild) :
    Except GoError COCOAnnotations :=
  match fillCategories ((it.order (GoMap.entries st.categoriesMap)).map Prod.snd)
      (List.replicate (GoMap.len st.categoriesMap) COCOCategory.zero) with
  | .error e => .error e
  | .ok categories =>
    .ok { Info := exportInfo now
          Licenses := [exportLicense]
          Images := st.images
          Categories := categories
          Annotations := st.annotationItems }

/-- `ReadCOCOAnnotationsFromPascalVOCDir`, from the slice `vocAnnotations` that
`ReadVOCAnnotationFromDir` delivered. -/
def ReadCOCOAnnotationsFromPascalVOCDir (now : String) (it : MapIter (String × COCOCategory))
    (vocAnnotations : VOCAnnotations) : Except GoError COCOAnnotations :=
  finishCoco now it
    (vocImageLoop 0 vocAnnotations
      { categoriesMap := GoMap.empty
        images := List.replicate vocAnnotations.length COCOImage.zero
        annotationItems := [] })

/-- Body of the item loop of `ReadCOCOAnnotationsFromCreateMLFile` (lines 221-243). -/
def createMLItemStep (annotaionsLength : Nat) (cocoImage : COCOImage) (st : CocoBuild) (i : Nat)
    (createMLAnnotationItem : CreateMLAnnotationItem) : CocoBuild :=
  let r := resolveCategory st.categoriesMap createMLAnnotationItem.Label
  let category := r.1
  let annotationItem : COCOAnnotation :=
    { ID := (annotaionsLength : Int) + (i : Int)
      ImageID := cocoImage.ID
      CategoryID := category.ID
      BBox := [createMLAnnotationItem.Coordinates.X, createMLAnnotationItem.Coordinates.Y,
        createMLAnnotationItem.Coordinates.Width, createMLAnnotationItem.Coordinates.Height]
      Area := F32.mul createMLAnnotationItem.Coordinates.Width
        createMLAnnotationItem.Coordinates.Height
      Segmentation := []
      IsCrowd := 0 }
  { st with categoriesMap := r.2, annotationItems := st.annotationItems ++ [annotationItem] }

/-- Item loop `for i, createMLAnnotationItem := range createMLAnnotation.Annotations`. -/
def createMLItemLoop (annotaionsLength : Nat) (cocoImage : COCOImage) :
    Nat → List CreateMLAnnotationItem → CocoBuild → CocoBuild
  | _, [], st => st
  | i, item :: rest, st =>
    createMLItemLoop annotaionsLength cocoImage (i + 1) rest
      (createMLItemStep annotaionsLength cocoImage st i item)

/-- Entry loop of `ReadCOCOAnnotationsFromCreateMLFile` (lines 196-245); `probe` is the
outcome of opening and probing the image an entry names, and a failed probe is returned as
it is. -/
def createMLImageLoop (probe : String → ImageProbe) :
    Nat → List CreateMLAnnotation → CocoBuild → Except GoError CocoBuild
  | _, [], st => .ok st
  | index, createMLAnnotation :: rest, st =>
    match probe createMLAnnotation.Image with
    | .openFailed text => .error (.other text)
    | .decodeFailed text => .error (.other text)
    | .config width height =>
      let cocoImage : COCOImage :=
        { ID := (index : Int) + 1
          License := 1
          FileName := createMLAnnotation.Image
          Height := height
          Width := width
          DateCaptured := "" }
      let st1 : CocoBuild := { st with images := st.images.set index cocoImage }
      let annotaionsLength := st1.annotationItems.length
      createMLImageLoop probe (index + 1) rest
        (createMLItemLoop annotaionsLength cocoImage 0 createMLAnnotation.Annotations st1)

/-- `ReadCOCOAnnotationsFromCreateMLFile`, from the decoded document `createMLAnnotations`. -/
def ReadCOCOAnnotationsFromCreateMLFile (now : String) (it : MapIter (String × COCOCategory))
    (probe : String → ImageProbe) (createMLAnnotations : CreateMLAnnotations) :
    Except GoError COCOAnnotations :=
  match createMLImageLoop probe 0 createMLAnnotations
      { categoriesMap := GoMap.empty
        images := List.replicate createMLAnnotations.length COCOImage.zero
        annotationItems := [] } with
  | .error e => .error e
  | .ok st => finishCoco now it st

/-! ## `pascalvoc.go` and `createml.go`: reading a COCO document -/

/-- Lines 173-178 of `pascalvoc.go`: the VOC bounding box of a COCO `BBox`, the index
expressions evaluated in the order of the source. -/
def bndboxOfBBox (bbox : List F32) : Except GoError VOCBndbox := do
  let x ← sliceGet bbox 0
  let y ← sliceGet bbox 1
  let x2 ← sliceGet bbox 0
  let w ← sliceGet bbox 2
  let y2 ← sliceGet bbox 1
  let h ← sliceGet bbox 3
  pure { Xmin := F32.toInt x
         Ymin := F32.toInt y
         Xmax := F32.toInt (F32.add x2 w)
         Ymax := F32.toInt (F32.add y2 h) }

/-- Lines 128-144 of `pascalvoc.go`: the VOC annotation made for an image, without objects. -/
def vocShell (image : COCOImage) : VOCAnnotation :=
  { XMLName := ⟨"", ""⟩
    Folder := ""
    Filename := image.FileName
    Path := image.FileName
    Source := { Database := "datasetgo.smslit.cn", Image := "", Annotation := "" }
    Size := { Width := image.Width, Height := image.Height, Depth := 3 }
    Segmented := 0
    Object := [] }

/-- First loop of `ReadVOCAnnotationsFromCOCOFile` (lines 124-146): `imageMap` and
`annotationMap`. -/
def vocImageMaps (images : List COCOImage) : GoMap Int COCOImage × GoMap Int VOCAnnotation :=
  images.foldl
    (fun maps image =>
      (GoMap.store maps.1 image.ID image, GoMap.store maps.2 image.ID (vocShell image)))
    (GoMap.empty, GoMap.empty)

/-- Category loop of both COCO readers (lines 149-152 of `pascalvoc.go`, 104-107 of
`createml.go`). -/
def categoryMapOf (categories : List COCOCategory) : GoMap Int COCOCategory :=
  categories.foldl (fun m category => GoMap.store m category.ID category) GoMap.empty

/-- Lines 167-179 of `pascalvoc.go`: the object made from an annotation and its category. -/
def vocItemOf (category : COCOCategory) (bndbox : VOCBndbox) : VOCAnnotationItem :=
  { Name := category.Name
    Pose := Unspecified
    Truncated := 0
    Difficult := 0
    Occluded := 0
    Bndbox := bndbox }

/-- Body of the annotation loop of `ReadVOCAnnotationsFromCOCOFile` (lines 155-182). -/
def vocAnnotationStep (categoryMap : GoMap Int COCOCategory)
    (annotationMap : GoMap Int VOCAnnotation) (annotationItem : COCOAnnotation) :
    Except GoError (GoMap Int VOCAnnotation) :=
  match GoMap.lookup annotationMap annotationItem.ImageID with
  | none => .error (.imageMissing annotationItem.ImageID annotationItem.ID)
  | some vocAnnotation =>
    match GoMap.lookup categoryMap annotationItem.CategoryID with
    | none => .error (.categoryMissing annotationItem.CategoryID annotationItem.ID)
    | some category =>
      match bndboxOfBBox annotationItem.BBox with
      | .error e => .error e
      | .ok bndbox =>
        .ok (GoMap.store annotationMap annotationItem.ImageID
          { vocAnnotation with Object := vocAnnotation.Object ++ [vocItemOf category bndbox] })

/-- Annotation loop `for _, annotationItem := range cocoAnnotations.Annotations`. -/
def vocAnnotationLoop (categoryMap : GoMap Int COCOCategory) :
    List COCOAnnotation → GoMap Int VOCAnnotation → Except GoError (GoMap Int VOCAnnotation)
  | [], annotationMap => .ok annotationMap
  | annotationItem :: rest, annotationMap =>
    match vocAnnotationStep categoryMap annotationMap annotationItem with
    | .error e => .error e
    | .ok annotationMap1 => vocAnnotationLoop categoryMap rest annotationMap1

/-- The map `annotationMap` of `ReadVOCAnnotationsFromCOCOFile` when the last loop is
reached (line 184). -/
def vocAnnotationMapOfCOCO (cocoAnnotations : COCOAnnotations) :
    Except GoError (GoMap Int VOCAnnotation) :=
  vocAnnotationLoop (categoryMapOf cocoAnnotations.Categories) cocoAnnotations.Annotations
    (vocImageMaps cocoAnnotations.Images).2

/-- `ReadVOCAnnotationsFromCOCOFile`, from the decoded document `cocoAnnotations`; the last
loop (lines 184-186) appends the values of the map in the order of the iteration. -/
def ReadVOCAnnotationsFromCOCOFile (it : MapIter (Int × VOCAnnotation))
    (cocoAnnotations : COCOAnnotations) : Except GoError VOCAnnotations :=
  match vocAnnotationMapOfCOCO cocoAnnotations with
  | .error e => .error e
  | .ok annotationMap => .ok ((it.order (GoMap.entries annotationMap)).map Prod.snd)

/-- Lines 124-129 of `createml.go`: the coordinates of a COCO `BBox`. -/
def coordinatesOfBBox (bbox : List F32) : Except GoError CreateMLCoordinates := do
  let x ← sliceGet bbox 0
  let y ← sliceGet bbox 1
  let w ← sliceGet bbox 2
  let h ← sliceGet bbox 3
  pure { X := x, Y := y, Width := w, Height := h }

/-- Lines 96-99 of `createml.go`: the entry made for an image, without items. -/
def createMLShell (image : COCOImage) : CreateMLAnnotation :=
  { Image := image.FileName, Annotations := [] }

/-- First loop of `ReadCreateMLAnnotationsFromCOCOFile` (lines 92-101). -/
def createMLImageMaps (images : List COCOImage) :
    GoMap Int COCOImage × GoMap Int CreateMLAnnotation :=
  images.foldl
    (fun maps image =>
      (GoMap.store maps.1 image.ID image, GoMap.store maps.2 image.ID (createMLShell image)))
    (GoMap.empty, GoMap.empty)

/-- Body of the annotation loop of `ReadCreateMLAnnotationsFromCOCOFile` (lines 110-133). -/
def createMLAnnotationStep (categoryMap : GoMap Int COCOCategory)
    (annotationMap : GoMap Int CreateMLAnnotation) (annotationItem : COCOAnnotation) :
    Except GoError (GoMap Int CreateMLAnnotation) :=
  match GoMap.lookup annotationMap annotationItem.ImageID with
  | none => .error (.imageMissing annotationItem.ImageID annotationItem.ID)
  | some creatMLAnnotation =>
    match GoMap.lookup categoryMap annotationItem.CategoryID with
    | none => .error (.categoryMissing annotationItem.CategoryID annotationItem.ID)
    | some category =>
      match coordinatesOfBBox annotationItem.BBox with
      | .error e => .error e
      | .ok coordinates =>
        .ok (GoMap.store annotationMap annotationItem.ImageID
          { creatMLAnnotation with
            Annotations := creatMLAnnotation.Annotations ++
              [{ Label := category.Name, Coordinates := coordinates }] })

/-- Annotation loop of `ReadCreateMLAnnotationsFromCOCOFile`. -/
def createMLAnnotationLoop (categoryMap : GoMap Int COCOCategory) :
    List COCOAnnotation → GoMap Int CreateMLAnnotation →
      Except GoError (GoMap Int CreateMLAnnotation)
  | [], annotationMap => .ok annotationMap
  | annotationItem :: rest, annotationMap =>
    match createMLAnnotationStep categoryMap annotationMap annotationItem with
    | .error e => .error e
    | .ok annotationMap1 => createMLAnnotationLoop categoryMap rest annotationMap1

/-- The map `annotationMap` of `ReadCreateMLAnnotationsFromCOCOFile` when the last loop is
reached (line 135). -/
def createMLAnnotationMapOfCOCO (cocoAnnotations : COCOAnnotations) :
    Except GoError (GoMap Int CreateMLAnnotation) :=
  createMLAnnotationLoop (categoryMapOf cocoAnnotations.Categories)
    cocoAnnotations.Annotations (createMLImageMaps cocoAnnotations.Images).2

/-- `ReadCreateMLAnnotationsFromCOCOFile`, from the decoded document `cocoAnnotations`. -/
def ReadCreateMLAnnotationsFromCOCOFile (it : MapIter (Int × CreateMLAnnotation))
    (cocoAnnotations : COCOAnnotations) : Except GoError CreateMLAnnotations :=
  match createMLAnnotationMapOfCOCO cocoAnnotations with
  | .error e => .error e
  | .ok annotationMap => .ok ((it.order (GoMap.entries annotationMap)).map Prod.snd)

/-! ## Closed forms used in the statements and proofs -/

/-- The distinct elements of a list, in the order of their first appearance. -/
def firstSeen : List String → List String
  | [] => []
  | x :: xs => x :: (firstSeen xs).filter (fun y => y ≠ x)

/-- The category names known after `name` was met: a new name goes to the end. -/
def keysAdd (keys : List String) (name : String) : List String :=
  if name ∈ keys then keys else keys ++ [name]

/-- The category map that holds `keys`, numbered from `s + 1` in their order. -/
def catMapFrom : Nat → List String → GoMap String COCOCategory
  | _, [] => GoMap.empty
  | s, name :: rest =>
    (name, { ID := (s : Int) + 1, Name := name, SuperCategory := "" }) :: catMapFrom (s + 1) rest

/-- One-based position of `name` in `keys`. -/
def catId (keys : List String) (name : String) : Int := (keys.indexOf name : Int) + 1

/-- What the COCO builders read of one object: its label, its box and its area. -/
structure Labeled where
  Label : String
  BBox : List F32
  Area : F32

/-- What the COCO builders read of one image: name, size and objects. -/
structure ImageEntry where
  FileName : String
  Height : Int
  Width : Int
  Items : List Labeled

/-- Reading of a VOC object. -/
def vocLabeled (obj : VOCAnnotationItem) : Labeled :=
  { Label := obj.Name
    BBox := vocBBox obj.Bndbox
    Area := F32.mul (vocBoxWidth obj.Bndbox) (vocBoxHeight obj.Bndbox) }

/-- Reading of a VOC annotation. -/
def vocEntry (v : VOCAnnotation) : ImageEntry :=
  { FileName := v.Filename
    Height := v.Size.Height
    Width := v.Size.Width
    Items := v.Object.map vocLabeled }

/-- Reading of a CreateML item. -/
def createMLLabeled (item : CreateMLAnnotationItem) : Labeled :=
  { Label := item.Label
    BBox := [item.Coordinates.X, item.Coordinates.Y, item.Coordinates.Width,
      item.Coordinates.Height]
    Area := F32.mul item.Coordinates.Width item.Coordinates.Height }

/-- COCO annotation of a labeled object. -/
def labeledItem (id imageID categoryID : Int) (x : Labeled) : COCOAnnotation :=
  { ID := id
    ImageID := imageID
    CategoryID := categoryID
    BBox := x.BBox
    Area := x.Area
    Segmentation := []
    IsCrowd := 0 }

/-- Annotations of the objects of one image, the first of them at local index `i`, when
`base` annotations were emitted for earlier images. -/
def itemsFrom (keys : List String) (imageID : Int) (base : Nat) :
    Nat → List Labeled → List COCOAnnotation
  | _, [] => []
  | i, x :: rest =>
    labeledItem ((base : Int) + (i : Int)) imageID (catId keys x.Label) x ::
      itemsFrom keys imageID base (i + 1) rest

/-- Annotations of all images from index `index` on. -/
def allItemsFrom (keys : List String) : Nat → Nat → List ImageEntry → List COCOAnnotation
  | _, _, [] => []
  | index, base, e :: rest =>
    itemsFrom keys ((index : Int) + 1) base 0 e.Items ++
      allItemsFrom keys (index + 1) (base + e.Items.length) rest

/-- COCO image of the entry at index `index`. -/
def entryImage (index : Nat) (e : ImageEntry) : COCOImage :=
  { ID := (index : Int) + 1
    License := 1
    FileName := e.FileName
    Height := e.Height
    Width := e.Width
    DateCaptured := "" }

/-- COCO images of the entries from index `index` on. -/
def imagesFrom : Nat → List ImageEntry → List COCOImage
  | _, [] => []
  | index, e :: rest => entryImage index e :: imagesFrom (index + 1) rest

/-- Labels of all objects, image by image and object by object. -/
def entryLabels (es : List ImageEntry) : List String :=
  es.flatMap (fun e => e.Items.map (fun x => x.Label))

/-- The document both COCO builders produce from the entries `es`. -/
def cocoDoc (now : String) (es : List ImageEntry) : COCOAnnotations :=
  { Info := exportInfo now
    Licenses := [exportLicense]
    Categories := (catMapFrom 0 (firstSeen (entryLabels es))).map Prod.snd
    Images := imagesFrom 0 es
    Annotations := allItemsFrom (firstSeen (entryLabels es)) 0 0 es }

/-- Common form of the bodies of the two object loops (`vocObjectStep`, `createMLItemStep`). -/
def labeledStep (annotaionsLength : Nat) (cocoImage : COCOImage) (st : CocoBuild) (i : Nat)
    (x : Labeled) : CocoBuild :=
  let r := resolveCategory st.categoriesMap x.Label
  { st with
    categoriesMap := r.2
    annotationItems := st.annotationItems ++
      [labeledItem ((annotaionsLength : Int) + (i : Int)) cocoImage.ID r.1.ID x] }

/-- Common form of the two object loops. -/
def labeledLoop (annotaionsLength : Nat) (cocoImage : COCOImage) :
    Nat → List Labeled → CocoBuild → CocoBuild
  | _, [], st => st
  | i, x :: rest, st =>
    labeledLoop annotaionsLength cocoImage (i + 1) rest
      (labeledStep annotaionsLength cocoImage st i x)

/-- Common form of the two image loops. -/
def entryLoop : Nat → List ImageEntry → CocoBuild → CocoBuild
  | _, [], st => st
  | index, e :: rest, st =>
    let st1 : CocoBuild := { st with images := st.images.set index (entryImage index e) }
    entryLoop (index + 1) rest
      (labeledLoop st1.annotationItems.length (entryImage index e) 0 e.Items st1)

/-- Reading of a CreateML document: every entry with the size its image was probed to have,
or the failure of the first probe that fails. -/
def probeEntries (probe : String → ImageProbe) :
    List CreateMLAnnotation → Except GoError (List ImageEntry)
  | [] => .ok []
  | c :: rest =>
    match probe c.Image with
    | .openFailed text => .error (.other text)
    | .decodeFailed text => .error (.other text)
    | .config width height =>
      match probeEntries probe rest with
      | .error e => .error e
      | .ok es =>
        .ok ({ FileName := c.Image, Height := height, Width := width,
               Items := c.Annotations.map createMLLabeled } :: es)

/-- The objects of the entries from index `index` on, each with the index of its image. -/
def indexedItems : Nat → List ImageEntry → List (Nat × Labeled)
  | _, [] => []
  | index, e :: rest => e.Items.map (fun x => (index, x)) ++ indexedItems (index + 1) rest

/-- Names of all objects of a VOC list, annotation by annotation and object by object. -/
def objectNames (vocAnnotations : VOCAnnotations) : List String :=
  vocAnnotations.flatMap (fun v => v.Object.map (fun obj => obj.Name))

/-- All objects of a VOC list, annotation by annotation and object by object, each with the
0-based index of its annotation. -/
def indexedObjects (vocAnnotations : VOCAnnotations) : List (Nat × VOCAnnotationItem) :=
  vocAnnotations.enum.flatMap (fun p => p.2.Object.map (fun obj => (p.1, obj)))

/-- The annotation `a` is the one made for the object `p.2` of the image at index `p.1`, its
category id taken from `keys`. -/
def ItemOf (keys : List String) (a : COCOAnnotation) (p : Nat × Labeled) : Prop :=
  a.ImageID = (p.1 : Int) + 1 ∧ a.CategoryID = catId keys p.2.Label ∧ a.BBox = p.2.BBox ∧
    a.Area = p.2.Area ∧ a.Segmentation = [] ∧ a.IsCrowd = 0

/-- Common form of the bodies of the annotation loops of the two COCO readers
(`vocAnnotationStep`, `createMLAnnotationStep`); `extend` adds the annotation to the entry of
its image. -/
def refStep {ν : Type} (extend : ν → COCOCategory → COCOAnnotation → Except GoError ν)
    (categoryMap : GoMap Int COCOCategory) (annotationMap : GoMap Int ν)
    (annotationItem : COCOAnnotation) : Except GoError (GoMap Int ν) :=
  match GoMap.lookup annotationMap annotationItem.ImageID with
  | none => .error (.imageMissing annotationItem.ImageID annotationItem.ID)
  | some v =>
    match GoMap.lookup categoryMap annotationItem.CategoryID with
    | none => .error (.categoryMissing annotationItem.CategoryID annotationItem.ID)
    | some category =>
      match extend v category annotationItem with
      | .error e => .error e
      | .ok v1 => .ok (GoMap.store annotationMap annotationItem.ImageID v1)

/-- Common form of the annotation loops of the two COCO readers. -/
def refLoop {ν : Type} (extend : ν → COCOCategory → COCOAnnotation → Except GoError ν)
    (categoryMap : GoMap Int COCOCategory) :
    List COCOAnnotation → GoMap Int ν → Except GoError (GoMap Int ν)
  | [], annotationMap => .ok annotationMap
  | annotationItem :: rest, annotationMap =>
    match refStep extend categoryMap annotationMap annotationItem with
    | .error e => .error e
    | .ok annotationMap1 => refLoop extend categoryMap rest annotationMap1

/-- How `ReadVOCAnnotationsFromCOCOFile` adds an annotation to the entry of its image. -/
def vocExtend (v : VOCAnnotation) (category : COCOCategory) (a : COCOAnnotation) :
    Except GoError VOCAnnotation :=
  match bndboxOfBBox a.BBox with
  | .error e => .error e
  | .ok bndbox => .ok { v with Object := v.Object ++ [vocItemOf category bndbox] }

/-- How `ReadCreateMLAnnotationsFromCOCOFile` adds an annotation to the entry of its image. -/
def createMLExtend (v : CreateMLAnnotation) (category : COCOCategory) (a : COCOAnnotation) :
    Except GoError CreateMLAnnotation :=
  match coordinatesOfBBox a.BBox with
  | .error e => .error e
  | .ok coordinates =>
    .ok { v with
          Annotations := v.Annotations ++ [{ Label := category.Name, Coordinates := coordinates }] }

/-- The entry `v1` is the entry `v` of the image `id` after the annotations of `as` with that
`image_id` were added to it, in their order, each with the category stored under its
`category_id`. -/
def extendsBy {ν : Type} (extend : ν → COCOCategory → COCOAnnotation → Except GoError ν)
    (categoryMap : GoMap Int COCOCategory) (id : Int) : List COCOAnnotation → ν → ν → Prop
  | [], v, v1 => v1 = v
  | a :: rest, v, v1 =>
    if a.ImageID = id then
      ∃ c v2, GoMap.lookup categoryMap a.CategoryID = some c ∧ extend v c a = .ok v2 ∧
        extendsBy extend categoryMap id rest v2 v1
    else extendsBy extend categoryMap id rest v v1

/-- An annotation whose `image_id` is the id of no image of the document, or whose
`category_id` is the id of no category of the document. -/
def Dangling (doc : COCOAnnotations) (a : COCOAnnotation) : Prop :=
  (∀ img ∈ doc.Images, img.ID ≠ a.ImageID) ∨ (∀ c ∈ doc.Categories, c.ID ≠ a.CategoryID)

instance instDecidableDangling (doc : COCOAnnotations) (a : COCOAnnotation) :
    Decidable (Dangling doc a) :=
  inferInstanceAs (Decidable ((∀ img ∈ doc.Images, img.ID ≠ a.ImageID) ∨
    (∀ c ∈ doc.Categories, c.ID ≠ a.CategoryID)))

/-- The error for a dangling annotation: the missing image is reported before the missing
category. -/
def danglingError (doc : COCOAnnotations) (a : COCOAnnotation) : GoError :=
  if ∀ img ∈ doc.Images, img.ID ≠ a.ImageID then .imageMissing a.ImageID a.ID
  else .categoryMissing a.CategoryID a.ID

/-- The VOC object `obj` is the one `ReadVOCAnnotationsFromCOCOFile` makes from the COCO
annotation `a`: named after the category stored under the `category_id` of `a` (the last
category of the document with that id), pose unspecified, all flags 0, and the corners of
the box truncated to integers. -/
def VocObjectOf (categories : List COCOCategory) (obj : VOCAnnotationItem)
    (a : COCOAnnotation) : Prop :=
  (∃ c, categories.reverse.find? (fun c => decide (c.ID = a.CategoryID)) = some c ∧
      obj.Name = c.Name) ∧
    obj.Pose = Unspecified ∧ obj.Truncated = 0 ∧ obj.Difficult = 0 ∧ obj.Occluded = 0 ∧
    ∃ x y w h rest, a.BBox = x :: y :: w :: h :: rest ∧
      obj.Bndbox = { Xmin := F32.toInt x, Ymin := F32.toInt y,
                     Xmax := F32.toInt (F32.add x w), Ymax := F32.toInt (F32.add y h) }


/-! ## Go standard library: paths and strings -/

/-- Loop of `filepath.Ext`, on the path read backwards: `acc` holds the characters already
passed. The scan stops at a path separator and returns the suffix from the first dot met. -/
def extScan : List Char → List Char → List Char
  | [], _ => []
  | c :: rest, acc =>
    if c = '/' then [] else if c = '.' then '.' :: acc else extScan rest (c :: acc)

/-- Library function `filepath.Ext`: the suffix of `path` beginning at the final dot of its
final element, empty when that element has no dot. -/
def filepathExt (path : String) : String := String.mk (extScan path.data.reverse [])

/-- Library function `strings.TrimSuffix`. -/
def trimSuffix (s suffix : String) : String :=
  if suffix.data.isSuffixOf s.data then String.mk (s.data.take (s.data.length - suffix.data.length))
  else s

/-- Lower-case form of a character under `unicode.ToLower`, for the characters whose lower-case
form is an ASCII letter: the capitals A to Z, the dotted capital I (U+0130) and the Kelvin sign
(U+212A). The lower-case form of any other character is outside ASCII and is left as it is. -/
def lowerRune (c : Char) : Char :=
  if c = Char.ofNat 0x130 then 'i' else if c = Char.ofNat 0x212A then 'k' else c.toLower

/-- Library function `strings.ToLower`, exact wherever the result is compared with an ASCII
string. -/
def goToLower (s : String) : String := String.mk (s.data.map lowerRune)

/-! ## `pascalvoc.go` and `createml.go`: conversions between VOC and CreateML -/

/-- Lines 227-239 of `pascalvoc.go`: the VOC object made from a CreateML item. -/
def vocItemOfCreateML (createAnnotationItem : CreateMLAnnotationItem) : VOCAnnotationItem :=
  { Name := createAnnotationItem.Label
    Pose := Unspecified
    Truncated := 0
    Difficult := 0
    Occluded := 0
    Bndbox :=
      { Xmin := F32.toInt createAnnotationItem.Coordinates.X
        Ymin := F32.toInt createAnnotationItem.Coordinates.Y
        Xmax := F32.toInt
          (F32.add createAnnotationItem.Coordinates.X createAnnotationItem.Coordinates.Width)
        Ymax := F32.toInt
          (F32.add createAnnotationItem.Coordinates.Y createAnnotationItem.Coordinates.Height) } }

/-- Item loop of `ReadVOCAnnotationsFromCreateMLFile` (lines 226-241). -/
def vocItemsOfCreateML : List CreateMLAnnotationItem → VOCAnnotation → VOCAnnotation
  | [], vocAnnotation => vocAnnotation
  | createAnnotationItem :: rest, vocAnnotation =>
    vocItemsOfCreateML rest
      { vocAnnotation with
        Object := vocAnnotation.Object ++ [vocItemOfCreateML createAnnotationItem] }

/-- Lines 208-224 of `pascalvoc.go`: the VOC annotation made for a CreateML entry whose image
was probed, without objects. -/
def vocShellOfCreateML ( createMLAnnotation : CreateMLAnnotation) (width height : Int) :
    VOCAnnotation :=
  { XMLName := ⟨"", ""⟩
    Folder := ""
    Filename := createMLAnnotation.Image
    Path := createMLAnnotation.Image
    Source := { Database := "datasetgo.smslit.cn", Image := "", Annotation := "" }
    Size := { Width := width, Height := height, Depth := 3 }
    Segmented := 0
    Object := [] }

/-- Entry loop of `ReadVOCAnnotationsFromCreateMLFile` (lines 197-244). `imagePath` is
`filepath.Join(filepath.Dir(path), ·)` and `probe` the outcome of opening and probing the
image an entry names; a failed probe is wrapped in the message of the source. -/
def vocEntriesOfCreateML (imagePath : String → String) (probe : String → ImageProbe) :
    List CreateMLAnnotation → VOCAnnotations → Except GoError VOCAnnotations
  | [], annotations => .ok annotations
  | createMLAnnotation :: rest, annotations =>
    match probe createMLAnnotation.Image with
    | .openFailed text =>
      .error (.other ("image [" ++ imagePath createMLAnnotation.Image ++ "] opening... " ++ text))
    | .decodeFailed text =>
      .error (.other ("image [" ++ imagePath createMLAnnotation.Image ++ "] reading... " ++ text))
    | .config width height =>
      vocEntriesOfCreateML imagePath probe rest
        (annotations ++
          [vocItemsOfCreateML createMLAnnotation.Annotations
            (vocShellOfCreateML createMLAnnotation width height)])

/-- `ReadVOCAnnotationsFromCreateMLFile`, from the decoded document `createMLAnnotations`. -/
def ReadVOCAnnotationsFromCreateMLFile (imagePath : String → String)
    (probe : String → ImageProbe) (createMLAnnotations : CreateMLAnnotations) :
    Except GoError VOCAnnotations :=
  vocEntriesOfCreateML imagePath probe createMLAnnotations []

/-- Lines 56-68 of `createml.go`: the CreateML item made from a VOC object. -/
def createMLItemOfVOC (vocObject : VOCAnnotationItem) : CreateMLAnnotationItem :=
  let x := F32.ofInt vocObject.Bndbox.Xmin
  let y := F32.ofInt vocObject.Bndbox.Ymin
  let width := F32.ofInt (wrapInt64 (vocObject.Bndbox.Xmax - vocObject.Bndbox.Xmin))
  let height := F32.ofInt (wrapInt64 (vocObject.Bndbox.Ymax - vocObject.Bndbox.Ymin))
  { Label := vocObject.Name
    Coordinates := { X := x, Y := y, Width := width, Height := height } }

/-- Object loop of `ReadCreateMLAnnotationsFromPascalVOCDir` (lines 55-70). -/
def createMLItemsOfVOC :
    List VOCAnnotationItem → List CreateMLAnnotationItem → List CreateMLAnnotationItem
  | [], annotationItems => annotationItems
  | vocObject :: rest, annotationItems =>
    createMLItemsOfVOC rest (annotationItems ++ [createMLItemOfVOC vocObject])

/-- Annotation loop of `ReadCreateMLAnnotationsFromPascalVOCDir` (lines 53-78). -/
def createMLEntriesOfVOC : List VOCAnnotation → CreateMLAnnotations → CreateMLAnnotations
  | [], annotations => annotations
  | vocAnnotation :: rest, annotations =>
    createMLEntriesOfVOC rest
      (annotations ++
        [{ Image := vocAnnotation.Filename
           Annotations := createMLItemsOfVOC vocAnnotation.Object [] }])

/-- `ReadCreateMLAnnotationsFromPascalVOCDir`, from the slice `vocAnnotations` that
`ReadVOCAnnotationFromDir` delivered. -/
def ReadCreateMLAnnotationsFromPascalVOCDir (vocAnnotations : VOCAnnotations) :
    CreateMLAnnotations :=
  createMLEntriesOfVOC vocAnnotations []

/-! ## Files, directories and the encoders of the standard library -/

/-- Content of a file, byte by byte. -/
abbrev Bytes := List Nat

/-- A JSON value as `encoding/json` builds it from a Go value: an object lists its members
in the order of the fields of the struct, under the keys of their tags. -/
inductive JSON where
  | null
  | number (value : F32)
  | string (value : String)
  | array (items : List JSON)
  | object (members : List (String × JSON))

/-- The keys of a JSON object, in order (none for any other value). -/
def JSON.keys : JSON → List String
  | .object members => members.map Prod.fst
  | _ => []

/-- The member of a JSON object stored under `key` (`null` when there is none). -/
def JSON.member : JSON → String → JSON
  | .object members, key =>
    match members.find? (fun m => decide (m.1 = key)) with
    | some m => m.2
    | none => .null
  | _, _ => .null

/-- What the package calls outside itself: the file system, the path functions
`filepath.Join` and `filepath.Dir`, the image probe (`os.Open` and `image.DecodeConfig` on a
path), the decoders and encoders of `encoding/xml` and `encoding/json` (a decoder gets the
value its target holds and returns the value it holds afterwards), the two renderings of
`time.Now()` the source asks for, and the orders in which the `range` statements over maps
deliver their entries. An error of the outside is known by its text. -/
structure Env where
  readDir : String → Except String (List String)
  readFile : String → Except String Bytes
  writeFile : String → Bytes → Option String
  stat : String → Option String
  isExist : String → Bool
  join : String → String → String
  dir : String → String
  probe : String → ImageProbe
  xmlUnmarshal : Bytes → VOCAnnotation → VOCAnnotation × Option String
  jsonUnmarshalCOCO : Bytes → COCOAnnotations → COCOAnnotations × Option String
  jsonUnmarshalCreateML : Bytes → CreateMLAnnotations → CreateMLAnnotations × Option String
  xmlMarshalIndent : VOCAnnotation → Except String Bytes
  jsonMarshalIndentCOCO : COCOAnnotations → Except String Bytes
  jsonIndent : JSON → Except String Bytes
  nowDateCreated : String
  nowFileStamp : String
  rangeCategories : MapIter (String × COCOCategory)
  rangeVOC : MapIter (Int × VOCAnnotation)
  rangeCreateML : MapIter (Int × CreateMLAnnotation)

/-- Outcome of a reader with an out-parameter: the value the parameter holds when the call
returns, the error returned (`none` for `nil`) and the files the call read with
`ioutil.ReadFile`, oldest first. -/
structure ReadOutcome (α : Type) where
  value : α
  err : Option GoError
  reads : List String

/-- Zero value of `COCOAnnotations`. -/
def COCOAnnotations.zero : COCOAnnotations :=
  { Info := ⟨"", "", "", "", "", ""⟩, Licenses := [], Categories := [], Images := [],
    Annotations := [] }

/-- Zero value of `VOCAnnotation`. -/
def VOCAnnotation.zero : VOCAnnotation :=
  { XMLName := ⟨"", ""⟩, Folder := "", Filename := "", Path := "", Source := ⟨"", "", ""⟩,
    Size := ⟨0, 0, 0⟩, Segmented := 0, Object := [] }

/-- `ReadCOCOAnnotationsFromFile` (`coco.go`, lines 63-76). -/
def ReadCOCOAnnotationsFromFile (env : Env) (annotations : COCOAnnotations) (path : String) :
    ReadOutcome COCOAnnotations :=
  let pathExt := filepathExt path
  if pathExt = "" ∨ goToLower pathExt ≠ ".json" then
    ⟨annotations, some (.other (path ++ " is not a valid json file path")), []⟩
  else
    match env.readFile path with
    | .error readErr => ⟨annotations, some (.other readErr), [path]⟩
    | .ok jsonBytes =>
      ⟨(env.jsonUnmarshalCOCO jsonBytes annotations).1,
        (env.jsonUnmarshalCOCO jsonBytes annotations).2.map GoError.other, [path]⟩

/-- `ReadCreateMLAnnotationsFromFile` (`createml.go`, lines 31-44). -/
def ReadCreateMLAnnotationsFromFile (env : Env) (annotations : CreateMLAnnotations)
    (path : String) : ReadOutcome CreateMLAnnotations :=
  let pathExt := filepathExt path
  if pathExt = "" ∨ goToLower pathExt ≠ ".json" then
    ⟨annotations, some (.other (path ++ " is not a valid json file path")), []⟩
  else
    match env.readFile path with
    | .error readErr => ⟨annotations, some (.other readErr), [path]⟩
    | .ok jsonBytes =>
      ⟨(env.jsonUnmarshalCreateML jsonBytes annotations).1,
        (env.jsonUnmarshalCreateML jsonBytes annotations).2.map GoError.other, [path]⟩

/-- `ReadVOCAnnotationFromFile` (`pascalvoc.go`, lines 70-84). -/
def ReadVOCAnnotationFromFile (env : Env) ( annotation : VOCAnnotation) (path : String) :
    ReadOutcome VOCAnnotation :=
  let pathExt := filepathExt path
  if pathExt = "" ∨ goToLower pathExt ≠ ".xml" then
    ⟨ annotation, some (.other (path ++ " is not a valid xml file path")), []⟩
  else
    match env.readFile path with
    | .error readErr => ⟨ annotation, some (.other readErr), [path]⟩
    | .ok xmlBytes =>
      ⟨(env.xmlUnmarshal xmlBytes annotation).1,
        (env.xmlUnmarshal xmlBytes annotation).2.map GoError.other, [path]⟩

/-- State of the loop of `ReadVOCAnnotationFromDir`: the slice, the flag `isEmpty`, the
files read so far, and the error that ended the loop, if one did. -/
structure DirScan where
  annotations : VOCAnnotations
  isEmpty : Bool
  reads : List String
  err : Option GoError

/-- Loop `for _, fileInfo := range fileInfos` of `ReadVOCAnnotationFromDir` (lines 94-106)
over the names of the entries. -/
def vocDirLoop (env : Env) (path : String) : List String → DirScan → DirScan
  | [], st => st
  | fileName :: rest, st =>
    let filePath := env.join path fileName
    if goToLower (filepathExt filePath) = ".xml" then
      match (ReadVOCAnnotationFromFile env VOCAnnotation.zero filePath).err with
      | some err =>
        { st with
          reads := st.reads ++ (ReadVOCAnnotationFromFile env VOCAnnotation.zero filePath).reads
          err := some err }
      | none =>
        vocDirLoop env path rest
          { annotations := st.annotations ++
              [(ReadVOCAnnotationFromFile env VOCAnnotation.zero filePath).value]
            isEmpty := false
            reads := st.reads ++
              (ReadVOCAnnotationFromFile env VOCAnnotation.zero filePath).reads
            err := none }
    else vocDirLoop env path rest st

/-- `ReadVOCAnnotationFromDir` (`pascalvoc.go`, lines 86-113). -/
def ReadVOCAnnotationFromDir (env : Env) (annotations : VOCAnnotations) (path : String) :
    ReadOutcome VOCAnnotations :=
  match env.readDir path with
  | .error err => ⟨annotations, some (.other err), []⟩
  | .ok fileInfos =>
    let st := vocDirLoop env path fileInfos
      { annotations := annotations, isEmpty := true, reads := [], err := none }
    match st.err with
    | some err => ⟨st.annotations, some err, st.reads⟩
    | none =>
      if st.isEmpty then
        ⟨st.annotations, some (.other "not found xml file in the directory path"), st.reads⟩
      else ⟨st.annotations, none, st.reads⟩

/-- Outcome of a writer: the error returned and the calls of `ioutil.WriteFile` it made,
oldest first, each with its path and content. -/
structure WriteOutcome where
  err : Option GoError
  writes : List (String × Bytes)

/-- Lines 251-253 of `pascalvoc.go`: the name of the XML file of an image. -/
def xmlNameOf (imageName : String) : String :=
  trimSuffix imageName (filepathExt imageName) ++ ".xml"

/-- Loop of `WriteVOCAnnotationsToFile` (lines 250-262), `writes` being the calls of
`ioutil.WriteFile` made before. -/
def vocWriteLoop (env : Env) (path : String) :
    List VOCAnnotation → List (String × Bytes) → WriteOutcome
  | [], writes => ⟨none, writes⟩
  | vocAnnotation :: rest, writes =>
    let xmlPath := env.join path (xmlNameOf vocAnnotation.Filename)
    match env.xmlMarshalIndent vocAnnotation with
    | .error err => ⟨some (.other err), writes⟩
    | .ok annotationBytes =>
      match env.writeFile xmlPath annotationBytes with
      | some writeErr => ⟨some (.other writeErr), writes ++ [(xmlPath, annotationBytes)]⟩
      | none => vocWriteLoop env path rest (writes ++ [(xmlPath, annotationBytes)])

/-- `WriteVOCAnnotationsToFile` (`pascalvoc.go`, lines 249-264). -/
def WriteVOCAnnotationsToFile (env : Env) (annotations : VOCAnnotations) (path : String) :
    WriteOutcome :=
  vocWriteLoop env path annotations []

/-- `WriteCOCOAnnotationsToFile` (`coco.go`, lines 264-274). -/
def WriteCOCOAnnotationsToFile (env : Env) (annotations : COCOAnnotations) (path : String) :
    WriteOutcome :=
  match env.jsonMarshalIndentCOCO annotations with
  | .error err => ⟨some (.other err), []⟩
  | .ok annotationsBytes =>
    ⟨(env.writeFile path annotationsBytes).map GoError.other, [(path, annotationsBytes)]⟩

/-- JSON value of `CreateMLCoordinates`, under the keys of its struct tags
(`createml.go`, lines 12-17). -/
def CreateMLCoordinates.toJSON (c : CreateMLCoordinates) : JSON :=
  .object [("x", .number c.X), ("y", .number c.Y), ("width", .number c.Width),
    ("Height", .number c.Height)]

/-- JSON value of `CreateMLAnnotationItem` (`createml.go`, lines 19-22). -/
def CreateMLAnnotationItem.toJSON (item : CreateMLAnnotationItem) : JSON :=
  .object [("label", .string item.Label), ("coordinates", item.Coordinates.toJSON)]

/-- JSON value of `CreateMLAnnotation` (`createml.go`, lines 24-27). The item slice of an entry
the conversions make is never `nil` (`[]CreateMLAnnotationItem{}` at line 54,
`make([]CreateMLAnnotationItem, 0)` at line 98), so it is rendered as an array, also when it
is empty. -/
def CreateMLAnnotation.toJSON ( annotation : CreateMLAnnotation) : JSON :=
  .object [("image", .string annotation.Image),
    ("annotations", .array ( annotation.Annotations.map CreateMLAnnotationItem.toJSON))]

/-- JSON value of `CreateMLAnnotations`, for the slice a conversion passes to the writer: it is
declared without a value (`var annotations model.CreateMLAnnotations`) and grows by `append`
only, so it is `nil` exactly when it has no entry, and `encoding/json` renders a `nil` slice
as `null`. -/
def CreateMLAnnotations.toJSON (annotations : CreateMLAnnotations) : JSON :=
  match annotations with
  | [] => .null
  | _ :: _ => .array (annotations.map CreateMLAnnotation.toJSON)

/-- `WriteCreateMLAnnotationsToFile` (`createml.go`, lines 142-152): `json.MarshalIndent`
renders the JSON value of the annotations. -/
def WriteCreateMLAnnotationsToFile (env : Env) (annotations : CreateMLAnnotations)
    (path : String) : WriteOutcome :=
  match env.jsonIndent (CreateMLAnnotations.toJSON annotations) with
  | .error err => ⟨some (.other err), []⟩
  | .ok annotationsBytes =>
    ⟨(env.writeFile path annotationsBytes).map GoError.other, [(path, annotationsBytes)]⟩

/-! ## The readers from a path, and `cmd/convert.go` -/

/-- Result of a reader called on a fresh variable: the error it returned, or the value the
variable holds after a call that returned `nil`. -/
def ReadOutcome.result {α : Type} (r : ReadOutcome α) : Except GoError α :=
  match r.err with
  | some err => .error err
  | none => .ok r.value

/-- `ReadCOCOAnnotationsFromPascalVOCDir` as a whole (`coco.go`, lines 78-166): the directory
is read, then the document is built. -/
def ReadCOCOAnnotationsFromPascalVOCDirAt (env : Env) (path : String) :
    Except GoError COCOAnnotations :=
  match (ReadVOCAnnotationFromDir env [] path).result with
  | .error err => .error err
  | .ok vocAnnotations =>
    ReadCOCOAnnotationsFromPascalVOCDir env.nowDateCreated env.rangeCategories vocAnnotations

/-- `ReadCOCOAnnotationsFromCreateMLFile` as a whole (`coco.go`, lines 168-262). -/
def ReadCOCOAnnotationsFromCreateMLFileAt (env : Env) (path : String) :
    Except GoError COCOAnnotations :=
  match (ReadCreateMLAnnotationsFromFile env [] path).result with
  | .error err => .error err
  | .ok createMLAnnotations =>
    ReadCOCOAnnotationsFromCreateMLFile env.nowDateCreated env.rangeCategories
      (fun image => env.probe (env.join (env.dir path) image)) createMLAnnotations

/-- `ReadVOCAnnotationsFromCOCOFile` as a whole (`pascalvoc.go`, lines 115-189). -/
def ReadVOCAnnotationsFromCOCOFileAt (env : Env) (path : String) :
    Except GoError VOCAnnotations :=
  match (ReadCOCOAnnotationsFromFile env COCOAnnotations.zero path).result with
  | .error err => .error err
  | .ok cocoAnnotations => ReadVOCAnnotationsFromCOCOFile env.rangeVOC cocoAnnotations

/-- `ReadVOCAnnotationsFromCreateMLFile` as a whole (`pascalvoc.go`, lines 191-247). -/
def ReadVOCAnnotationsFromCreateMLFileAt (env : Env) (path : String) :
    Except GoError VOCAnnotations :=
  match (ReadCreateMLAnnotationsFromFile env [] path).result with
  | .error err => .error err
  | .ok createMLAnnotations =>
    ReadVOCAnnotationsFromCreateMLFile (fun image => env.join (env.dir path) image)
      (fun image => env.probe (env.join (env.dir path) image)) createMLAnnotations

/-- `ReadCreateMLAnnotationsFromPascalVOCDir` as a whole (`createml.go`, lines 46-81). -/
def ReadCreateMLAnnotationsFromPascalVOCDirAt (env : Env) (path : String) :
    Except GoError CreateMLAnnotations :=
  match (ReadVOCAnnotationFromDir env [] path).result with
  | .error err => .error err
  | .ok vocAnnotations => .ok (ReadCreateMLAnnotationsFromPascalVOCDir vocAnnotations)

/-- `ReadCreateMLAnnotationsFromCOCOFile` as a whole (`createml.go`, lines 83-140). -/
def ReadCreateMLAnnotationsFromCOCOFileAt (env : Env) (path : String) :
    Except GoError CreateMLAnnotations :=
  match (ReadCOCOAnnotationsFromFile env COCOAnnotations.zero path).result with
  | .error err => .error err
  | .ok cocoAnnotations => ReadCreateMLAnnotationsFromCOCOFile env.rangeCreateML cocoAnnotations

/-- The dataset formats of `cmd/convert.go`: a string type in the source. -/
abbrev DatasetFormat := String

def COCO : DatasetFormat := "coco"
def PascalVOC : DatasetFormat := "voc"
def CreateML : DatasetFormat := "createml"

/-- What a conversion did: the errors it printed with `rootCmd.PrintErrln`, the run-time panic
that ended it (if one did), the paths with which it called the writer of the target format,
the directories it made with `os.MkdirAll` and the calls of `ioutil.WriteFile` the writer
made. -/
structure ConvertOutcome where
  printed : List GoError
  panic : Option GoError
  writerCalls : List String
  mkdirs : List String
  writes : List (String × Bytes)

/-- A conversion that stops at the failure `err` of its reader: a returned error is printed,
a panic ends the run. -/
def ConvertOutcome.failed (err : GoError) : ConvertOutcome :=
  if err.isPanic then ⟨[], some err, [], [], []⟩ else ⟨[err], none, [], [], []⟩

/-- A conversion that called its writer with `path`: the error of the writer, if any, is
printed. -/
def ConvertOutcome.wrote (mkdirs : List String) (path : String) (w : WriteOutcome) :
    ConvertOutcome :=
  match w.err with
  | some err => ⟨[err], none, [path], mkdirs, w.writes⟩
  | none => ⟨[], none, [path], mkdirs, w.writes⟩

set_option linter.unusedVariables false in
/-- `ConvertToPascalVOC` (`cmd/convert.go`, lines 107-135). -/
def ConvertToPascalVOC (env : Env) (iFormat oFormat : DatasetFormat)
    (datasetPath oDatasetPath : String) : ConvertOutcome :=
  match (if iFormat = COCO then ReadVOCAnnotationsFromCOCOFileAt env datasetPath
      else ReadVOCAnnotationsFromCreateMLFileAt env datasetPath) with
  | .error err => ConvertOutcome.failed err
  | .ok annotations =>
    if oDatasetPath = "" then
      ConvertOutcome.wrote [] (env.dir datasetPath)
        (WriteVOCAnnotationsToFile env annotations (env.dir datasetPath))
    else
      match env.stat oDatasetPath with
      | none =>
        ConvertOutcome.wrote [] oDatasetPath
          (WriteVOCAnnotationsToFile env annotations oDatasetPath)
      | some err =>
        if env.isExist err then
          ConvertOutcome.wrote [] oDatasetPath
            (WriteVOCAnnotationsToFile env annotations oDatasetPath)
        else
          ConvertOutcome.wrote [oDatasetPath] oDatasetPath
            (WriteVOCAnnotationsToFile env annotations oDatasetPath)

set_option linter.unusedVariables false in
/-- `ConvertToCOCO` (`cmd/convert.go`, lines 137-170). -/
def ConvertToCOCO (env : Env) (iFormat oFormat : DatasetFormat)
    (datasetPath oDatasetPath : String) : ConvertOutcome :=
  let dataDir := if iFormat = PascalVOC then datasetPath else env.dir datasetPath
  match (if iFormat = PascalVOC then ReadCOCOAnnotationsFromPascalVOCDirAt env datasetPath
      else ReadCOCOAnnotationsFromCreateMLFileAt env datasetPath) with
  | .error err => ConvertOutcome.failed err
  | .ok annotations =>
    if oDatasetPath = "" then
      ConvertOutcome.wrote []
        (env.join dataDir ("_annotations.coco." ++ env.nowFileStamp ++ ".json"))
        (WriteCOCOAnnotationsToFile env annotations
          (env.join dataDir ("_annotations.coco." ++ env.nowFileStamp ++ ".json")))
    else if filepathExt oDatasetPath = "" ∨ goToLower (filepathExt oDatasetPath) ≠ ".json" then
      ⟨[.other (oDatasetPath ++ " is not a valid json file path")], none, [], [], []⟩
    else
      ConvertOutcome.wrote [] oDatasetPath
        (WriteCOCOAnnotationsToFile env annotations oDatasetPath)

set_option linter.unusedVariables false in
/-- `ConvertToCreateML` (`cmd/convert.go`, lines 172-203). -/
def ConvertToCreateML (env : Env) (iFormat oFormat : DatasetFormat)
    (datasetPath oDatasetPath : String) : ConvertOutcome :=
  let dataDir := if iFormat = PascalVOC then datasetPath else env.dir datasetPath
  match (if iFormat = PascalVOC then ReadCreateMLAnnotationsFromPascalVOCDirAt env datasetPath
      else ReadCreateMLAnnotationsFromCOCOFileAt env datasetPath) with
  | .error err => ConvertOutcome.failed err
  | .ok annotations =>
    if oDatasetPath = "" then
      ConvertOutcome.wrote []
        (env.join dataDir ("_annotations.createml." ++ env.nowFileStamp ++ ".json"))
        (WriteCreateMLAnnotationsToFile env annotations
          (env.join dataDir ("_annotations.createml." ++ env.nowFileStamp ++ ".json")))
    else if filepathExt oDatasetPath = "" ∨ goToLower (filepathExt oDatasetPath) ≠ ".json" then
      ⟨[.other (oDatasetPath ++ " is not a valid json file path")], none, [], [], []⟩
    else
      ConvertOutcome.wrote [] oDatasetPath
        (WriteCreateMLAnnotationsToFile env annotations oDatasetPath)

/-! ## Closed forms of the second part -/

/-- The VOC annotation `ReadVOCAnnotationsFromCreateMLFile` makes for an entry whose image was
probed to be `width` wide and `height` high. -/
def vocOfCreateMLEntry (c : CreateMLAnnotation) (width height : Int) : VOCAnnotation :=
  { vocShellOfCreateML c width height with Object := c.Annotations.map vocItemOfCreateML }

/-- Width and height a probe found (0 and 0 for a failed probe). -/
def ImageProbe.size : ImageProbe → Int × Int
  | .config width height => (width, height)
  | _ => (0, 0)

/-- Two readings of the same images with the same labels, object by object. -/
def SameShape (es1 es2 : List ImageEntry) : Prop :=
  List.Forall₂
    (fun e1 e2 => e1.FileName = e2.FileName ∧ e1.Height = e2.Height ∧ e1.Width = e2.Width ∧
      e1.Items.map (fun x => x.Label) = e2.Items.map (fun x => x.Label)) es1 es2

/-- The entries of a directory listing that have the extension `.xml` (letter case
disregarded), in listing order, each by its path `filepath.Join(path, name)`. -/
def xmlPaths (env : Env) (path : String) (names : List String) : List String :=
  (names.map (env.join path)).filter (fun p => decide (goToLower (filepathExt p) = ".xml"))

/-- The stem of an image file name: the name without its final extension
(`strings.TrimSuffix(imageName, filepath.Ext(imageName))`). -/
def imageStem (imageName : String) : String :=
  trimSuffix imageName (filepathExt imageName)

/-- The CreateML item `item` is the one `ReadCreateMLAnnotationsFromCOCOFile` makes from the
COCO annotation `a`: labelled with the name of the category stored under the `category_id`
of `a` (the last category of the document with that id), its coordinates the first four
entries of the box, as they are. -/
def CreateMLItemOf (categories : List COCOCategory) (item : CreateMLAnnotationItem)
    (a : COCOAnnotation) : Prop :=
  (∃ c, categories.reverse.find? (fun c => decide (c.ID = a.CategoryID)) = some c ∧
      item.Label = c.Name) ∧
    ∃ x y w h rest, a.BBox = x :: y :: w :: h :: rest ∧
      item.Coordinates = { X := x, Y := y, Width := w, Height := h }

/-- The coordinates of the item are the `float32` values of four integers x, y, width, height
that, like the sums x + width and y + height, have absolute value at most 2^24. -/
def SmallIntegerBox (item : CreateMLAnnotationItem) : Prop :=
  ∃ x y w h : Int, x.natAbs ≤ 2 ^ 24 ∧ y.natAbs ≤ 2 ^ 24 ∧ w.natAbs ≤ 2 ^ 24 ∧
    h.natAbs ≤ 2 ^ 24 ∧ (x + w).natAbs ≤ 2 ^ 24 ∧ (y + h).natAbs ≤ 2 ^ 24 ∧
    item.Coordinates =
      { X := F32.ofInt x, Y := F32.ofInt y, Width := F32.ofInt w, Height := F32.ofInt h }

/-! ## The numbers the `float32` values stand for -/

/-- Signed number of units of `2^-149` of a finite `float32` value (none for the infinities
and NaN): the value is this number times `2^-149`. -/
def F32.units : F32 → Option Int
  | .fin neg k => some (F32.signedUnits neg k)
  | _ => none

/-- The rational number a finite `float32` value stands for (none for the infinities and
NaN); the two zeros stand for 0. -/
def F32.toRat : F32 → Option ℚ
  | .fin neg k => some ((F32.signedUnits neg k : ℚ) / 2 ^ 149)
  | _ => none

/-- Truncation of a rational number towards zero, the `trunc` of the claims. -/
def truncRat (q : ℚ) : Int := if 0 ≤ q then ⌊q⌋ else ⌈q⌉

/-- The magnitude of `m` units of `2^-149` is the magnitude of a finite binary32 value: it has
at most 24 significant binary digits and is below `2^128`. -/
def F32.Representable (m : Nat) : Prop := 2 ^ (bitLen m - 24) ∣ m ∧ m / 2 ^ 253 < 2 ^ 24

instance instDecidableRepresentable (m : Nat) : Decidable (F32.Representable m) :=
  inferInstanceAs (Decidable (2 ^ (bitLen m - 24) ∣ m ∧ m / 2 ^ 253 < 2 ^ 24))

/-- Condition on a box `[x, y, width, height]` of `float32` values under which its corners
are the truncations of x, y, x + width and y + height: the four entries are finite; x, y and
the real sums x + width and y + height are below `2^63` in absolute value (`2^212` units);
and the two real sums are themselves `float32` values, so that the `float32` additions do not
round. -/
def ExactCorners (x y w h : F32) : Prop :=
  match x.units, y.units, w.units, h.units with
  | some ex, some ey, some ew, some eh =>
    ex.natAbs < 2 ^ 212 ∧ ey.natAbs < 2 ^ 212 ∧
      (ex + ew).natAbs < 2 ^ 212 ∧ (ey + eh).natAbs < 2 ^ 212 ∧
      F32.Representable (ex + ew).natAbs ∧ F32.Representable (ey + eh).natAbs
  | _, _, _, _ => False

instance instDecidableExactCorners (x y w h : F32) : Decidable (ExactCorners x y w h) := by
  unfold ExactCorners
  split
  · exact inferInstanceAs (Decidable (_ ∧ _))
  · exact inferInstanceAs (Decidable False)

/-- The box `b` has the corners xmin = trunc(x), ymin = trunc(y), xmax = trunc(x + width),
ymax = trunc(y + height), for the numbers the four `float32` values stand for and the sums of
rational numbers. -/
def TruncCorners (x y w h : F32) (b : VOCBndbox) : Prop :=
  ∃ qx qy qw qh : ℚ, x.toRat = some qx ∧ y.toRat = some qy ∧ w.toRat = some qw ∧
    h.toRat = some qh ∧ b.Xmin = truncRat qx ∧ b.Ymin = truncRat qy ∧
    b.Xmax = truncRat (qx + qw) ∧ b.Ymax = truncRat (qy + qh)

/-- The four integers xmin, ymin, xmax - xmin, ymax - ymin of the box are of absolute value at
most `2^24`. -/
def SmallBndbox (b : VOCBndbox) : Prop :=
  b.Xmin.natAbs ≤ 2 ^ 24 ∧ b.Ymin.natAbs ≤ 2 ^ 24 ∧ (b.Xmax - b.Xmin).natAbs ≤ 2 ^ 24 ∧
    (b.Ymax - b.Ymin).natAbs ≤ 2 ^ 24

instance instDecidableSmallBndbox (b : VOCBndbox) : Decidable (SmallBndbox b) :=
  inferInstanceAs (Decidable (_ ∧ _))

/-- The VOC object `obj` is the one `ReadVOCAnnotationsFromCOCOFile` makes from the COCO
annotation `a`, in the terms of the claim: named after the category stored under the
`category_id` of `a` (the last category of the document with that id), pose unspecified, all
flags 0; the box of `a` has four entries x, y, width, height, and when they satisfy
`ExactCorners` the corners of `obj` are trunc(x), trunc(y), trunc(x + width),
trunc(y + height). -/
def VocObjectTruncOf (categories : List COCOCategory) (obj : VOCAnnotationItem)
    (a : COCOAnnotation) : Prop :=
  (∃ c, categories.reverse.find? (fun c => decide (c.ID = a.CategoryID)) = some c ∧
      obj.Name = c.Name) ∧
    obj.Pose = Unspecified ∧ obj.Truncated = 0 ∧ obj.Difficult = 0 ∧ obj.Occluded = 0 ∧
    ∃ x y w h rest, a.BBox = x :: y :: w :: h :: rest ∧
      (ExactCorners x y w h → TruncCorners x y w h obj.Bndbox)

/-! ## Sample inputs -/

/-- A COCO document with two images, two categories and three annotations; the second
annotation has a fractional corner, 5.5. -/
def sampleCoco : COCOAnnotations :=
  { Info := exportInfo "2022-01-01T00:00:00+00:00"
    Licenses := [exportLicense]
    Categories := [{ ID := 1, Name := "cat", SuperCategory := "" },
                   { ID := 2, Name := "dog", SuperCategory := "" }]
    Images := [{ ID := 1, License := 1, FileName := "a.jpg", Height := 200, Width := 300,
                 DateCaptured := "" },
               { ID := 2, License := 1, FileName := "b.jpg", Height := 100, Width := 100,
                 DateCaptured := "" }]
    Annotations := [{ ID := 0, ImageID := 1, CategoryID := 1,
                      BBox := [F32.ofInt 10, F32.ofInt 10, F32.ofInt 50, F32.ofInt 70],
                      Area := F32.ofInt 3500, Segmentation := [], IsCrowd := 0 },
                    { ID := 1, ImageID := 2, CategoryID := 2,
                      BBox := [F32.fin false (11 * 2 ^ 148), F32.ofInt 5, F32.ofInt 20,
                        F32.ofInt 30],
                      Area := F32.ofInt 600, Segmentation := [], IsCrowd := 0 },
                    { ID := 2, ImageID := 1, CategoryID := 2,
                      BBox := [F32.ofInt 0, F32.ofInt 0, F32.ofInt 1, F32.ofInt 1],
                      Area := F32.ofInt 1, Segmentation := [], IsCrowd := 0 }] }

/-- The VOC object the readers make for the label `name` and the corners given. -/
def sampleObject (name : String) (xmin ymin xmax ymax : Int) : VOCAnnotationItem :=
  { Name := name, Pose := Unspecified, Truncated := 0, Difficult := 0, Occluded := 0,
    Bndbox := { Xmin := xmin, Ymin := ymin, Xmax := xmax, Ymax := ymax } }

/-- What `ReadVOCAnnotationsFromCOCOFile` returns for `sampleCoco` when the iteration over
the map visits the newest key first. -/
def sampleVocResult : VOCAnnotations :=
  [{ vocShell { ID := 2, License := 1, FileName := "b.jpg", Height := 100, Width := 100,
                DateCaptured := "" } with
     Object := [sampleObject "dog" 5 5 25 35] },
   { vocShell { ID := 1, License := 1, FileName := "a.jpg", Height := 200, Width := 300,
                DateCaptured := "" } with
     Object := [sampleObject "cat" 10 10 60 80, sampleObject "dog" 0 0 1 1] }]

/-- The annotation of `sampleDangling` that refers to no image and to no category. -/
def sampleStray : COCOAnnotation :=
  { ID := 5, ImageID := 7, CategoryID := 9,
    BBox := [F32.zero, F32.zero, F32.zero, F32.zero],
    Area := F32.zero, Segmentation := [], IsCrowd := 0 }

/-- The document `sampleCoco` with a dangling annotation in second place and an annotation
of an unknown category after it. -/
def sampleDangling : COCOAnnotations :=
  { sampleCoco with
    Annotations := [{ ID := 0, ImageID := 1, CategoryID := 1,
                      BBox := [F32.zero, F32.zero, F32.zero, F32.zero],
                      Area := F32.zero, Segmentation := [], IsCrowd := 0 },
                    sampleStray,
                    { ID := 6, ImageID := 1, CategoryID := 9,
                      BBox := [F32.zero, F32.zero, F32.zero, F32.zero],
                      Area := F32.zero, Segmentation := [], IsCrowd := 0 }] }

/-- A CreateML document with one entry and two items. -/
def sampleCreateML : CreateMLAnnotations :=
  [{ Image := "b.jpg"
     Annotations := [{ Label := "dog"
                       Coordinates := { X := F32.ofInt 5, Y := F32.ofInt 5,
                                        Width := F32.ofInt 20, Height := F32.ofInt 30 } },
                     { Label := "cat"
                       Coordinates := { X := F32.ofInt 0, Y := F32.ofInt 0,
                                        Width := F32.ofInt 1, Height := F32.ofInt 1 } }] }]

/-- A probe that finds `b.jpg` to be 640 pixels wide and 480 high and no other file. -/
def sampleProbe (name : String) : ImageProbe :=
  if name = "b.jpg" then .config 640 480 else .openFailed "no such file or directory"

/-- What `ReadCOCOAnnotationsFromCreateMLFile` returns for `sampleCreateML`. -/
def sampleCreateMLCoco : COCOAnnotations :=
  { Info := exportInfo "2022-01-01T00:00:00+00:00"
    Licenses := [exportLicense]
    Categories := [{ ID := 1, Name := "dog", SuperCategory := "" },
                   { ID := 2, Name := "cat", SuperCategory := "" }]
    Images := [{ ID := 1, License := 1, FileName := "b.jpg", Height := 480, Width := 640,
                 DateCaptured := "" }]
    Annotations := [{ ID := 0, ImageID := 1, CategoryID := 1,
                      BBox := [F32.ofInt 5, F32.ofInt 5, F32.ofInt 20, F32.ofInt 30],
                      Area := F32.ofInt 600, Segmentation := [], IsCrowd := 0 },
                    { ID := 1, ImageID := 1, CategoryID := 2,
                      BBox := [F32.ofInt 0, F32.ofInt 0, F32.ofInt 1, F32.ofInt 1],
                      Area := F32.ofInt 1, Segmentation := [], IsCrowd := 0 }] }

/-- An outside world in which the directory `voc` lists three entries, every file can be
read and written, every decoder leaves its target as it is and every encoder gives no
bytes. -/
def sampleEnv : Env :=
  { readDir := fun path =>
      if path = "voc" then .ok ["a.xml", "notes.txt", "b.XML"] else .error "no such directory"
    readFile := fun _ => .ok []
    writeFile := fun _ _ => none
    stat := fun _ => none
    isExist := fun _ => false
    join := fun dir name => dir ++ "/" ++ name
    dir := fun _ => "."
    probe := sampleProbe
    xmlUnmarshal := fun _ v => (v, none)
    jsonUnmarshalCOCO := fun _ v => (v, none)
    jsonUnmarshalCreateML := fun _ v => (v, none)
    xmlMarshalIndent := fun _ => .ok []
    jsonMarshalIndentCOCO := fun _ => .ok []
    jsonIndent := fun _ => .ok []
    nowDateCreated := "2022-01-01T00:00:00+00:00"
    nowFileStamp := "20220101000000"
    rangeCategories := MapIter.insertionOrder _
    rangeVOC := MapIter.insertionOrder _
    rangeCreateML := MapIter.insertionOrder _ }

/-- Two annotations whose image file names differ only in the extension. -/
def sampleSameStem : VOCAnnotations :=
  [{ VOCAnnotation.zero with Filename := "a.jpg" }, { VOCAnnotation.zero with Filename := "a.png" }]

/-- Two annotations whose image file names have different stems. -/
def sampleTwoStems : VOCAnnotations :=
  [{ VOCAnnotation.zero with Filename := "a.jpg" }, { VOCAnnotation.zero with Filename := "b.png" }]

/-- An image with the id 1. -/
def sampleEarlier : COCOImage :=
  { ID := 1, License := 1, FileName := "a.jpg", Height := 10, Width := 10, DateCaptured := "" }

/-- Another image with the id 1. -/
def sampleLater : COCOImage :=
  { ID := 1, License := 1, FileName := "b.jpg", Height := 20, Width := 20, DateCaptured := "" }

/-- A COCO document whose two images share the id 1, without annotations. -/
def sampleSharedId : COCOAnnotations :=
  { sampleCoco with Images := [sampleEarlier, sampleLater], Annotations := [] }

/-- What `ReadCreateMLAnnotationsFromCOCOFile` returns for `sampleCoco` when the iteration
over the map visits the oldest key first. -/
def sampleCreateMLResult : CreateMLAnnotations :=
  [{ Image := "a.jpg"
     Annotations := [{ Label := "cat"
                       Coordinates := { X := F32.ofInt 10, Y := F32.ofInt 10,
                                        Width := F32.ofInt 50, Height := F32.ofInt 70 } },
                     { Label := "dog"
                       Coordinates := { X := F32.ofInt 0, Y := F32.ofInt 0,
                                        Width := F32.ofInt 1, Height := F32.ofInt 1 } }] },
   { Image := "b.jpg"
     Annotations := [{ Label := "dog"
                       Coordinates := { X := F32.fin false (11 * 2 ^ 148), Y := F32.ofInt 5,
                                        Width := F32.ofInt 20, Height := F32.ofInt 30 } }] }]

/-- The outside world `sampleEnv` with a COCO file `coco.json` and a CreateML file
`createml.json`: the decoder of each schema accepts the content of its own file only, and
refuses any other content with the message of `encoding/json`. -/
def sampleFilesEnv : Env :=
  { sampleEnv with
    readFile := fun path =>
      if path = "coco.json" then .ok [1] else if path = "createml.json" then .ok [2] else .ok []
    jsonUnmarshalCOCO := fun bytes v =>
      if bytes = [1] then (sampleCoco, none)
      else (v, some "json: cannot unmarshal array into Go value of type model.COCOAnnotations")
    jsonUnmarshalCreateML := fun bytes v =>
      if bytes = [2] then (sampleCreateML, none)
      else (v,
        some "json: cannot unmarshal object into Go value of type model.CreateMLAnnotations") }

/-- The document `sampleCoco` with one annotation only, whose box has three entries. -/
def sampleShortBox : COCOAnnotations :=
  { sampleCoco with
    Annotations := [{ ID := 0, ImageID := 1, CategoryID := 1,
                      BBox := [F32.ofInt 10, F32.ofInt 10, F32.ofInt 50],
                      Area := F32.ofInt 3500, Segmentation := [], IsCrowd := 0 }] }

/-- The document `sampleCoco` with three images, the first two sharing the id 1. -/
def sampleSharedIdBoxes : COCOAnnotations :=
  { sampleCoco with
    Images := [sampleEarlier, sampleLater,
      { ID := 2, License := 1, FileName := "c.jpg", Height := 100, Width := 100,
        DateCaptured := "" }] }

/-- What `ReadVOCAnnotationsFromCOCOFile` returns for `sampleSharedIdBoxes` when the
iteration over the map visits the oldest key first. -/
def sampleSharedVocResult : VOCAnnotations :=
  [{ vocShell sampleLater with
     Object := [sampleObject "cat" 10 10 60 80, sampleObject "dog" 0 0 1 1] },
   { vocShell { ID := 2, License := 1, FileName := "c.jpg", Height := 100, Width := 100,
                DateCaptured := "" } with
     Object := [sampleObject "dog" 5 5 25 35] }]

/-- A CreateML document whose one item begins at x = 16777216 = 2^24 and is 1 wide. -/
def sampleWide : CreateMLAnnotations :=
  [{ Image := "b.jpg"
     Annotations := [{ Label := "dog"
                       Coordinates := { X := F32.ofInt 16777216, Y := F32.ofInt 0,
                                        Width := F32.ofInt 1, Height := F32.ofInt 1 } }] }]

/-- The document `sampleWide` after the way to VOC and back: the item is 0 wide. -/
def sampleWideBack : CreateMLAnnotations :=
  [{ Image := "b.jpg"
     Annotations := [{ Label := "dog"
                       Coordinates := { X := F32.ofInt 16777216, Y := F32.ofInt 0,
                                        Width := F32.ofInt 0, Height := F32.ofInt 1 } }] }]

/-- A VOC list with one image and one object, at (16777217, 0, 16781314, 4097): its xmin is
2^24 + 1, its width and its height are 4097. -/
def sampleLargeVoc : VOCAnnotations :=
  [{ VOCAnnotation.zero with
     Filename := "a.jpg"
     Object := [sampleObject "cat" 16777217 0 16781314 4097] }]

/-- The document `sampleCoco` with its first image only and two annotations: the box
[16777216, 16777216, 1, 3], and a box that begins at x = 2^70. -/
def sampleBigBoxes : COCOAnnotations :=
  { sampleCoco with
    Images := [{ ID := 1, License := 1, FileName := "a.jpg", Height := 200, Width := 300,
                 DateCaptured := "" }]
    Annotations := [{ ID := 0, ImageID := 1, CategoryID := 1,
                      BBox := [F32.ofInt 16777216, F32.ofInt 16777216, F32.ofInt 1,
                        F32.ofInt 3],
                      Area := F32.ofInt 3, Segmentation := [], IsCrowd := 0 },
                    { ID := 1, ImageID := 1, CategoryID := 2,
                      BBox := [F32.fin false (2 ^ 70 * 2 ^ 149), F32.ofInt 0, F32.ofInt 0,
                        F32.ofInt 0],
                      Area := F32.ofInt 0, Segmentation := [], IsCrowd := 0 }] }

/-- A CreateML document whose one item begins at x = 2^70. -/
def sampleFar : CreateMLAnnotations :=
  [{ Image := "b.jpg"
     Annotations := [{ Label := "dog"
                       Coordinates := { X := F32.fin false (2 ^ 70 * 2 ^ 149), Y := F32.ofInt 0,
                                        Width := F32.ofInt 0, Height := F32.ofInt 0 } }] }]

/-- The outside world `sampleEnv` with a directory listing that holds the one entry
`b.XML`. -/
def sampleUpperEnv : Env :=
  { sampleEnv with readDir := fun _ => .ok ["b.XML"] }

/-- The outside world `sampleEnv` with a decoder of COCO files that finds the document
`sampleShortBox` in every file. -/
def sampleShortBoxEnv : Env :=
  { sampleEnv with jsonUnmarshalCOCO := fun _ _ => (sampleShortBox, none) }

/-- The outside world `sampleEnv` with a join that, like `filepath.Join`, which cleans its
result, does not keep a leading `./` of the name. -/
def sampleCleanEnv : Env :=
  { sampleEnv with
    join := fun dir name =>
      dir ++ "/" ++
        (if "./".data.isPrefixOf name.data then String.mk (name.data.drop 2) else name) }

/-- Two annotations whose image file names `a.jpg` and `./a.jpg` have different stems and
name the same file. -/
def sampleDotSlash : VOCAnnotations :=
  [{ VOCAnnotation.zero with Filename := "a.jpg" },
   { VOCAnnotation.zero with Filename := "./a.jpg" }]

/-! ## Lemmas -/

theorem bitLenAux_le (fuel : Nat) : ∀ (m b : Nat), m < 2 ^ b → bitLenAux fuel m ≤ b := by
  induction fuel with
  | zero => intro m b _; simp [bitLenAux]
  | succ fuel ih =>
    intro m b hm
    unfold bitLenAux
    split
    · exact Nat.zero_le _
    · rename_i hm0
      cases b with
      | zero => simp at hm; exact absurd hm hm0
      | succ b =>
        have : m / 2 < 2 ^ b := by
          rw [Nat.div_lt_iff_lt_mul (by decide)]
          rw [pow_succ] at hm
          exact hm
        exact Nat.succ_le_succ (ih _ _ this)

theorem bitLen_le {m b : Nat} (h : m < 2 ^ b) : bitLen m ≤ b := bitLenAux_le m m b h

/-- A magnitude whose dropped bits are all zero is kept as it is. -/
theorem roundUnits_of_dvd (neg : Bool) (m : Nat) (hd : 2 ^ (bitLen m - 24) ∣ m)
    (hm : m / 2 ^ 253 < 2 ^ 24) : roundUnits neg m 0 = F32.fin neg m := by
  unfold roundUnits
  have hmax : max (bitLen m - 24) 0 = bitLen m - 24 := by simp
  simp only [hmax, Nat.sub_zero]
  have hr : m % 2 ^ (bitLen m - 24) = 0 := Nat.mod_eq_zero_of_dvd hd
  have hpos : 0 < 2 ^ (bitLen m - 24) := Nat.two_pow_pos _
  have hq : m / 2 ^ (bitLen m - 24) * 2 ^ (bitLen m - 24) = m := Nat.div_mul_cancel hd
  have hov : ¬ (2 ^ 24 ≤ m / 2 ^ 253) := not_le.mpr hm
  have hc : ¬ (2 ^ (bitLen m - 24) < 2 * (m % 2 ^ (bitLen m - 24)) ∨
      (2 * (m % 2 ^ (bitLen m - 24)) = 2 ^ (bitLen m - 24) ∧
        m / 2 ^ (bitLen m - 24) % 2 = 1)) := by
    rw [hr]
    omega
  rw [if_neg hc, hq, if_neg hov]

theorem roundUnits_small (neg : Bool) (n : Nat) (hn : n ≤ 2 ^ 24) :
    roundUnits neg (n * 2 ^ 149) 0 = F32.fin neg (n * 2 ^ 149) := by
  apply roundUnits_of_dvd
  · have hlt : n * 2 ^ 149 < 2 ^ 174 := by
      calc n * 2 ^ 149 ≤ 2 ^ 24 * 2 ^ 149 := Nat.mul_le_mul_right _ hn
        _ < 2 ^ 174 := by rw [← pow_add]; exact Nat.pow_lt_pow_right (by decide) (by decide)
    rcases Nat.lt_or_ge n (2 ^ 24) with h | h
    · have hlt2 : n * 2 ^ 149 < 2 ^ 173 := by
        calc n * 2 ^ 149 < 2 ^ 24 * 2 ^ 149 := Nat.mul_lt_mul_of_pos_right h (Nat.two_pow_pos _)
          _ = 2 ^ 173 := by rw [← pow_add]
      have hb := bitLen_le hlt2
      have hd : bitLen (n * 2 ^ 149) - 24 ≤ 149 := by omega
      exact Dvd.dvd.mul_left (pow_dvd_pow 2 hd) n
    · have hn2 : n = 2 ^ 24 := le_antisymm hn h
      have hb := bitLen_le hlt
      have hd : bitLen (n * 2 ^ 149) - 24 ≤ 150 := by omega
      have : n * 2 ^ 149 = 2 ^ 23 * 2 ^ 150 := by rw [hn2, ← pow_add, ← pow_add]
      rw [this] at hd ⊢
      exact Dvd.dvd.mul_left (pow_dvd_pow 2 hd) _
  · have h0 : n * 2 ^ 149 / 2 ^ 253 = 0 := by
      apply Nat.div_eq_of_lt
      calc n * 2 ^ 149 ≤ 2 ^ 24 * 2 ^ 149 := Nat.mul_le_mul_right _ hn
        _ < 2 ^ 253 := by rw [← pow_add]; exact Nat.pow_lt_pow_right (by decide) (by decide)
    rw [h0]
    exact Nat.two_pow_pos _

theorem ofInt_small (z : Int) (hz : z.natAbs ≤ 2 ^ 24) :
    F32.ofInt z = F32.fin (decide (z < 0)) (z.natAbs * 2 ^ 149) :=
  roundUnits_small _ _ hz

theorem signedUnits_natAbs (z : Int) : F32.signedUnits (decide (z < 0)) z.natAbs = z := by
  unfold F32.signedUnits
  by_cases h : z < 0
  · simp only [h, decide_True, if_true]; omega
  · simp only [h, decide_False]; simp; omega

theorem signedUnits_mul (neg : Bool) (n k : Nat) :
    F32.signedUnits neg (n * k) = F32.signedUnits neg n * (k : Int) := by
  unfold F32.signedUnits
  cases neg <;> simp

theorem toInt_fin_small (neg : Bool) (n : Nat) (hn : n ≤ 2 ^ 24) :
    F32.toInt (F32.fin neg (n * 2 ^ 149)) = F32.signedUnits neg n := by
  unfold F32.toInt
  simp only [Nat.mul_div_cancel _ (Nat.two_pow_pos 149)]
  have h1 : (n : Int) ≤ 2 ^ 24 := by exact_mod_cast hn
  have hr : -(2 ^ 63 : Int) ≤ F32.signedUnits neg n ∧ F32.signedUnits neg n < 2 ^ 63 := by
    unfold F32.signedUnits
    cases neg <;> simp <;> omega
  rw [if_pos hr]

/-- Conversion to `float32` and back is exact up to `2^24`. -/
theorem toInt_ofInt_small (z : Int) (hz : z.natAbs ≤ 2 ^ 24) : F32.toInt (F32.ofInt z) = z := by
  rw [ofInt_small z hz, toInt_fin_small _ _ hz, signedUnits_natAbs]

/-- The `float32` sum of two small integers is exact when the sum is small too. -/
theorem toInt_add_ofInt_small (a b : Int) (ha : a.natAbs ≤ 2 ^ 24) (hb : b.natAbs ≤ 2 ^ 24)
    (hab : (a + b).natAbs ≤ 2 ^ 24) :
    F32.toInt (F32.add (F32.ofInt a) (F32.ofInt b)) = a + b := by
  rw [ofInt_small a ha, ofInt_small b hb]
  unfold F32.add
  simp only [signedUnits_mul, signedUnits_natAbs]
  have hsum : a * ((2 ^ 149 : Nat) : Int) + b * ((2 ^ 149 : Nat) : Int)
      = (a + b) * ((2 ^ 149 : Nat) : Int) := by ring
  rw [hsum]
  have hp : ((2 ^ 149 : Nat) : Int) ≠ 0 := by positivity
  by_cases h0 : a + b = 0
  · simp only [h0, zero_mul, if_true]
    unfold F32.toInt F32.signedUnits
    cases (decide (a < 0) && decide (b < 0)) <;> simp
  · have hne : (a + b) * ((2 ^ 149 : Nat) : Int) ≠ 0 := mul_ne_zero h0 hp
    rw [if_neg hne]
    have hneg : decide ((a + b) * ((2 ^ 149 : Nat) : Int) < 0) = decide (a + b < 0) := by
      congr 1
      apply propext
      constructor
      · intro h
        by_contra hc
        have : 0 ≤ (a + b) * ((2 ^ 149 : Nat) : Int) := mul_nonneg (not_lt.mp hc) (by positivity)
        omega
      · intro h
        exact mul_neg_of_neg_of_pos h (by positivity)
    have habs : ((a + b) * ((2 ^ 149 : Nat) : Int)).natAbs = (a + b).natAbs * 2 ^ 149 := by
      rw [Int.natAbs_mul, Int.natAbs_ofNat]
    rw [hneg, habs, roundUnits_small _ _ hab, toInt_fin_small _ _ hab, signedUnits_natAbs]

theorem wrapInt64_small (z : Int) (h1 : -(2 ^ 63) ≤ z) (h2 : z < 2 ^ 63) : wrapInt64 z = z := by
  unfold wrapInt64
  omega

theorem bndboxOfBBox_four (x y w h : F32) (rest : List F32) :
    bndboxOfBBox (x :: y :: w :: h :: rest) =
      .ok { Xmin := F32.toInt x, Ymin := F32.toInt y,
            Xmax := F32.toInt (F32.add x w), Ymax := F32.toInt (F32.add y h) } := by
  simp [bndboxOfBBox, sliceGet, bind, Except.bind, pure, Except.pure]

/-- A `BBox` with fewer than four entries makes the index expression panic, at the first
index that is missing. -/
theorem bndboxOfBBox_short (bbox : List F32) (h : bbox.length < 4) :
    bndboxOfBBox bbox = .error (.indexPanic bbox.length bbox.length) := by
  match bbox, h with
  | [], _ => simp [bndboxOfBBox, sliceGet, bind, Except.bind]
  | [_], _ => simp [bndboxOfBBox, sliceGet, bind, Except.bind]
  | [_, _], _ => simp [bndboxOfBBox, sliceGet, bind, Except.bind]
  | [_, _, _], _ => simp [bndboxOfBBox, sliceGet, bind, Except.bind]

theorem coordinatesOfBBox_four (x y w h : F32) (rest : List F32) :
    coordinatesOfBBox (x :: y :: w :: h :: rest) =
      .ok { X := x, Y := y, Width := w, Height := h } := by
  simp [coordinatesOfBBox, sliceGet, bind, Except.bind, pure, Except.pure]

theorem coordinatesOfBBox_short (bbox : List F32) (h : bbox.length < 4) :
    coordinatesOfBBox bbox = .error (.indexPanic bbox.length bbox.length) := by
  match bbox, h with
  | [], _ => simp [coordinatesOfBBox, sliceGet, bind, Except.bind]
  | [_], _ => simp [coordinatesOfBBox, sliceGet, bind, Except.bind]
  | [_, _], _ => simp [coordinatesOfBBox, sliceGet, bind, Except.bind]
  | [_, _, _], _ => simp [coordinatesOfBBox, sliceGet, bind, Except.bind]

theorem lookup_catMapFrom (name : String) : ∀ (keys : List String) (s : Nat),
    GoMap.lookup (catMapFrom s keys) name =
      if name ∈ keys then
        some { ID := ((s + keys.indexOf name : Nat) : Int) + 1, Name := name, SuperCategory := "" }
      else none := by
  intro keys
  induction keys with
  | nil => intro s; simp [catMapFrom, GoMap.lookup, GoMap.empty]
  | cons k ks ih =>
    intro s
    unfold catMapFrom
    unfold GoMap.lookup
    by_cases hk : k = name
    · subst hk
      simp
    · have hne : ¬ name = k := fun h => hk h.symm
      rw [if_neg hk, ih (s + 1)]
      simp only [List.mem_cons, hne, false_or]
      rw [List.indexOf_cons_ne _ hk]
      by_cases hm : name ∈ ks
      · simp only [hm, if_true]
        congr 2
        push_cast
        omega
      · simp [hm]

theorem catMapFrom_append : ∀ (a b : List String) (s : Nat),
    catMapFrom s (a ++ b) = catMapFrom s a ++ catMapFrom (s + a.length) b := by
  intro a
  induction a with
  | nil => intro b s; simp [catMapFrom, GoMap.empty]
  | cons x xs ih =>
    intro b s
    have e1 : catMapFrom s (x :: (xs ++ b)) =
        (x, { ID := (s : Int) + 1, Name := x, SuperCategory := "" }) ::
          catMapFrom (s + 1) (xs ++ b) := rfl
    have e2 : catMapFrom s (x :: xs) =
        (x, { ID := (s : Int) + 1, Name := x, SuperCategory := "" }) ::
          catMapFrom (s + 1) xs := rfl
    have e3 : s + 1 + xs.length = s + (xs.length + 1) := by omega
    rw [List.cons_append, e1, e2, ih, List.cons_append, List.length_cons, e3]

theorem len_catMapFrom : ∀ (keys : List String) (s : Nat),
    GoMap.len (catMapFrom s keys) = keys.length := by
  intro keys
  induction keys with
  | nil => intro s; rfl
  | cons x xs ih =>
    intro s
    have := ih (s + 1)
    simp only [GoMap.len] at this ⊢
    simp [catMapFrom, this]

theorem store_catMapFrom_new (name : String) (v : COCOCategory) : ∀ (keys : List String) (s : Nat),
    name ∉ keys →
    GoMap.store (catMapFrom s keys) name v = catMapFrom s keys ++ [(name, v)] := by
  intro keys
  induction keys with
  | nil => intro s _; rfl
  | cons k ks ih =>
    intro s hn
    have hk : ¬ k = name := fun h => hn (by simp [h])
    have hks : name ∉ ks := fun h => hn (by simp [h])
    unfold catMapFrom
    unfold GoMap.store
    rw [if_neg hk, ih (s + 1) hks]
    rfl

theorem resolveCategory_catMapFrom (keys : List String) (name : String) :
    resolveCategory (catMapFrom 0 keys) name =
      ({ ID := catId (keysAdd keys name) name, Name := name, SuperCategory := "" },
        catMapFrom 0 (keysAdd keys name)) := by
  unfold resolveCategory
  rw [lookup_catMapFrom]
  by_cases hm : name ∈ keys
  · simp [hm, keysAdd, catId]
  · simp only [hm, if_false, keysAdd, catId, len_catMapFrom]
    rw [store_catMapFrom_new _ _ _ _ hm, catMapFrom_append]
    have hidx : List.indexOf name (keys ++ [name]) = keys.length := by
      rw [List.indexOf_append_of_not_mem hm]
      simp
    rw [hidx]
    simp [catMapFrom, GoMap.empty]

theorem keysFold_append (names : List String) : ∀ keys : List String,
    ∃ extra, names.foldl keysAdd keys = keys ++ extra := by
  induction names with
  | nil => intro keys; exact ⟨[], by simp⟩
  | cons x xs ih =>
    intro keys
    obtain ⟨extra, he⟩ := ih (keysAdd keys x)
    rw [List.foldl_cons, he]
    unfold keysAdd
    split
    · exact ⟨extra, rfl⟩
    · exact ⟨x :: extra, by simp⟩

theorem mem_keysAdd (keys : List String) (name : String) : name ∈ keysAdd keys name := by
  unfold keysAdd
  split <;> simp_all

theorem mem_keysFold (names : List String) : ∀ keys : List String,
    ∀ x, x ∈ keys ∨ x ∈ names → x ∈ names.foldl keysAdd keys := by
  induction names with
  | nil => intro keys x h; simpa using h
  | cons y ys ih =>
    intro keys x h
    rw [List.foldl_cons]
    apply ih
    rcases h with h | h
    · left
      unfold keysAdd
      split <;> simp_all
    · rcases List.mem_cons.mp h with h | h
      · left; rw [h]; exact mem_keysAdd _ _
      · right; exact h

theorem catId_append (keys extra : List String) (name : String) (h : name ∈ keys) :
    catId (keys ++ extra) name = catId keys name := by
  unfold catId
  rw [List.indexOf_append_of_mem h]

theorem itemsFrom_append_keys (keys extra : List String) (imageID : Int) (base : Nat) :
    ∀ (xs : List Labeled) (i : Nat), (∀ x ∈ xs, x.Label ∈ keys) →
      itemsFrom (keys ++ extra) imageID base i xs = itemsFrom keys imageID base i xs := by
  intro xs
  induction xs with
  | nil => intro i _; rfl
  | cons x rest ih =>
    intro i h
    unfold itemsFrom
    rw [catId_append _ _ _ (h x (by simp)), ih (i + 1) (fun y hy => h y (by simp [hy]))]

theorem length_itemsFrom (keys : List String) (imageID : Int) (base : Nat) :
    ∀ (xs : List Labeled) (i : Nat), (itemsFrom keys imageID base i xs).length = xs.length := by
  intro xs
  induction xs with
  | nil => intro i; rfl
  | cons x rest ih => intro i; simp [itemsFrom, ih]

theorem labeledLoop_eq (base : Nat) (img : COCOImage) :
    ∀ (xs : List Labeled) (i : Nat) (st : CocoBuild) (keys : List String),
      st.categoriesMap = catMapFrom 0 keys →
      labeledLoop base img i xs st =
        { categoriesMap := catMapFrom 0 ((xs.map (fun x => x.Label)).foldl keysAdd keys)
          images := st.images
          annotationItems := st.annotationItems ++
            itemsFrom ((xs.map (fun x => x.Label)).foldl keysAdd keys) img.ID base i xs } := by
  intro xs
  induction xs with
  | nil =>
    intro i st keys h
    cases st
    simp_all [labeledLoop, itemsFrom]
  | cons x rest ih =>
    intro i st keys h
    unfold labeledLoop
    have hstep : (labeledStep base img st i x).categoriesMap = catMapFrom 0 (keysAdd keys x.Label) := by
      simp [labeledStep, h, resolveCategory_catMapFrom]
    rw [ih (i + 1) _ _ hstep]
    simp only [List.map_cons, List.foldl_cons]
    obtain ⟨extra, he⟩ := keysFold_append (rest.map (fun x => x.Label)) (keysAdd keys x.Label)
    have hid : catId (List.foldl keysAdd (keysAdd keys x.Label) (rest.map (fun x => x.Label))) x.Label
        = catId (keysAdd keys x.Label) x.Label := by
      rw [he]
      exact catId_append _ _ _ (mem_keysAdd _ _)
    simp [labeledStep, h, resolveCategory_catMapFrom, itemsFrom, hid]

theorem entryLabels_cons (e : ImageEntry) (rest : List ImageEntry) :
    entryLabels (e :: rest) = e.Items.map (fun x => x.Label) ++ entryLabels rest := by
  simp [entryLabels]

theorem entryLoop_eq :
    ∀ (es : List ImageEntry) (index : Nat) (st : CocoBuild) (keys : List String)
      (pre : List COCOImage),
      st.categoriesMap = catMapFrom 0 keys →
      st.images = pre ++ List.replicate es.length COCOImage.zero →
      pre.length = index →
      entryLoop index es st =
        { categoriesMap := catMapFrom 0 ((entryLabels es).foldl keysAdd keys)
          images := pre ++ imagesFrom index es
          annotationItems := st.annotationItems ++
            allItemsFrom ((entryLabels es).foldl keysAdd keys) index
              st.annotationItems.length es } := by
  intro es
  induction es with
  | nil =>
    intro index st keys pre h1 h2 _
    cases st
    simp_all [entryLoop, entryLabels, imagesFrom, allItemsFrom]
  | cons e rest ih =>
    intro index st keys pre h1 h2 h3
    unfold entryLoop
    simp only
    have hset : st.images.set index (entryImage index e) =
        (pre ++ [entryImage index e]) ++ List.replicate rest.length COCOImage.zero := by
      rw [h2, ← h3]
      simp [List.replicate_succ]
    rw [labeledLoop_eq _ _ _ _ _ keys (by simpa using h1)]
    rw [ih (index + 1) _ ((e.Items.map (fun x => x.Label)).foldl keysAdd keys)
      (pre ++ [entryImage index e]) rfl (by simpa using hset) (by simp [h3])]
    rw [entryLabels_cons, List.foldl_append]
    obtain ⟨extra, he⟩ := keysFold_append (entryLabels rest)
      ((e.Items.map (fun x => x.Label)).foldl keysAdd keys)
    have hitems : itemsFrom ((entryLabels rest).foldl keysAdd
          ((e.Items.map (fun x => x.Label)).foldl keysAdd keys)) ((index : Int) + 1)
          st.annotationItems.length 0 e.Items =
        itemsFrom ((e.Items.map (fun x => x.Label)).foldl keysAdd keys) ((index : Int) + 1)
          st.annotationItems.length 0 e.Items := by
      rw [he]
      apply itemsFrom_append_keys
      intro x hx
      apply mem_keysFold
      right
      exact List.mem_map_of_mem _ hx
    simp [imagesFrom, allItemsFrom, hitems, length_itemsFrom, entryImage]

theorem firstSeen_cons (x : String) (xs : List String) :
    firstSeen (x :: xs) = x :: (firstSeen xs).filter (fun y => y ≠ x) := rfl

theorem keysFold_firstSeen (names : List String) : ∀ keys : List String,
    names.foldl keysAdd keys = keys ++ (firstSeen names).filter (fun y => y ∉ keys) := by
  induction names with
  | nil => intro keys; simp [firstSeen]
  | cons x xs ih =>
    intro keys
    rw [List.foldl_cons, ih, firstSeen_cons]
    unfold keysAdd
    by_cases hx : x ∈ keys
    · simp only [hx, if_true]
      rw [List.filter_cons]
      simp only [hx, not_true_eq_false, decide_False, Bool.false_eq_true, if_false]
      rw [List.filter_filter]
      congr 1
      apply List.filter_congr
      intro y _
      by_cases hy : y ∈ keys
      · simp [hy]
      · have : y ≠ x := fun h => hy (h ▸ hx)
        simp [hy, this]
    · simp only [hx, if_false]
      rw [List.filter_cons]
      simp only [hx, not_false_eq_true, decide_True, if_true]
      rw [List.filter_filter, List.append_assoc, List.singleton_append]
      congr 2
      apply List.filter_congr
      intro y _
      by_cases hy : y ∈ keys <;> by_cases hyx : y = x <;> simp [hy, hyx]

theorem keysFold_nil (names : List String) : names.foldl keysAdd [] = firstSeen names := by
  rw [keysFold_firstSeen]
  simp

theorem catValues_getElem? : ∀ (keys : List String) (s k : Nat),
    ((catMapFrom s keys).map Prod.snd)[k]? =
      (keys[k]?).map (fun name =>
        ({ ID := ((s + k : Nat) : Int) + 1, Name := name, SuperCategory := "" } : COCOCategory)) := by
  intro keys
  induction keys with
  | nil => intro s k; simp [catMapFrom, GoMap.empty]
  | cons x xs ih =>
    intro s k
    cases k with
    | zero => simp [catMapFrom]
    | succ k =>
      simp only [catMapFrom, List.map_cons, List.getElem?_cons_succ, ih]
      have : s + 1 + k = s + (k + 1) := by omega
      rw [this]

theorem length_catValues (keys : List String) (s : Nat) :
    ((catMapFrom s keys).map Prod.snd).length = keys.length := by
  rw [List.length_map]
  exact len_catMapFrom keys s

theorem catValues_ID (keys : List String) (k : Nat)
    (h : k < ((catMapFrom 0 keys).map Prod.snd).length) :
    (((catMapFrom 0 keys).map Prod.snd)[k]).ID = (k : Int) + 1 := by
  have h1 := catValues_getElem? keys 0 k
  rw [List.getElem?_eq_getElem h] at h1
  have hk : k < keys.length := by rw [length_catValues] at h; exact h
  rw [List.getElem?_eq_getElem hk] at h1
  simp only [Option.map_some', Option.some.injEq] at h1
  rw [h1]
  simp

/-- Filling the category slice from categories that all sit in `T` at the slot their id
names writes exactly the slots of the categories delivered. -/
theorem fillCategories_spec (T : List COCOCategory)
    (hT : ∀ (k : Nat) (h : k < T.length), (T[k]).ID = (k : Int) + 1) :
    ∀ (l acc : List COCOCategory), (∀ c ∈ l, c ∈ T) → acc.length = T.length →
      ∃ acc1, fillCategories l acc = .ok acc1 ∧ acc1.length = T.length ∧
        ∀ (k : Nat) (h : k < T.length),
          acc1[k]? = if T[k] ∈ l then some T[k] else acc[k]? := by
  intro l
  induction l with
  | nil =>
    intro acc _ hlen
    exact ⟨acc, rfl, hlen, fun k h => by simp⟩
  | cons c rest ih =>
    intro acc hmem hlen
    obtain ⟨j, hj, hjc⟩ := List.getElem_of_mem (hmem c (by simp))
    have hid : c.ID = (j : Int) + 1 := by rw [← hjc]; exact hT j hj
    have hset : sliceSet acc (c.ID - 1) c = .ok (acc.set j c) := by
      unfold sliceSet
      have hc : (0 : Int) ≤ c.ID - 1 ∧ c.ID - 1 < (acc.length : Int) := by
        rw [hid, hlen]; constructor <;> omega
      rw [if_pos hc]
      have : (c.ID - 1).toNat = j := by rw [hid]; omega
      rw [this]
    obtain ⟨acc1, h1, h2, h3⟩ := ih (acc.set j c) (fun d hd => hmem d (by simp [hd]))
      (by simp [hlen])
    refine ⟨acc1, ?_, h2, ?_⟩
    · unfold fillCategories
      rw [hset]
      exact h1
    · intro k hk
      rw [h3 k hk]
      by_cases hr : T[k] ∈ rest
      · simp [hr]
      · rw [if_neg hr]
        by_cases hjk : j = k
        · subst hjk
          have : T[j] ∈ c :: rest := by rw [hjc]; simp
          rw [if_pos this, hjc]
          simp [hlen, hj]
        · have hne : T[k] ≠ c := by
            intro heq
            have := hT k hk
            rw [heq, hid] at this
            omega
          have : ¬ T[k] ∈ c :: rest := by simp [hne, hr]
          rw [if_neg this, List.getElem?_set_ne hjk]

theorem fillCategories_perm (T l : List COCOCategory)
    (hT : ∀ (k : Nat) (h : k < T.length), (T[k]).ID = (k : Int) + 1) (hp : l.Perm T) :
    fillCategories l (List.replicate T.length COCOCategory.zero) = .ok T := by
  obtain ⟨acc1, h1, h2, h3⟩ := fillCategories_spec T hT l
    (List.replicate T.length COCOCategory.zero) (fun c hc => hp.subset hc) (by simp)
  rw [h1]
  congr 1
  apply List.ext_getElem? 
  intro k
  by_cases hk : k < T.length
  · rw [h3 k hk, if_pos (hp.symm.subset (List.getElem_mem _)), List.getElem?_eq_getElem hk]
  · rw [List.getElem?_eq_none (by omega), List.getElem?_eq_none (by omega)]

theorem finishCoco_eq (now : String) (it : MapIter (String × COCOCategory)) (st : CocoBuild)
    (keys : List String) (h : st.categoriesMap = catMapFrom 0 keys) :
    finishCoco now it st =
      .ok { Info := exportInfo now
            Licenses := [exportLicense]
            Categories := (catMapFrom 0 keys).map Prod.snd
            Images := st.images
            Annotations := st.annotationItems } := by
  unfold finishCoco
  have hlen : GoMap.len st.categoriesMap = ((catMapFrom 0 keys).map Prod.snd).length := by
    rw [h, length_catValues, len_catMapFrom]
  have hp : ((it.order (GoMap.entries st.categoriesMap)).map Prod.snd).Perm
      ((catMapFrom 0 keys).map Prod.snd) := by
    rw [h]
    exact (it.perm _).map _
  rw [hlen, fillCategories_perm _ _ (catValues_ID keys) hp]

theorem vocObjectLoop_labeled (base : Nat) (img : COCOImage) :
    ∀ (objs : List VOCAnnotationItem) (i : Nat) (st : CocoBuild),
      vocObjectLoop base img i objs st = labeledLoop base img i (objs.map vocLabeled) st := by
  intro objs
  induction objs with
  | nil => intro i st; rfl
  | cons obj rest ih =>
    intro i st
    simp only [vocObjectLoop, List.map_cons, labeledLoop, ih]
    rfl

theorem vocImageLoop_entry :
    ∀ (vocs : List VOCAnnotation) (index : Nat) (st : CocoBuild),
      vocImageLoop index vocs st = entryLoop index (vocs.map vocEntry) st := by
  intro vocs
  induction vocs with
  | nil => intro index st; rfl
  | cons v rest ih =>
    intro index st
    simp only [vocImageLoop, List.map_cons, entryLoop, ih, vocObjectLoop_labeled]
    rfl

theorem createMLItemLoop_labeled (base : Nat) (img : COCOImage) :
    ∀ (items : List CreateMLAnnotationItem) (i : Nat) (st : CocoBuild),
      createMLItemLoop base img i items st =
        labeledLoop base img i (items.map createMLLabeled) st := by
  intro items
  induction items with
  | nil => intro i st; rfl
  | cons item rest ih =>
    intro i st
    simp only [createMLItemLoop, List.map_cons, labeledLoop, ih]
    rfl

theorem createMLImageLoop_entry (probe : String → ImageProbe) :
    ∀ (cml : List CreateMLAnnotation) (index : Nat) (st : CocoBuild),
      createMLImageLoop probe index cml st =
        match probeEntries probe cml with
        | .error e => .error e
        | .ok es => .ok (entryLoop index es st) := by
  intro cml
  induction cml with
  | nil => intro index st; rfl
  | cons c rest ih =>
    intro index st
    unfold createMLImageLoop probeEntries
    cases hp : probe c.Image with
    | openFailed t => rfl
    | decodeFailed t => rfl
    | config w h =>
      simp only [ih, createMLItemLoop_labeled]
      cases hr : probeEntries probe rest with
      | error e => rfl
      | ok es => rfl

theorem length_probeEntries (probe : String → ImageProbe) :
    ∀ (cml : List CreateMLAnnotation) (es : List ImageEntry),
      probeEntries probe cml = .ok es → es.length = cml.length := by
  intro cml
  induction cml with
  | nil => intro es h; cases h; rfl
  | cons c rest ih =>
    intro es h
    unfold probeEntries at h
    cases hp : probe c.Image with
    | openFailed t => rw [hp] at h; cases h
    | decodeFailed t => rw [hp] at h; cases h
    | config w hh =>
      rw [hp] at h
      cases hr : probeEntries probe rest with
      | error e => rw [hr] at h; cases h
      | ok es1 =>
        rw [hr] at h
        cases h
        simp [ih es1 hr]

/-- Closed form of `ReadCOCOAnnotationsFromPascalVOCDir`: it never fails. -/
theorem readCocoFromVoc_eq (now : String) (it : MapIter (String × COCOCategory))
    (vocs : VOCAnnotations) :
    ReadCOCOAnnotationsFromPascalVOCDir now it vocs = .ok (cocoDoc now (vocs.map vocEntry)) := by
  unfold ReadCOCOAnnotationsFromPascalVOCDir
  rw [vocImageLoop_entry, entryLoop_eq (vocs.map vocEntry) 0 _ [] [] rfl (by simp) rfl]
  rw [finishCoco_eq now it _ _ rfl]
  simp [cocoDoc, keysFold_nil]

/-- Closed form of `ReadCOCOAnnotationsFromCreateMLFile`. -/
theorem readCocoFromCreateML_eq (now : String) (it : MapIter (String × COCOCategory))
    (probe : String → ImageProbe) (cml : CreateMLAnnotations) :
    ReadCOCOAnnotationsFromCreateMLFile now it probe cml =
      match probeEntries probe cml with
      | .error e => .error e
      | .ok es => .ok (cocoDoc now es) := by
  unfold ReadCOCOAnnotationsFromCreateMLFile
  rw [createMLImageLoop_entry]
  cases hr : probeEntries probe cml with
  | error e => rfl
  | ok es =>
    simp only
    rw [entryLoop_eq es 0 _ [] [] rfl (by simp [length_probeEntries probe cml es hr]) rfl]
    rw [finishCoco_eq now it _ _ rfl]
    simp [cocoDoc, keysFold_nil]

/-! ### First-seen order -/

theorem mem_firstSeen (l : List String) : ∀ x, x ∈ firstSeen l ↔ x ∈ l := by
  induction l with
  | nil => intro x; simp [firstSeen]
  | cons y ys ih =>
    intro x
    rw [firstSeen_cons]
    by_cases h : x = y
    · simp [h]
    · simp [h, List.mem_filter, ih]

theorem nodup_firstSeen (l : List String) : (firstSeen l).Nodup := by
  induction l with
  | nil => simp [firstSeen]
  | cons y ys ih =>
    rw [firstSeen_cons, List.nodup_cons]
    exact ⟨by simp [List.mem_filter], ih.filter _⟩

theorem length_firstSeen (l : List String) : (firstSeen l).length = l.toFinset.card := by
  rw [← List.toFinset_card_of_nodup (nodup_firstSeen l)]
  congr 1
  ext x
  simp [mem_firstSeen]

theorem pairwise_firstSeen (l : List String) :
    (firstSeen l).Pairwise (fun a b => l.indexOf a < l.indexOf b) := by
  induction l with
  | nil => simp [firstSeen]
  | cons y ys ih =>
    rw [firstSeen_cons, List.pairwise_cons]
    constructor
    · intro b hb
      have hne : b ≠ y := by simpa using (List.mem_filter.mp hb).2
      rw [List.indexOf_cons_self, List.indexOf_cons_ne _ (Ne.symm hne)]
      exact Nat.succ_pos _
    · have h1 := ih.filter (fun z => decide (z ≠ y))
      refine List.Pairwise.imp_of_mem ?_ h1
      intro a b ha hb hab
      have hna : a ≠ y := by simpa using (List.mem_filter.mp ha).2
      have hnb : b ≠ y := by simpa using (List.mem_filter.mp hb).2
      rw [List.indexOf_cons_ne _ (Ne.symm hna), List.indexOf_cons_ne _ (Ne.symm hnb)]
      exact Nat.succ_lt_succ hab

/-! ### Categories of the closed form -/

theorem catValues_names : ∀ (keys : List String) (s : Nat),
    ((catMapFrom s keys).map Prod.snd).map (fun c => c.Name) = keys := by
  intro keys
  induction keys with
  | nil => intro s; rfl
  | cons x xs ih => intro s; simp [catMapFrom, ih]

theorem catValues_ids : ∀ (keys : List String) (s : Nat),
    ((catMapFrom s keys).map Prod.snd).map (fun c => c.ID) =
      (List.range' s keys.length).map (fun k : Nat => (k : Int) + 1) := by
  intro keys
  induction keys with
  | nil => intro s; rfl
  | cons x xs ih => intro s; simp [catMapFrom, ih, List.range'_succ]

theorem catValues_mem (keys : List String) (name : String) (h : name ∈ keys) :
    ({ ID := catId keys name, Name := name, SuperCategory := "" } : COCOCategory) ∈
      (catMapFrom 0 keys).map Prod.snd := by
  have hlt : keys.indexOf name < keys.length := List.indexOf_lt_length.mpr h
  have h1 := catValues_getElem? keys 0 (keys.indexOf name)
  rw [List.getElem?_eq_getElem hlt, List.getElem_indexOf hlt] at h1
  simp only [Option.map_some', zero_add] at h1
  exact List.mem_iff_getElem?.mpr ⟨_, h1⟩

theorem catValues_name_of_id (keys : List String) (name : String) (h : name ∈ keys)
    (c : COCOCategory) (hc : c ∈ (catMapFrom 0 keys).map Prod.snd)
    (hid : c.ID = catId keys name) : c.Name = name := by
  obtain ⟨k, hk, hkc⟩ := List.getElem_of_mem hc
  have h1 := catValues_getElem? keys 0 k
  rw [List.getElem?_eq_getElem hk, hkc] at h1
  have hk2 : k < keys.length := by rw [length_catValues] at hk; exact hk
  rw [List.getElem?_eq_getElem hk2] at h1
  simp only [Option.map_some', zero_add, Option.some.injEq] at h1
  rw [h1] at hid ⊢
  simp only [catId] at hid
  have hki : k = keys.indexOf name := by omega
  simp only
  rw [List.getElem_of_eq rfl, ← List.getElem_indexOf (List.indexOf_lt_length.mpr h)]
  congr 1

theorem catId_inj (keys : List String) (a b : String) (ha : a ∈ keys) (hb : b ∈ keys) :
    catId keys a = catId keys b ↔ a = b := by
  unfold catId
  constructor
  · intro h
    have : keys.indexOf a = keys.indexOf b := by omega
    exact (List.indexOf_inj ha hb).mp this
  · intro h; rw [h]

/-! ### Annotations of the closed form -/

theorem itemsFrom_forall2 (keys : List String) (index base : Nat) :
    ∀ (xs : List Labeled) (i : Nat),
      List.Forall₂ (ItemOf keys) (itemsFrom keys ((index : Int) + 1) base i xs)
        (xs.map (fun x => (index, x))) := by
  intro xs
  induction xs with
  | nil => intro i; exact List.Forall₂.nil
  | cons x rest ih =>
    intro i
    unfold itemsFrom
    rw [List.map_cons]
    exact List.Forall₂.cons (by simp [ItemOf, labeledItem]) (ih (i + 1))

theorem allItems_forall2 (keys : List String) :
    ∀ (es : List ImageEntry) (index base : Nat),
      List.Forall₂ (ItemOf keys) (allItemsFrom keys index base es) (indexedItems index es) := by
  intro es
  induction es with
  | nil => intro index base; exact List.Forall₂.nil
  | cons e rest ih =>
    intro index base
    unfold allItemsFrom indexedItems
    exact List.rel_append (itemsFrom_forall2 keys index base e.Items 0) (ih _ _)

theorem itemsFrom_ids (keys : List String) (imageID : Int) (base : Nat) :
    ∀ (xs : List Labeled) (i : Nat),
      (itemsFrom keys imageID base i xs).map (fun a => a.ID) =
        (List.range' (base + i) xs.length).map (fun k : Nat => (k : Int)) := by
  intro xs
  induction xs with
  | nil => intro i; rfl
  | cons x rest ih =>
    intro i
    unfold itemsFrom
    rw [List.map_cons, ih (i + 1), List.length_cons, List.range'_succ, List.map_cons]
    simp [labeledItem, Nat.add_assoc]

theorem length_indexedItems_cons (index : Nat) (e : ImageEntry) (rest : List ImageEntry) :
    (indexedItems index (e :: rest)).length =
      e.Items.length + (indexedItems (index + 1) rest).length := by
  simp [indexedItems]

theorem allItems_ids (keys : List String) :
    ∀ (es : List ImageEntry) (index base : Nat),
      (allItemsFrom keys index base es).map (fun a => a.ID) =
        (List.range' base (indexedItems index es).length).map (fun k : Nat => (k : Int)) := by
  intro es
  induction es with
  | nil => intro index base; rfl
  | cons e rest ih =>
    intro index base
    unfold allItemsFrom
    rw [List.map_append, itemsFrom_ids, ih, length_indexedItems_cons, Nat.add_zero,
      ← List.map_append, Nat.add_comm e.Items.length]
    congr 1
    have := List.range'_append base e.Items.length (indexedItems (index + 1) rest).length 1
    rw [Nat.one_mul] at this
    exact this

theorem mem_indexedItems :
    ∀ (es : List ImageEntry) (index : Nat) (p : Nat × Labeled), p ∈ indexedItems index es →
      index ≤ p.1 ∧ p.1 < index + es.length ∧ p.2.Label ∈ entryLabels es := by
  intro es
  induction es with
  | nil => intro index p h; simp [indexedItems] at h
  | cons e rest ih =>
    intro index p h
    unfold indexedItems at h
    rw [entryLabels_cons]
    rcases List.mem_append.mp h with h | h
    · obtain ⟨x, hx, hp⟩ := List.mem_map.mp h
      subst hp
      refine ⟨le_refl _, by simp, ?_⟩
      exact List.mem_append_left _ (List.mem_map_of_mem _ hx)
    · obtain ⟨h1, h2, h3⟩ := ih _ _ h
      refine ⟨by omega, by simp; omega, List.mem_append_right _ h3⟩

theorem imagesFrom_getElem? :
    ∀ (es : List ImageEntry) (index k : Nat),
      (imagesFrom index es)[k]? = (es[k]?).map (entryImage (index + k)) := by
  intro es
  induction es with
  | nil => intro index k; simp [imagesFrom]
  | cons e rest ih =>
    intro index k
    cases k with
    | zero => simp [imagesFrom]
    | succ k =>
      simp only [imagesFrom, List.getElem?_cons_succ, ih]
      have : index + 1 + k = index + (k + 1) := by omega
      rw [this]

theorem length_imagesFrom : ∀ (es : List ImageEntry) (index : Nat),
    (imagesFrom index es).length = es.length := by
  intro es
  induction es with
  | nil => intro index; rfl
  | cons e rest ih => intro index; simp [imagesFrom, ih]

theorem imagesFrom_mem_id (es : List ImageEntry) (j : Nat) (hj : j < es.length) :
    ∃ img ∈ imagesFrom 0 es, img.ID = (j : Int) + 1 := by
  have h := imagesFrom_getElem? es 0 j
  rw [List.getElem?_eq_getElem hj] at h
  simp only [Option.map_some', zero_add] at h
  exact ⟨_, List.mem_iff_getElem?.mpr ⟨_, h⟩, by simp [entryImage]⟩

/-- Referential integrity of the closed form. -/
theorem cocoDoc_references (now : String) (es : List ImageEntry) :
    ∀ a ∈ (cocoDoc now es).Annotations,
      (∃ img ∈ (cocoDoc now es).Images, img.ID = a.ImageID) ∧
      (∃ c ∈ (cocoDoc now es).Categories, c.ID = a.CategoryID) := by
  intro a ha
  have hf := allItems_forall2 (firstSeen (entryLabels es)) es 0 0
  have hlen := hf.length_eq
  obtain ⟨k, hk, hka⟩ := List.getElem_of_mem ha
  have hk2 : k < (indexedItems 0 es).length := by
    simp only [cocoDoc] at hk
    omega
  have hR := (List.forall₂_iff_get.mp hf).2 k hk hk2
  simp only [List.get_eq_getElem] at hR
  simp only [cocoDoc] at hka
  rw [hka] at hR
  obtain ⟨h1, h2, h3⟩ := mem_indexedItems es 0 _ (List.getElem_mem hk2)
  obtain ⟨hI, hC, _⟩ := hR
  constructor
  · obtain ⟨img, himg, hid⟩ := imagesFrom_mem_id es _ (by simpa using h2)
    exact ⟨img, himg, by rw [hid, hI]⟩
  · refine ⟨_, catValues_mem _ _ ((mem_firstSeen _ _).mpr h3), ?_⟩
    simp [hC]

theorem entryLabels_vocEntry (vocs : VOCAnnotations) :
    entryLabels (vocs.map vocEntry) = objectNames vocs := by
  induction vocs with
  | nil => rfl
  | cons v rest ih =>
    rw [List.map_cons, entryLabels_cons, ih]
    simp [objectNames, vocEntry, vocLabeled, Function.comp]

theorem indexedItems_vocEntry : ∀ (vocs : VOCAnnotations) (index : Nat),
    indexedItems index (vocs.map vocEntry) =
      ((vocs.enumFrom index).flatMap (fun p => p.2.Object.map (fun obj => (p.1, obj)))).map
        (fun p => (p.1, vocLabeled p.2)) := by
  intro vocs
  induction vocs with
  | nil => intro index; rfl
  | cons v rest ih =>
    intro index
    rw [List.map_cons, indexedItems, ih, List.enumFrom_cons, List.flatMap_cons, List.map_append]
    simp [vocEntry, Function.comp]

theorem cocoDoc_ids (now : String) (es : List ImageEntry) :
    (cocoDoc now es).Annotations.map (fun a => a.ID) =
      (List.range (cocoDoc now es).Annotations.length).map (fun k : Nat => (k : Int)) := by
  have h := allItems_ids (firstSeen (entryLabels es)) es 0 0
  have hlen := (allItems_forall2 (firstSeen (entryLabels es)) es 0 0).length_eq
  simp only [cocoDoc]
  rw [h, hlen, List.range_eq_range']

theorem cocoDoc_id_getElem? (now : String) (es : List ImageEntry) (j : Nat) (a : COCOAnnotation)
    (h : (cocoDoc now es).Annotations[j]? = some a) : a.ID = (j : Int) := by
  have h1 := congrArg (fun l => l[j]?) (cocoDoc_ids now es)
  simp only [List.getElem?_map, h, Option.map_some'] at h1
  have hj : j < (cocoDoc now es).Annotations.length := by
    by_contra hc
    rw [List.getElem?_eq_none (by omega)] at h
    cases h
  rw [List.getElem?_range hj] at h1
  simpa using h1

theorem cocoDoc_ids_nodup (now : String) (es : List ImageEntry) :
    ((cocoDoc now es).Annotations.map (fun a => a.ID)).Nodup := by
  rw [cocoDoc_ids]
  exact (List.nodup_range _).map (fun a b h => by exact_mod_cast h)

theorem forall2_with_mem {α β : Type} {R : α → β → Prop} {l1 : List α} {l2 : List β}
    (h : List.Forall₂ R l1 l2) :
    List.Forall₂ (fun a b => R a b ∧ a ∈ l1 ∧ b ∈ l2) l1 l2 := by
  rw [List.forall₂_iff_get] at h ⊢
  refine ⟨h.1, fun i h1 h2 => ⟨h.2 i h1 h2, List.get_mem _ _ _, List.get_mem _ _ _⟩⟩

theorem forall2_filter_length {α β : Type} {R : α → β → Prop} {P : α → Bool} {Q : β → Bool}
    {l1 : List α} {l2 : List β} (h : List.Forall₂ R l1 l2)
    (hPQ : ∀ a b, R a b → P a = Q b) : (l1.filter P).length = (l2.filter Q).length := by
  induction h with
  | nil => rfl
  | cons hab _ ih =>
    rw [List.filter_cons, List.filter_cons, hPQ _ _ hab]
    split <;> simp [ih]

theorem indexedItems_append : ∀ (a b : List ImageEntry) (index : Nat),
    indexedItems index (a ++ b) = indexedItems index a ++ indexedItems (index + a.length) b := by
  intro a
  induction a with
  | nil => intro b index; simp [indexedItems]
  | cons e rest ih =>
    intro b index
    rw [List.cons_append, indexedItems, indexedItems, ih, List.append_assoc, List.length_cons]
    have : index + 1 + rest.length = index + (rest.length + 1) := by omega
    rw [this]

theorem indexedObjects_eq (vocs : VOCAnnotations) :
    indexedItems 0 (vocs.map vocEntry) =
      (indexedObjects vocs).map (fun p => (p.1, vocLabeled p.2)) :=
  indexedItems_vocEntry vocs 0

theorem length_indexedItems_voc (vocs : VOCAnnotations) :
    (indexedItems 0 (vocs.map vocEntry)).length = (vocs.flatMap (fun v => v.Object)).length := by
  have : ∀ (vocs : VOCAnnotations) (index : Nat),
      (indexedItems index (vocs.map vocEntry)).length =
        (vocs.flatMap (fun v => v.Object)).length := by
    intro vocs
    induction vocs with
    | nil => intro index; rfl
    | cons v rest ih =>
      intro index
      rw [List.map_cons, indexedItems, List.length_append, ih, List.flatMap_cons,
        List.length_append]
      simp [vocEntry]
  exact this vocs 0

/-- The annotations `ReadCOCOAnnotationsFromPascalVOCDir` emits, object by object. -/
theorem voc_items_forall2 (now : String) (vocs : VOCAnnotations) :
    List.Forall₂
      (fun a (p : Nat × VOCAnnotationItem) =>
        ItemOf (firstSeen (objectNames vocs)) a (p.1, vocLabeled p.2) ∧
          p.2.Name ∈ objectNames vocs ∧ p.1 < vocs.length)
      (cocoDoc now (vocs.map vocEntry)).Annotations (indexedObjects vocs) := by
  have h := forall2_with_mem (allItems_forall2 (firstSeen (entryLabels (vocs.map vocEntry)))
    (vocs.map vocEntry) 0 0)
  rw [indexedObjects_eq, List.forall₂_map_right_iff, entryLabels_vocEntry] at h
  show List.Forall₂ _ (allItemsFrom (firstSeen (entryLabels (vocs.map vocEntry))) 0 0
    (vocs.map vocEntry)) _
  rw [entryLabels_vocEntry]
  refine h.imp ?_
  intro a p hR
  obtain ⟨h1, _, h3⟩ := hR
  rw [← indexedObjects_eq] at h3
  obtain ⟨_, h4, h5⟩ := mem_indexedItems (vocs.map vocEntry) 0 _ h3
  rw [entryLabels_vocEntry] at h5
  exact ⟨h1, h5, by simpa using h4⟩

theorem imagesFrom_vocEntry : ∀ (vocs : VOCAnnotations) (index : Nat),
    imagesFrom index (vocs.map vocEntry) =
      (vocs.enumFrom index).map (fun p =>
        ({ ID := (p.1 : Int) + 1
           License := 1
           FileName := p.2.Filename
           Height := p.2.Size.Height
           Width := p.2.Size.Width
           DateCaptured := "" } : COCOImage)) := by
  intro vocs
  induction vocs with
  | nil => intro index; rfl
  | cons v rest ih =>
    intro index
    rw [List.map_cons, imagesFrom, ih, List.enumFrom_cons, List.map_cons]
    rfl

theorem cocoDoc_earlier_count (now : String) (pre post : List ImageEntry) (e : ImageEntry) :
    ((cocoDoc now (pre ++ e :: post)).Annotations.filter
        (fun a => decide (a.ImageID ≤ (pre.length : Int)))).length =
      (indexedItems 0 pre).length := by
  have hf := allItems_forall2 (firstSeen (entryLabels (pre ++ e :: post))) (pre ++ e :: post) 0 0
  have h1 := forall2_filter_length (P := fun a => decide (a.ImageID ≤ (pre.length : Int)))
    (Q := fun p => decide (p.1 < pre.length)) hf (by
      intro a p hR
      have hI : a.ImageID = (p.1 : Int) + 1 := hR.1
      simp only [hI, decide_eq_decide]
      omega)
  simp only [cocoDoc]
  rw [h1, indexedItems_append, List.filter_append]
  have hA : (indexedItems 0 pre).filter (fun p => decide (p.1 < pre.length)) = indexedItems 0 pre := by
    rw [List.filter_eq_self]
    intro p hp
    have := (mem_indexedItems pre 0 p hp).2.1
    simp only [decide_eq_true_eq]
    omega
  have hB : (indexedItems (0 + pre.length) (e :: post)).filter (fun p => decide (p.1 < pre.length))
      = [] := by
    rw [List.filter_eq_nil_iff]
    intro p hp
    have := (mem_indexedItems (e :: post) _ p hp).1
    simp only [decide_eq_true_eq]
    omega
  rw [hA, hB, List.append_nil]

theorem cocoDoc_own_image (now : String) (pre post : List ImageEntry) (e : ImageEntry) (i : Nat)
    (hi : i < e.Items.length) :
    ∃ a, (cocoDoc now (pre ++ e :: post)).Annotations[(indexedItems 0 pre).length + i]? = some a ∧
      a.ImageID = (pre.length : Int) + 1 ∧
      ∃ x, e.Items[i]? = some x ∧ a.BBox = x.BBox := by
  have hf := allItems_forall2 (firstSeen (entryLabels (pre ++ e :: post))) (pre ++ e :: post) 0 0
  have hlen := hf.length_eq
  have hsplit : indexedItems 0 (pre ++ e :: post) =
      indexedItems 0 pre ++ (e.Items.map (fun x => (pre.length, x)) ++
        indexedItems (pre.length + 1) post) := by
    rw [indexedItems_append, Nat.zero_add, indexedItems]
  have hk2 : (indexedItems 0 pre).length + i < (indexedItems 0 (pre ++ e :: post)).length := by
    rw [hsplit]
    simp
    omega
  have hk1 : (indexedItems 0 pre).length + i <
      (allItemsFrom (firstSeen (entryLabels (pre ++ e :: post))) 0 0 (pre ++ e :: post)).length := by
    omega
  have hR := (List.forall₂_iff_get.mp hf).2 _ hk1 hk2
  simp only [List.get_eq_getElem] at hR
  have hp : (indexedItems 0 (pre ++ e :: post))[(indexedItems 0 pre).length + i] =
      (pre.length, e.Items[i]) := by
    have h2 : (indexedItems 0 (pre ++ e :: post))[(indexedItems 0 pre).length + i]? =
        some (pre.length, e.Items[i]) := by
      rw [hsplit, List.getElem?_append_right (by omega)]
      simp [List.getElem?_append_left, hi]
    rw [List.getElem?_eq_getElem hk2] at h2
    exact Option.some.inj h2
  rw [hp] at hR
  exact ⟨_, List.getElem?_eq_getElem hk1, hR.1, e.Items[i], List.getElem?_eq_getElem hi,
    hR.2.2.1⟩

set_option maxRecDepth 8000 in
set_option exponentiation.threshold 600 in
theorem mul_50_70 : F32.mul (F32.ofInt 50) (F32.ofInt 70) = F32.ofInt 3500 := by decide

theorem wrapInt64_50 : wrapInt64 50 = 50 := by decide

theorem wrapInt64_70 : wrapInt64 70 = 70 := by decide

/-! ### Go maps -/

theorem lookup_store {κ ν : Type} [DecidableEq κ] (k : κ) (v : ν) :
    ∀ (m : GoMap κ ν) (k1 : κ),
      GoMap.lookup (GoMap.store m k v) k1 = if k = k1 then some v else GoMap.lookup m k1 := by
  intro m
  induction m with
  | nil => intro k1; simp [GoMap.store, GoMap.lookup]
  | cons p rest ih =>
    intro k1
    obtain ⟨k2, v2⟩ := p
    unfold GoMap.store
    by_cases h : k2 = k
    · rw [if_pos h]
      subst h
      by_cases h1 : k2 = k1 <;> simp [GoMap.lookup, h1]
    · rw [if_neg h]
      unfold GoMap.lookup
      by_cases h1 : k2 = k1
      · have : ¬ k = k1 := fun h2 => h (h1.trans h2.symm)
        simp [h1, this]
      · rw [if_neg h1, if_neg h1, ih]

/-- A map filled by successive assignments holds, under a key, the value of the last element
with that key. -/
theorem lookup_foldl_store {α κ ν : Type} [DecidableEq κ] (key : α → κ) (val : α → ν) (k : κ) :
    ∀ (l : List α) (m0 : GoMap κ ν),
      GoMap.lookup (l.foldl (fun m x => GoMap.store m (key x) (val x)) m0) k =
        match l.reverse.find? (fun x => decide (key x = k)) with
        | some x => some (val x)
        | none => GoMap.lookup m0 k := by
  intro l
  induction l with
  | nil => intro m0; rfl
  | cons x rest ih =>
    intro m0
    rw [List.foldl_cons, ih, List.reverse_cons, List.find?_append]
    cases hr : rest.reverse.find? (fun x => decide (key x = k)) with
    | some y => rfl
    | none =>
      simp only [Option.none_or, lookup_store]
      by_cases hx : key x = k <;> simp [hx]

theorem snd_vocImageMaps (images : List COCOImage) :
    (vocImageMaps images).2 =
      images.foldl (fun m image => GoMap.store m image.ID (vocShell image)) GoMap.empty := by
  unfold vocImageMaps
  generalize (GoMap.empty : GoMap Int COCOImage) = m1
  generalize (GoMap.empty : GoMap Int VOCAnnotation) = m2
  induction images generalizing m1 m2 with
  | nil => rfl
  | cons x rest ih => simp only [List.foldl_cons, ih]

theorem snd_createMLImageMaps (images : List COCOImage) :
    (createMLImageMaps images).2 =
      images.foldl (fun m image => GoMap.store m image.ID (createMLShell image)) GoMap.empty := by
  unfold createMLImageMaps
  generalize (GoMap.empty : GoMap Int COCOImage) = m1
  generalize (GoMap.empty : GoMap Int CreateMLAnnotation) = m2
  induction images generalizing m1 m2 with
  | nil => rfl
  | cons x rest ih => simp only [List.foldl_cons, ih]

theorem find?_reverse_isSome {α : Type} (p : α → Bool) (l : List α) :
    (l.reverse.find? p).isSome ↔ ∃ x ∈ l, p x = true := by
  rw [List.find?_isSome]
  simp

/-- The entry of image `id` in the map of shells: the shell of the last image with that id. -/
theorem lookup_shells {ν : Type} (shell : COCOImage → ν) (images : List COCOImage) (id : Int) :
    GoMap.lookup (images.foldl (fun m image => GoMap.store m image.ID (shell image))
        GoMap.empty) id =
      (images.reverse.find? (fun image => decide (image.ID = id))).map shell := by
  rw [lookup_foldl_store (fun image : COCOImage => image.ID) shell id images GoMap.empty]
  cases images.reverse.find? (fun image => decide (image.ID = id)) <;> rfl

theorem lookup_categoryMapOf (categories : List COCOCategory) (id : Int) :
    GoMap.lookup (categoryMapOf categories) id =
      categories.reverse.find? (fun c => decide (c.ID = id)) := by
  unfold categoryMapOf
  rw [lookup_foldl_store (fun c : COCOCategory => c.ID) (fun c => c) id categories GoMap.empty]
  cases categories.reverse.find? (fun c => decide (c.ID = id)) <;> rfl

theorem vocAnnotationLoop_ref (cm : GoMap Int COCOCategory) :
    ∀ (l : List COCOAnnotation) (m : GoMap Int VOCAnnotation),
      vocAnnotationLoop cm l m = refLoop vocExtend cm l m := by
  intro l
  induction l with
  | nil => intro m; rfl
  | cons a rest ih =>
    intro m
    unfold vocAnnotationLoop refLoop
    have hs : vocAnnotationStep cm m a = refStep vocExtend cm m a := by
      unfold vocAnnotationStep refStep vocExtend
      cases GoMap.lookup m a.ImageID with
      | none => rfl
      | some v =>
        cases GoMap.lookup cm a.CategoryID with
        | none => rfl
        | some c => cases bndboxOfBBox a.BBox <;> rfl
    rw [hs]
    cases refStep vocExtend cm m a with
    | error e => rfl
    | ok m1 => exact ih m1

theorem createMLAnnotationLoop_ref (cm : GoMap Int COCOCategory) :
    ∀ (l : List COCOAnnotation) (m : GoMap Int CreateMLAnnotation),
      createMLAnnotationLoop cm l m = refLoop createMLExtend cm l m := by
  intro l
  induction l with
  | nil => intro m; rfl
  | cons a rest ih =>
    intro m
    unfold createMLAnnotationLoop refLoop
    have hs : createMLAnnotationStep cm m a = refStep createMLExtend cm m a := by
      unfold createMLAnnotationStep refStep createMLExtend
      cases GoMap.lookup m a.ImageID with
      | none => rfl
      | some v =>
        cases GoMap.lookup cm a.CategoryID with
        | none => rfl
        | some c => cases coordinatesOfBBox a.BBox <;> rfl
    rw [hs]
    cases refStep createMLExtend cm m a with
    | error e => rfl
    | ok m1 => exact ih m1

/-! ### Dangling references -/

theorem lookup_shells_isSome {ν : Type} (shell : COCOImage → ν) (images : List COCOImage)
    (id : Int) :
    (GoMap.lookup (images.foldl (fun m image => GoMap.store m image.ID (shell image))
        GoMap.empty) id).isSome ↔ ∃ img ∈ images, img.ID = id := by
  rw [lookup_shells, Option.isSome_map', find?_reverse_isSome]
  simp

theorem lookup_categoryMapOf_isSome (categories : List COCOCategory) (id : Int) :
    (GoMap.lookup (categoryMapOf categories) id).isSome ↔ ∃ c ∈ categories, c.ID = id := by
  rw [lookup_categoryMapOf, find?_reverse_isSome]
  simp

theorem isSome_lookup_store_present {ν : Type} (m : GoMap Int ν) (k : Int) (v : ν)
    (hk : (GoMap.lookup m k).isSome) (id : Int) :
    (GoMap.lookup (GoMap.store m k v) id).isSome ↔ (GoMap.lookup m id).isSome := by
  rw [lookup_store]
  by_cases h : k = id
  · subst h; simp [hk]
  · simp [h]

theorem refLoop_dangling {ν : Type} (extend : ν → COCOCategory → COCOAnnotation → Except GoError ν)
    (hext : ∀ v c a, 4 ≤ a.BBox.length → ∃ v1, extend v c a = .ok v1)
    (doc : COCOAnnotations) :
    ∀ (l : List COCOAnnotation) (m : GoMap Int ν),
      (∀ id, (GoMap.lookup m id).isSome ↔ ∃ img ∈ doc.Images, img.ID = id) →
      (∀ a ∈ l, 4 ≤ a.BBox.length) →
      (∀ a, l.find? (fun a => decide (Dangling doc a)) = some a →
        refLoop extend (categoryMapOf doc.Categories) l m = .error (danglingError doc a)) ∧
      (l.find? (fun a => decide (Dangling doc a)) = none →
        ∃ m1, refLoop extend (categoryMapOf doc.Categories) l m = .ok m1) := by
  intro l
  induction l with
  | nil =>
    intro m _ _
    exact ⟨fun a h => by simp at h, fun _ => ⟨m, rfl⟩⟩
  | cons a rest ih =>
    intro m hm hbox
    have hrest : ∀ b ∈ rest, 4 ≤ b.BBox.length := fun b hb => hbox b (by simp [hb])
    unfold refLoop refStep
    by_cases himg : ∃ img ∈ doc.Images, img.ID = a.ImageID
    · obtain ⟨v, hv⟩ := Option.isSome_iff_exists.mp ((hm a.ImageID).mpr himg)
      have himg2 : ¬ ∀ img ∈ doc.Images, img.ID ≠ a.ImageID := by
        intro h; obtain ⟨img, h1, h2⟩ := himg; exact h img h1 h2
      by_cases hcat : ∃ c ∈ doc.Categories, c.ID = a.CategoryID
      · obtain ⟨c, hc⟩ := Option.isSome_iff_exists.mp
          ((lookup_categoryMapOf_isSome doc.Categories a.CategoryID).mpr hcat)
        obtain ⟨v1, hv1⟩ := hext v c a (hbox a (by simp))
        have hnd : ¬ Dangling doc a := by
          intro h
          rcases h with h | h
          · exact himg2 h
          · obtain ⟨c, h1, h2⟩ := hcat; exact h c h1 h2
        have hm1 : ∀ id, (GoMap.lookup (GoMap.store m a.ImageID v1) id).isSome ↔
            ∃ img ∈ doc.Images, img.ID = id := by
          intro id
          rw [isSome_lookup_store_present m a.ImageID v1 (by simp [hv])]
          exact hm id
        simp only [hv, hc, hv1, List.find?_cons, hnd, decide_False]
        exact ih _ hm1 hrest
      · have hc : GoMap.lookup (categoryMapOf doc.Categories) a.CategoryID = none := by
          rw [← Option.not_isSome_iff_eq_none, lookup_categoryMapOf_isSome]
          exact hcat
        have hd : Dangling doc a := Or.inr (fun c h1 h2 => hcat ⟨c, h1, h2⟩)
        simp only [hv, hc, List.find?_cons, hd, decide_True]
        refine ⟨fun b hb => ?_, fun h => by simp at h⟩
        cases hb
        simp [danglingError, himg2]
    · have hv : GoMap.lookup m a.ImageID = none := by
        rw [← Option.not_isSome_iff_eq_none, hm]
        exact himg
      have himg2 : ∀ img ∈ doc.Images, img.ID ≠ a.ImageID :=
        fun img h1 h2 => himg ⟨img, h1, h2⟩
      have hd : Dangling doc a := Or.inl himg2
      simp only [hv, List.find?_cons, hd, decide_True]
      refine ⟨fun b hb => ?_, fun h => by simp at h⟩
      cases hb
      rw [danglingError, if_pos himg2]

theorem vocExtend_ok (v : VOCAnnotation) (c : COCOCategory) (a : COCOAnnotation)
    (h : 4 ≤ a.BBox.length) : ∃ v1, vocExtend v c a = .ok v1 := by
  unfold vocExtend
  match hb : a.BBox, h with
  | x :: y :: w :: hh :: rest, _ => rw [bndboxOfBBox_four]; exact ⟨_, rfl⟩

theorem createMLExtend_ok (v : CreateMLAnnotation) (c : COCOCategory) (a : COCOAnnotation)
    (h : 4 ≤ a.BBox.length) : ∃ v1, createMLExtend v c a = .ok v1 := by
  unfold createMLExtend
  match hb : a.BBox, h with
  | x :: y :: w :: hh :: rest, _ => rw [coordinatesOfBBox_four]; exact ⟨_, rfl⟩

theorem readVoc_eq_map (it : MapIter (Int × VOCAnnotation)) (doc : COCOAnnotations) :
    ReadVOCAnnotationsFromCOCOFile it doc =
      Except.map (fun m => (it.order (GoMap.entries m)).map Prod.snd)
        (vocAnnotationLoop (categoryMapOf doc.Categories) doc.Annotations
          (vocImageMaps doc.Images).2) := by
  unfold ReadVOCAnnotationsFromCOCOFile vocAnnotationMapOfCOCO
  cases vocAnnotationLoop (categoryMapOf doc.Categories) doc.Annotations
    (vocImageMaps doc.Images).2 <;> rfl

theorem readCreateML_eq_map (it : MapIter (Int × CreateMLAnnotation)) (doc : COCOAnnotations) :
    ReadCreateMLAnnotationsFromCOCOFile it doc =
      Except.map (fun m => (it.order (GoMap.entries m)).map Prod.snd)
        (createMLAnnotationLoop (categoryMapOf doc.Categories) doc.Annotations
          (createMLImageMaps doc.Images).2) := by
  unfold ReadCreateMLAnnotationsFromCOCOFile createMLAnnotationMapOfCOCO
  cases createMLAnnotationLoop (categoryMapOf doc.Categories) doc.Annotations
    (createMLImageMaps doc.Images).2 <;> rfl

theorem find?_dangling_none (doc : COCOAnnotations) (l : List COCOAnnotation) :
    l.find? (fun a => decide (Dangling doc a)) = none ↔ ¬ ∃ a ∈ l, Dangling doc a := by
  rw [List.find?_eq_none]
  simp

/-! ### Entries of the COCO readers -/

theorem refLoop_extends {ν : Type}
    (extend : ν → COCOCategory → COCOAnnotation → Except GoError ν)
    (cm : GoMap Int COCOCategory) :
    ∀ (l : List COCOAnnotation) (m m1 : GoMap Int ν), refLoop extend cm l m = .ok m1 →
      ∀ id, (∀ v, GoMap.lookup m id = some v →
          ∃ v1, GoMap.lookup m1 id = some v1 ∧ extendsBy extend cm id l v v1) ∧
        (GoMap.lookup m id = none → GoMap.lookup m1 id = none) := by
  intro l
  induction l with
  | nil =>
    intro m m1 h id
    cases h
    exact ⟨fun v hv => ⟨v, hv, rfl⟩, fun h => h⟩
  | cons a rest ih =>
    intro m m1 h id
    unfold refLoop refStep at h
    cases hva : GoMap.lookup m a.ImageID with
    | none => rw [hva] at h; cases h
    | some va =>
      simp only [hva] at h
      cases hc : GoMap.lookup cm a.CategoryID with
      | none => rw [hc] at h; cases h
      | some c =>
        simp only [hc] at h
        cases he : extend va c a with
        | error e => rw [he] at h; cases h
        | ok v2 =>
          simp only [he] at h
          obtain ⟨ih1, ih2⟩ := ih _ _ h id
          rw [lookup_store] at ih1 ih2
          by_cases hid : a.ImageID = id
          · subst hid
            simp only [if_true] at ih1 ih2
            constructor
            · intro v hv
              rw [hva] at hv
              cases hv
              obtain ⟨v1, h1, h2⟩ := ih1 v2 rfl
              refine ⟨v1, h1, ?_⟩
              unfold extendsBy
              rw [if_pos rfl]
              exact ⟨c, v2, hc, he, h2⟩
            · intro hn; rw [hva] at hn; cases hn
          · simp only [hid, if_false] at ih1 ih2
            constructor
            · intro v hv
              obtain ⟨v1, h1, h2⟩ := ih1 v hv
              refine ⟨v1, h1, ?_⟩
              unfold extendsBy
              rw [if_neg hid]
              exact h2
            · exact ih2

theorem lookup_mem {κ ν : Type} [DecidableEq κ] : ∀ (m : GoMap κ ν) (k : κ) (v : ν),
    GoMap.lookup m k = some v → (k, v) ∈ m := by
  intro m
  induction m with
  | nil => intro k v h; cases h
  | cons p rest ih =>
    intro k v h
    obtain ⟨k1, v1⟩ := p
    unfold GoMap.lookup at h
    by_cases hk : k1 = k
    · rw [if_pos hk] at h
      cases h
      subst hk
      exact List.mem_cons_self _ _
    · rw [if_neg hk] at h
      exact List.mem_cons_of_mem _ (ih k v h)

theorem vocExtend_objects (categories : List COCOCategory) (id : Int) :
    ∀ (l : List COCOAnnotation) (v v1 : VOCAnnotation),
      extendsBy vocExtend (categoryMapOf categories) id l v v1 →
      ({ v1 with Object := [] } : VOCAnnotation) = { v with Object := [] } ∧
      ∃ objs, v1.Object = v.Object ++ objs ∧
        List.Forall₂ (VocObjectOf categories) objs
          (l.filter (fun a => decide (a.ImageID = id))) := by
  intro l
  induction l with
  | nil =>
    intro v v1 h
    unfold extendsBy at h
    subst h
    exact ⟨rfl, [], by simp, List.Forall₂.nil⟩
  | cons a rest ih =>
    intro v v1 h
    unfold extendsBy at h
    by_cases hid : a.ImageID = id
    · rw [if_pos hid] at h
      obtain ⟨c, v2, hc, he, hrest⟩ := h
      obtain ⟨hframe, objs, hobjs, hf⟩ := ih v2 v1 hrest
      unfold vocExtend at he
      match hb : a.BBox with
      | [] => rw [hb, bndboxOfBBox_short _ (by simp)] at he; cases he
      | [_] => rw [hb, bndboxOfBBox_short _ (by simp)] at he; cases he
      | [_, _] => rw [hb, bndboxOfBBox_short _ (by simp)] at he; cases he
      | [_, _, _] => rw [hb, bndboxOfBBox_short _ (by simp)] at he; cases he
      | x :: y :: w :: hh :: more =>
        rw [hb, bndboxOfBBox_four] at he
        simp only [Except.ok.injEq] at he
        subst he
        refine ⟨hframe,
          vocItemOf c ⟨F32.toInt x, F32.toInt (F32.add x w), F32.toInt y,
            F32.toInt (F32.add y hh)⟩ :: objs,
          by simp [hobjs], ?_⟩
        rw [List.filter_cons, if_pos (by simpa using hid)]
        refine List.Forall₂.cons ?_ hf
        refine ⟨⟨c, ?_, rfl⟩, rfl, rfl, rfl, rfl, x, y, w, hh, more, hb, rfl⟩
        rw [← lookup_categoryMapOf]
        exact hc
    · rw [if_neg hid] at h
      obtain ⟨hframe, objs, hobjs, hf⟩ := ih v v1 h
      refine ⟨hframe, objs, hobjs, ?_⟩
      rw [List.filter_cons, if_neg (by simpa using hid)]
      exact hf

/-! ### VOC and CreateML -/

theorem vocItemsOfCreateML_eq : ∀ (items : List CreateMLAnnotationItem) (v : VOCAnnotation),
    vocItemsOfCreateML items v = { v with Object := v.Object ++ items.map vocItemOfCreateML } := by
  intro items
  induction items with
  | nil => intro v; simp [vocItemsOfCreateML]
  | cons item rest ih => intro v; simp [vocItemsOfCreateML, ih]

theorem vocEntriesOfCreateML_ok (imagePath : String → String) (probe : String → ImageProbe) :
    ∀ (cml : List CreateMLAnnotation) (acc : VOCAnnotations),
      (∀ c ∈ cml, ∃ w h, probe c.Image = .config w h) →
      vocEntriesOfCreateML imagePath probe cml acc =
        .ok (acc ++ cml.map (fun c =>
          vocOfCreateMLEntry c (probe c.Image).size.1 (probe c.Image).size.2)) := by
  intro cml
  induction cml with
  | nil => intro acc _; simp [vocEntriesOfCreateML]
  | cons c rest ih =>
    intro acc h
    obtain ⟨w, hh, hp⟩ := h c (by simp)
    unfold vocEntriesOfCreateML
    rw [hp]
    simp only
    rw [ih _ (fun d hd => h d (by simp [hd])), vocItemsOfCreateML_eq]
    simp [vocOfCreateMLEntry, hp, ImageProbe.size, vocShellOfCreateML]

theorem createMLItemsOfVOC_eq : ∀ (objs : List VOCAnnotationItem)
    (acc : List CreateMLAnnotationItem),
    createMLItemsOfVOC objs acc = acc ++ objs.map createMLItemOfVOC := by
  intro objs
  induction objs with
  | nil => intro acc; simp [createMLItemsOfVOC]
  | cons o rest ih => intro acc; simp [createMLItemsOfVOC, ih]

theorem createMLEntriesOfVOC_eq : ∀ (vocs : List VOCAnnotation) (acc : CreateMLAnnotations),
    createMLEntriesOfVOC vocs acc =
      acc ++ vocs.map (fun v =>
        ({ Image := v.Filename, Annotations := v.Object.map createMLItemOfVOC } :
          CreateMLAnnotation)) := by
  intro vocs
  induction vocs with
  | nil => intro acc; simp [createMLEntriesOfVOC]
  | cons v rest ih => intro acc; simp [createMLEntriesOfVOC, ih, createMLItemsOfVOC_eq]

set_option maxRecDepth 8000 in
theorem toInt_5 : F32.toInt (F32.ofInt 5) = 5 := by decide

set_option maxRecDepth 8000 in
theorem toInt_5_20 : F32.toInt (F32.add (F32.ofInt 5) (F32.ofInt 20)) = 25 := by decide

set_option maxRecDepth 8000 in
theorem toInt_5_30 : F32.toInt (F32.add (F32.ofInt 5) (F32.ofInt 30)) = 35 := by decide

/-! ### The two ways from CreateML to COCO -/

theorem itemsFrom_triples (keys : List String) (imageID : Int) (base : Nat) :
    ∀ (xs ys : List Labeled) (i : Nat),
      xs.map (fun x => x.Label) = ys.map (fun x => x.Label) →
      (itemsFrom keys imageID base i xs).map (fun a => (a.ID, a.ImageID, a.CategoryID)) =
        (itemsFrom keys imageID base i ys).map (fun a => (a.ID, a.ImageID, a.CategoryID)) := by
  intro xs
  induction xs with
  | nil =>
    intro ys i h
    cases ys with
    | nil => rfl
    | cons y rest => simp at h
  | cons x rest ih =>
    intro ys i h
    cases ys with
    | nil => simp at h
    | cons y rest2 =>
      simp only [List.map_cons, List.cons.injEq] at h
      simp only [itemsFrom, List.map_cons, labeledItem, h.1, ih rest2 (i + 1) h.2]

theorem sameShape_labels (es1 es2 : List ImageEntry) (h : SameShape es1 es2) :
    entryLabels es1 = entryLabels es2 := by
  induction h with
  | nil => rfl
  | cons h1 _ ih => rw [entryLabels_cons, entryLabels_cons, h1.2.2.2, ih]

theorem sameShape_images (es1 es2 : List ImageEntry) (h : SameShape es1 es2) :
    ∀ index, imagesFrom index es1 = imagesFrom index es2 := by
  induction h with
  | nil => intro index; rfl
  | cons h1 _ ih =>
    intro index
    simp only [imagesFrom, entryImage, h1.1, h1.2.1, h1.2.2.1, ih]

theorem sameShape_triples (keys : List String) (es1 es2 : List ImageEntry)
    (h : SameShape es1 es2) :
    ∀ index base,
      (allItemsFrom keys index base es1).map (fun a => (a.ID, a.ImageID, a.CategoryID)) =
        (allItemsFrom keys index base es2).map (fun a => (a.ID, a.ImageID, a.CategoryID)) := by
  induction h with
  | nil => intro index base; rfl
  | cons h1 _ ih =>
    intro index base
    have hlen := congrArg List.length h1.2.2.2
    simp only [List.length_map] at hlen
    simp only [allItemsFrom, List.map_append, itemsFrom_triples keys _ base _ _ 0 h1.2.2.2, ih,
      hlen]

theorem cocoDoc_sameShape (now : String) (es1 es2 : List ImageEntry) (h : SameShape es1 es2) :
    (cocoDoc now es1).Categories = (cocoDoc now es2).Categories ∧
      (cocoDoc now es1).Images = (cocoDoc now es2).Images ∧
      (cocoDoc now es1).Annotations.map (fun a => (a.ID, a.ImageID, a.CategoryID)) =
        (cocoDoc now es2).Annotations.map (fun a => (a.ID, a.ImageID, a.CategoryID)) := by
  simp only [cocoDoc, sameShape_labels es1 es2 h, sameShape_images es1 es2 h,
    sameShape_triples _ es1 es2 h, and_self]

/-- The entries probed for a CreateML document and the VOC list made of it are two readings
of the same images; one way fails exactly when the other does. -/
theorem probeEntries_vocEntries (imagePath : String → String) (probe : String → ImageProbe) :
    ∀ (cml : List CreateMLAnnotation) (acc : VOCAnnotations),
      (∀ es, probeEntries probe cml = .ok es →
        ∃ vocs, vocEntriesOfCreateML imagePath probe cml acc = .ok (acc ++ vocs) ∧
          SameShape es (vocs.map vocEntry)) ∧
      (∀ e, probeEntries probe cml = .error e →
        ∃ e2, vocEntriesOfCreateML imagePath probe cml acc = .error e2) := by
  intro cml
  induction cml with
  | nil =>
    intro acc
    constructor
    · intro es h
      cases h
      exact ⟨[], by simp [vocEntriesOfCreateML], List.Forall₂.nil⟩
    · intro e h; cases h
  | cons c rest ih =>
    intro acc
    unfold probeEntries vocEntriesOfCreateML
    cases hp : probe c.Image with
    | openFailed t =>
      exact ⟨fun es h => (by cases h), fun e _ => ⟨_, rfl⟩⟩
    | decodeFailed t =>
      exact ⟨fun es h => (by cases h), fun e _ => ⟨_, rfl⟩⟩
    | config w hh =>
      simp only
      obtain ⟨ih1, ih2⟩ := ih (acc ++ [vocItemsOfCreateML c.Annotations
        (vocShellOfCreateML c w hh)])
      cases hr : probeEntries probe rest with
      | error e =>
        obtain ⟨e2, he2⟩ := ih2 e hr
        exact ⟨fun es h => (by cases h), fun e3 _ => ⟨e2, he2⟩⟩
      | ok es1 =>
        obtain ⟨vocs, hv, hs⟩ := ih1 es1 hr
        refine ⟨fun es h => ?_, fun e h => by cases h⟩
        simp only [Except.ok.injEq] at h
        subst h
        refine ⟨vocItemsOfCreateML c.Annotations (vocShellOfCreateML c w hh) :: vocs, ?_, ?_⟩
        · rw [hv]; simp
        · rw [List.map_cons]
          refine List.Forall₂.cons ?_ hs
          rw [vocItemsOfCreateML_eq]
          simp [vocEntry, vocShellOfCreateML, vocLabeled, createMLLabeled, vocItemOfCreateML,
            Function.comp]

/-! ### Readers of files and directories -/

theorem goToLower_empty : goToLower "" = "" := by decide

theorem not_bad_ext (path ext : String) (hext : ext ≠ "") (h : goToLower (filepathExt path) = ext) :
    ¬ (filepathExt path = "" ∨ goToLower (filepathExt path) ≠ ext) := by
  rintro (h1 | h1)
  · rw [h1] at h
    exact hext (h.symm.trans goToLower_empty)
  · exact h1 h

/-- What `ReadVOCAnnotationFromFile` does on a path with the extension `.xml`: the file is
read and decoded into the variable. -/
theorem readVocFile_xml (env : Env) (a : VOCAnnotation) (path : String)
    (h : goToLower (filepathExt path) = ".xml") :
    ReadVOCAnnotationFromFile env a path =
      match env.readFile path with
      | .error readErr => ⟨a, some (.other readErr), [path]⟩
      | .ok xmlBytes =>
        ⟨(env.xmlUnmarshal xmlBytes a).1, (env.xmlUnmarshal xmlBytes a).2.map GoError.other,
          [path]⟩ := by
  unfold ReadVOCAnnotationFromFile
  have hne : ¬ (filepathExt path = "" ∨ goToLower (filepathExt path) ≠ ".xml") := by
    rintro (h1 | h1)
    · rw [h1] at h
      exact absurd h (by decide)
    · exact h1 h
  simp only [if_neg hne]

theorem readVocFile_reads (env : Env) (a : VOCAnnotation) (path : String)
    (h : goToLower (filepathExt path) = ".xml") :
    (ReadVOCAnnotationFromFile env a path).reads = [path] := by
  rw [readVocFile_xml env a path h]
  cases env.readFile path <;> rfl

theorem xmlPaths_cons (env : Env) (path name : String) (rest : List String) :
    xmlPaths env path (name :: rest) =
      if goToLower (filepathExt (env.join path name)) = ".xml" then
        env.join path name :: xmlPaths env path rest
      else xmlPaths env path rest := by
  unfold xmlPaths
  rw [List.map_cons, List.filter_cons]
  by_cases h : goToLower (filepathExt (env.join path name)) = ".xml" <;> simp [h]

theorem vocDirLoop_spec (env : Env) (path : String) :
    ∀ (names : List String) (st : DirScan), st.err = none →
      (∀ pre p post e, xmlPaths env path names = pre ++ p :: post →
        (∀ q ∈ pre, (ReadVOCAnnotationFromFile env VOCAnnotation.zero q).err = none) →
        (ReadVOCAnnotationFromFile env VOCAnnotation.zero p).err = some e →
        (vocDirLoop env path names st).err = some e ∧
          (vocDirLoop env path names st).reads = st.reads ++ (pre ++ [p]) ∧
          (vocDirLoop env path names st).annotations = st.annotations ++
            pre.map (fun q => (ReadVOCAnnotationFromFile env VOCAnnotation.zero q).value)) ∧
      ((∀ q ∈ xmlPaths env path names,
          (ReadVOCAnnotationFromFile env VOCAnnotation.zero q).err = none) →
        (vocDirLoop env path names st).err = none ∧
          (vocDirLoop env path names st).reads = st.reads ++ xmlPaths env path names ∧
          (vocDirLoop env path names st).annotations = st.annotations ++
            (xmlPaths env path names).map
              (fun q => (ReadVOCAnnotationFromFile env VOCAnnotation.zero q).value) ∧
          (vocDirLoop env path names st).isEmpty =
            (st.isEmpty && (xmlPaths env path names).isEmpty)) := by
  intro names
  induction names with
  | nil =>
    intro st hst
    constructor
    · intro pre p post e h
      simp [xmlPaths] at h
    · intro _
      simp [vocDirLoop, xmlPaths, hst]
  | cons name rest ih =>
    intro st hst
    rw [xmlPaths_cons]
    unfold vocDirLoop
    by_cases hx : goToLower (filepathExt (env.join path name)) = ".xml"
    · simp only [hx, if_true]
      have hreads := readVocFile_reads env VOCAnnotation.zero _ hx
      cases herr : (ReadVOCAnnotationFromFile env VOCAnnotation.zero (env.join path name)).err with
      | some e0 =>
        simp only
        constructor
        · intro pre p post e h hpre hp
          cases pre with
          | nil =>
            simp only [List.nil_append, List.cons.injEq] at h
            rw [← h.1, herr] at hp
            rw [hreads, ← h.1]
            simp only [Option.some.injEq] at hp
            simp [hp]
          | cons q pre1 =>
            simp only [List.cons_append, List.cons.injEq] at h
            have := hpre q (by simp)
            rw [← h.1, herr] at this
            cases this
        · intro hall
          have := hall _ (List.mem_cons_self _ _)
          rw [herr] at this
          cases this
      | none =>
        simp only
        obtain ⟨ih1, ih2⟩ := ih
          { annotations := st.annotations ++
              [(ReadVOCAnnotationFromFile env VOCAnnotation.zero (env.join path name)).value]
            isEmpty := false
            reads := st.reads ++
              (ReadVOCAnnotationFromFile env VOCAnnotation.zero (env.join path name)).reads
            err := none } rfl
        constructor
        · intro pre p post e h hpre hp
          cases pre with
          | nil =>
            simp only [List.nil_append, List.cons.injEq] at h
            rw [← h.1, herr] at hp
            cases hp
          | cons q pre1 =>
            simp only [List.cons_append, List.cons.injEq] at h
            obtain ⟨e1, e2, e3⟩ := ih1 pre1 p post e h.2
              (fun r hr => hpre r (by simp [hr])) hp
            refine ⟨e1, ?_, ?_⟩
            · rw [e2, ← h.1]; simp [hreads]
            · rw [e3, ← h.1]; simp
        · intro hall
          obtain ⟨e1, e2, e3, e4⟩ := ih2 (fun q hq => hall q (by simp [hq]))
          refine ⟨e1, ?_, ?_, ?_⟩
          · rw [e2]; simp [hreads]
          · rw [e3]; simp
          · rw [e4]; simp
    · simp only [hx, if_false]
      exact ih st hst

/-! ### Names of the XML files -/

theorem extScan_suffix : ∀ (l acc : List Char), extScan l acc <:+ l.reverse ++ acc := by
  intro l
  induction l with
  | nil => intro acc; exact List.nil_suffix
  | cons c rest ih =>
    intro acc
    unfold extScan
    by_cases h1 : c = '/'
    · simp only [h1, if_true]; exact List.nil_suffix
    · simp only [h1, if_false]
      by_cases h2 : c = '.'
      · simp only [h2, if_true, List.reverse_cons, List.append_assoc, List.singleton_append]
        exact List.suffix_append _ _
      · simp only [h2, if_false, List.reverse_cons, List.append_assoc, List.singleton_append]
        exact ih (c :: acc)

theorem filepathExt_suffix (path : String) : (filepathExt path).data <:+ path.data := by
  have := extScan_suffix path.data.reverse []
  simpa [filepathExt] using this

theorem imageStem_append_ext (imageName : String) :
    imageStem imageName ++ filepathExt imageName = imageName := by
  obtain ⟨t, ht⟩ := filepathExt_suffix imageName
  apply String.ext
  rw [String.data_append]
  unfold imageStem trimSuffix
  rw [if_pos (List.isSuffixOf_iff_suffix.mpr ⟨t, ht⟩)]
  simp only
  conv_lhs => rw [← ht]
  conv_rhs => rw [← ht]
  simp

theorem string_append_right_cancel (a b c : String) (h : a ++ c = b ++ c) : a = b := by
  apply String.ext
  have := congrArg String.data h
  rw [String.data_append, String.data_append] at this
  exact List.append_cancel_right this

theorem xmlNameOf_nodup (names : List String) (h : (names.map imageStem).Nodup) :
    (names.map xmlNameOf).Nodup := by
  have : names.map xmlNameOf = (names.map imageStem).map (fun s => s ++ ".xml") := by
    simp [xmlNameOf, imageStem]
  rw [this]
  exact h.map (fun a b hab => string_append_right_cancel a b ".xml" hab)

theorem vocWriteLoop_ok (env : Env) (path : String) :
    ∀ (annotations : VOCAnnotations) (writes : List (String × Bytes)),
      (∀ v ∈ annotations, ∃ b, env.xmlMarshalIndent v = .ok b ∧
        env.writeFile (env.join path (xmlNameOf v.Filename)) b = none) →
      (vocWriteLoop env path annotations writes).err = none ∧
        (vocWriteLoop env path annotations writes).writes.map Prod.fst =
          writes.map Prod.fst ++
            annotations.map (fun v => env.join path (xmlNameOf v.Filename)) := by
  intro annotations
  induction annotations with
  | nil => intro writes _; simp [vocWriteLoop]
  | cons v rest ih =>
    intro writes h
    obtain ⟨b, hb1, hb2⟩ := h v (List.mem_cons_self _ _)
    unfold vocWriteLoop
    simp only [hb1, hb2]
    obtain ⟨e1, e2⟩ := ih (writes ++ [(env.join path (xmlNameOf v.Filename), b)])
      (fun u hu => h u (List.mem_cons_of_mem _ hu))
    exact ⟨e1, by rw [e2]; simp⟩

/-! ### Failures of the readers are returned errors -/

theorem readVocFile_err (env : Env) ( annotation : VOCAnnotation) (path : String) (e : GoError)
    (h : (ReadVOCAnnotationFromFile env annotation path).err = some e) : e.isPanic = false := by
  unfold ReadVOCAnnotationFromFile at h
  by_cases hx : filepathExt path = "" ∨ goToLower (filepathExt path) ≠ ".xml"
  · simp only [if_pos hx, Option.some.injEq] at h; rw [← h]; rfl
  · simp only [if_neg hx] at h
    cases hr : env.readFile path with
    | error t => simp only [hr, Option.some.injEq] at h; rw [← h]; rfl
    | ok b =>
      simp only [hr] at h
      cases hu : (env.xmlUnmarshal b annotation).2 with
      | none => simp [hu] at h
      | some t => simp [hu] at h; rw [← h]; rfl

theorem vocDirLoop_err (env : Env) (path : String) :
    ∀ (names : List String) (st : DirScan),
      (∀ e, st.err = some e → e.isPanic = false) →
      ∀ e, (vocDirLoop env path names st).err = some e → e.isPanic = false := by
  intro names
  induction names with
  | nil => intro st hst e h; exact hst e h
  | cons name rest ih =>
    intro st hst e h
    unfold vocDirLoop at h
    simp only at h
    split at h
    · split at h
      · rename_i e0 he0
        simp only [Option.some.injEq] at h
        rw [← h]
        exact readVocFile_err env _ _ _ he0
      · exact ih _ (fun e1 h1 => by cases h1) e h
    · exact ih st hst e h

theorem readVocDir_err (env : Env) (annotations : VOCAnnotations) (path : String) (e : GoError)
    (h : (ReadVOCAnnotationFromDir env annotations path).err = some e) : e.isPanic = false := by
  unfold ReadVOCAnnotationFromDir at h
  split at h
  · simp only [Option.some.injEq] at h; rw [← h]; rfl
  · simp only at h
    split at h
    · rename_i e0 he0
      simp only [Option.some.injEq] at h
      rw [← h]
      exact vocDirLoop_err env path _ _ (fun e1 h1 => by cases h1) e0 he0
    · split at h
      · simp only [Option.some.injEq] at h; rw [← h]; rfl
      · cases h

theorem readCreateMLFile_err (env : Env) (annotations : CreateMLAnnotations) (path : String)
    (e : GoError) (h : (ReadCreateMLAnnotationsFromFile env annotations path).err = some e) :
    e.isPanic = false := by
  unfold ReadCreateMLAnnotationsFromFile at h
  by_cases hx : filepathExt path = "" ∨ goToLower (filepathExt path) ≠ ".json"
  · simp only [if_pos hx, Option.some.injEq] at h; rw [← h]; rfl
  · simp only [if_neg hx] at h
    cases hr : env.readFile path with
    | error t => simp only [hr, Option.some.injEq] at h; rw [← h]; rfl
    | ok b =>
      simp only [hr] at h
      cases hu : (env.jsonUnmarshalCreateML b annotations).2 with
      | none => simp [hu] at h
      | some t => simp [hu] at h; rw [← h]; rfl

theorem result_error {α : Type} (r : ReadOutcome α) (e : GoError) (h : r.result = .error e) :
    r.err = some e := by
  unfold ReadOutcome.result at h
  cases hr : r.err with
  | none => simp [hr] at h
  | some e0 => simp [hr] at h; rw [h]

theorem probeEntries_err (probe : String → ImageProbe) :
    ∀ (cml : CreateMLAnnotations) (e : GoError), probeEntries probe cml = .error e →
      e.isPanic = false := by
  intro cml
  induction cml with
  | nil => intro e h; cases h
  | cons c rest ih =>
    intro e h
    unfold probeEntries at h
    cases hp : probe c.Image with
    | openFailed t => simp [hp] at h; rw [← h]; rfl
    | decodeFailed t => simp [hp] at h; rw [← h]; rfl
    | config w hgt =>
      simp only [hp] at h
      cases hr : probeEntries probe rest with
      | error e1 => simp [hr] at h; rw [← h]; exact ih e1 hr
      | ok es => simp [hr] at h

theorem readCocoFromVocAt_err (env : Env) (path : String) (e : GoError)
    (h : ReadCOCOAnnotationsFromPascalVOCDirAt env path = .error e) : e.isPanic = false := by
  unfold ReadCOCOAnnotationsFromPascalVOCDirAt at h
  cases hr : (ReadVOCAnnotationFromDir env [] path).result with
  | error e0 =>
    simp only [hr, Except.error.injEq] at h
    rw [← h]
    exact readVocDir_err env [] path e0 (result_error _ _ hr)
  | ok vocs =>
    simp only [hr] at h
    rw [readCocoFromVoc_eq] at h
    cases h

theorem readCocoFromCreateMLAt_err (env : Env) (path : String) (e : GoError)
    (h : ReadCOCOAnnotationsFromCreateMLFileAt env path = .error e) : e.isPanic = false := by
  unfold ReadCOCOAnnotationsFromCreateMLFileAt at h
  cases hr : (ReadCreateMLAnnotationsFromFile env [] path).result with
  | error e0 =>
    simp only [hr, Except.error.injEq] at h
    rw [← h]
    exact readCreateMLFile_err env [] path e0 (result_error _ _ hr)
  | ok cml =>
    simp only [hr] at h
    rw [readCocoFromCreateML_eq] at h
    cases hp : probeEntries (fun image => env.probe (env.join (env.dir path) image)) cml with
    | error e1 =>
      simp only [hp, Except.error.injEq] at h
      rw [← h]
      exact probeEntries_err _ cml e1 hp
    | ok es => simp [hp] at h

theorem failed_spec (err : GoError) :
    ((ConvertOutcome.failed err).printed ≠ [] ∨ (ConvertOutcome.failed err).panic ≠ none) ∧
      (ConvertOutcome.failed err).writerCalls = [] ∧ (ConvertOutcome.failed err).writes = [] ∧
      (ConvertOutcome.failed err).mkdirs = [] := by
  unfold ConvertOutcome.failed
  cases err.isPanic <;> simp

theorem failed_returned (err : GoError) (h : err.isPanic = false) :
    ConvertOutcome.failed err = ⟨[err], none, [], [], []⟩ := by
  simp [ConvertOutcome.failed, h]

/-! ### Maps with pairwise distinct keys -/

theorem store_new {κ ν : Type} [DecidableEq κ] (k : κ) (v : ν) :
    ∀ (m : GoMap κ ν), k ∉ m.map Prod.fst → GoMap.store m k v = m ++ [(k, v)] := by
  intro m
  induction m with
  | nil => intro _; rfl
  | cons p rest ih =>
    intro h
    obtain ⟨k1, v1⟩ := p
    simp only [List.map_cons, List.mem_cons, not_or] at h
    unfold GoMap.store
    rw [if_neg (fun e => h.1 e.symm), ih h.2]
    rfl

theorem store_keys {κ ν : Type} [DecidableEq κ] (k : κ) (v : ν) :
    ∀ (m : GoMap κ ν), k ∈ m.map Prod.fst →
      (GoMap.store m k v).map Prod.fst = m.map Prod.fst := by
  intro m
  induction m with
  | nil => intro h; cases h
  | cons p rest ih =>
    intro h
    obtain ⟨k1, v1⟩ := p
    unfold GoMap.store
    by_cases hk : k1 = k
    · rw [if_pos hk]; simp [hk]
    · rw [if_neg hk]
      simp only [List.map_cons, List.mem_cons] at h
      rcases h with h | h
      · exact absurd h.symm hk
      · simp [ih h]

theorem foldl_store_distinct {α κ ν : Type} [DecidableEq κ] (key : α → κ) (val : α → ν) :
    ∀ (l : List α) (m0 : GoMap κ ν), (m0.map Prod.fst ++ l.map key).Nodup →
      l.foldl (fun m x => GoMap.store m (key x) (val x)) m0 =
        m0 ++ l.map (fun x => (key x, val x)) := by
  intro l
  induction l with
  | nil => intro m0 _; simp
  | cons x rest ih =>
    intro m0 h
    have hx : key x ∉ m0.map Prod.fst := by
      intro hmem
      rw [List.nodup_append] at h
      exact h.2.2 hmem (by simp)
    rw [List.foldl_cons, store_new _ _ _ hx, ih]
    · simp
    · simpa [List.map_append, List.append_assoc] using h

theorem refLoop_keys {ν : Type}
    (extend : ν → COCOCategory → COCOAnnotation → Except GoError ν)
    (cm : GoMap Int COCOCategory) :
    ∀ (l : List COCOAnnotation) (m m1 : GoMap Int ν), refLoop extend cm l m = .ok m1 →
      m1.map Prod.fst = m.map Prod.fst := by
  intro l
  induction l with
  | nil => intro m m1 h; cases h; rfl
  | cons a rest ih =>
    intro m m1 h
    unfold refLoop refStep at h
    cases hva : GoMap.lookup m a.ImageID with
    | none => rw [hva] at h; cases h
    | some va =>
      simp only [hva] at h
      cases hc : GoMap.lookup cm a.CategoryID with
      | none => rw [hc] at h; cases h
      | some c =>
        simp only [hc] at h
        cases he : extend va c a with
        | error e => rw [he] at h; cases h
        | ok v2 =>
          simp only [he] at h
          rw [ih _ _ h]
          apply store_keys
          exact List.mem_map.mpr ⟨_, lookup_mem m _ _ hva, rfl⟩

theorem lookup_of_mem {κ ν : Type} [DecidableEq κ] :
    ∀ (m : GoMap κ ν), (m.map Prod.fst).Nodup → ∀ k v, (k, v) ∈ m →
      GoMap.lookup m k = some v := by
  intro m
  induction m with
  | nil => intro _ k v h; cases h
  | cons p rest ih =>
    intro hnd k v h
    obtain ⟨k1, v1⟩ := p
    simp only [List.map_cons, List.nodup_cons] at hnd
    unfold GoMap.lookup
    simp only [List.mem_cons, Prod.mk.injEq] at h
    rcases h with h | h
    · rw [if_pos h.1.symm, h.2]
    · have hne : k1 ≠ k := by
        intro e
        subst e
        exact hnd.1 (List.mem_map.mpr ⟨_, h, rfl⟩)
      rw [if_neg hne]
      exact ih hnd.2 k v h

/-- With pairwise distinct image ids, the values of the map a COCO reader ends with are, in
the order of the images, the entries stored under the ids of the images. -/
theorem refLoop_values {ν : Type}
    (extend : ν → COCOCategory → COCOAnnotation → Except GoError ν)
    (cm : GoMap Int COCOCategory) (shell : COCOImage → ν) (images : List COCOImage)
    (l : List COCOAnnotation) (m : GoMap Int ν)
    (hnd : (images.map (fun img => img.ID)).Nodup)
    (h : refLoop extend cm l
      (images.foldl (fun m image => GoMap.store m image.ID (shell image)) GoMap.empty) = .ok m) :
    m.map Prod.snd = images.map (fun img => (GoMap.lookup m img.ID).getD (shell img)) ∧
      ∀ img ∈ images,
        GoMap.lookup (images.foldl (fun m image => GoMap.store m image.ID (shell image))
          GoMap.empty) img.ID = some (shell img) := by
  have h0 : images.foldl (fun m image => GoMap.store m image.ID (shell image)) GoMap.empty =
      images.map (fun img => (img.ID, shell img)) := by
    have := foldl_store_distinct (fun img : COCOImage => img.ID) shell images GoMap.empty
      (by simpa [GoMap.empty] using hnd)
    simpa [GoMap.empty] using this
  have hkeys : m.map Prod.fst = images.map (fun img => img.ID) := by
    rw [refLoop_keys extend cm l _ m h, h0, List.map_map]
    rfl
  constructor
  · have hm : (m.map Prod.fst).Nodup := by rw [hkeys]; exact hnd
    apply List.ext_getElem
    · have := congrArg List.length hkeys
      simpa using this
    · intro n h1 h2
      have hn : n < m.length := by simpa using h1
      have hi : n < images.length := by simpa using h2
      have hk : (m[n]).1 = (images[n]).ID := by
        have := List.getElem_of_eq hkeys (by simpa using hn)
        simpa using this
      have := lookup_of_mem m hm (m[n]).1 (m[n]).2 (List.getElem_mem _)
      simp only [List.getElem_map]
      rw [← hk, this]
      rfl
  · intro img himg
    rw [h0]
    apply lookup_of_mem
    · rw [List.map_map]; exact hnd
    · exact List.mem_map.mpr ⟨img, himg, rfl⟩

theorem createMLExtend_items (categories : List COCOCategory) (id : Int) :
    ∀ (l : List COCOAnnotation) (v v1 : CreateMLAnnotation),
      extendsBy createMLExtend (categoryMapOf categories) id l v v1 →
      v1.Image = v.Image ∧
      ∃ items, v1.Annotations = v.Annotations ++ items ∧
        List.Forall₂ (CreateMLItemOf categories) items
          (l.filter (fun a => decide (a.ImageID = id))) := by
  intro l
  induction l with
  | nil =>
    intro v v1 h
    unfold extendsBy at h
    subst h
    exact ⟨rfl, [], by simp, List.Forall₂.nil⟩
  | cons a rest ih =>
    intro v v1 h
    unfold extendsBy at h
    by_cases hid : a.ImageID = id
    · rw [if_pos hid] at h
      obtain ⟨c, v2, hc, he, hrest⟩ := h
      obtain ⟨himage, items, hitems, hf⟩ := ih v2 v1 hrest
      unfold createMLExtend at he
      match hb : a.BBox with
      | [] => rw [hb, coordinatesOfBBox_short _ (by simp)] at he; cases he
      | [_] => rw [hb, coordinatesOfBBox_short _ (by simp)] at he; cases he
      | [_, _] => rw [hb, coordinatesOfBBox_short _ (by simp)] at he; cases he
      | [_, _, _] => rw [hb, coordinatesOfBBox_short _ (by simp)] at he; cases he
      | x :: y :: w :: hh :: more =>
        rw [hb, coordinatesOfBBox_four] at he
        simp only [Except.ok.injEq] at he
        subst he
        refine ⟨himage,
          { Label := c.Name, Coordinates := { X := x, Y := y, Width := w, Height := hh } } ::
            items,
          by simp [hitems], ?_⟩
        rw [List.filter_cons, if_pos (by simpa using hid)]
        refine List.Forall₂.cons ?_ hf
        refine ⟨⟨c, ?_, rfl⟩, x, y, w, hh, more, hb, rfl⟩
        rw [← lookup_categoryMapOf]
        exact hc
    · rw [if_neg hid] at h
      obtain ⟨himage, items, hitems, hf⟩ := ih v v1 h
      refine ⟨himage, items, hitems, ?_⟩
      rw [List.filter_cons, if_neg (by simpa using hid)]
      exact hf

/-! ### The reader a conversion calls -/

theorem result_of_err {α : Type} (r : ReadOutcome α) (e : GoError) (h : r.err = some e) :
    r.result = .error e := by
  unfold ReadOutcome.result
  rw [h]

theorem voc_ne_coco : ¬ (PascalVOC = COCO) := by decide

theorem coco_ne_voc : ¬ (COCO = PascalVOC) := by decide

theorem createml_ne_voc : ¬ (CreateML = PascalVOC) := by decide

theorem createml_ne_coco : ¬ (CreateML = COCO) := by decide

theorem vocWriteLoop_env (env : Env) (listing : String → Except String (List String))
    (decoder : Bytes → VOCAnnotation → VOCAnnotation × Option String) (path : String) :
    ∀ (l : List VOCAnnotation) (writes : List (String × Bytes)),
      vocWriteLoop { env with readDir := listing, xmlUnmarshal := decoder } path l writes =
        vocWriteLoop env path l writes := by
  intro l
  induction l with
  | nil => intro writes; rfl
  | cons v rest ih =>
    intro writes
    unfold vocWriteLoop
    simp only [ih]

/-! ### Boxes with fewer than four entries -/

theorem vocExtend_short (v : VOCAnnotation) (c : COCOCategory) (a : COCOAnnotation)
    (h : a.BBox.length < 4) :
    vocExtend v c a = .error (.indexPanic a.BBox.length a.BBox.length) := by
  unfold vocExtend
  rw [bndboxOfBBox_short _ h]

theorem createMLExtend_short (v : CreateMLAnnotation) (c : COCOCategory) (a : COCOAnnotation)
    (h : a.BBox.length < 4) :
    createMLExtend v c a = .error (.indexPanic a.BBox.length a.BBox.length) := by
  unfold createMLExtend
  rw [coordinatesOfBBox_short _ h]

/-- On a document without dangling annotation the loop of a COCO reader ends in the panic of
the first box with fewer than four entries, and returns a map when there is no such box. -/
theorem refLoop_short {ν : Type} (extend : ν → COCOCategory → COCOAnnotation → Except GoError ν)
    (hok : ∀ v c a, 4 ≤ a.BBox.length → ∃ v1, extend v c a = .ok v1)
    (hshort : ∀ v c a, a.BBox.length < 4 →
      extend v c a = .error (.indexPanic a.BBox.length a.BBox.length))
    (doc : COCOAnnotations) :
    ∀ (l : List COCOAnnotation) (m : GoMap Int ν),
      (∀ id, (GoMap.lookup m id).isSome ↔ ∃ img ∈ doc.Images, img.ID = id) →
      (∀ a ∈ l, (∃ img ∈ doc.Images, img.ID = a.ImageID) ∧
        (∃ c ∈ doc.Categories, c.ID = a.CategoryID)) →
      (∀ a, l.find? (fun a => decide (a.BBox.length < 4)) = some a →
        refLoop extend (categoryMapOf doc.Categories) l m =
          .error (.indexPanic a.BBox.length a.BBox.length)) ∧
      (l.find? (fun a => decide (a.BBox.length < 4)) = none →
        ∃ m1, refLoop extend (categoryMapOf doc.Categories) l m = .ok m1) := by
  intro l
  induction l with
  | nil =>
    intro m _ _
    exact ⟨fun a h => by simp at h, fun _ => ⟨m, rfl⟩⟩
  | cons a rest ih =>
    intro m hm hres
    have hrest : ∀ b ∈ rest, (∃ img ∈ doc.Images, img.ID = b.ImageID) ∧
        (∃ c ∈ doc.Categories, c.ID = b.CategoryID) := fun b hb => hres b (by simp [hb])
    obtain ⟨himg, hcat⟩ := hres a (by simp)
    obtain ⟨v, hv⟩ := Option.isSome_iff_exists.mp ((hm a.ImageID).mpr himg)
    obtain ⟨c, hc⟩ := Option.isSome_iff_exists.mp
      ((lookup_categoryMapOf_isSome doc.Categories a.CategoryID).mpr hcat)
    unfold refLoop refStep
    by_cases hlen : a.BBox.length < 4
    · simp only [hv, hc, hshort v c a hlen, List.find?_cons, hlen, decide_True]
      refine ⟨fun b hb => ?_, fun h => by simp at h⟩
      cases hb
      rfl
    · obtain ⟨v1, hv1⟩ := hok v c a (by omega)
      have hm1 : ∀ id, (GoMap.lookup (GoMap.store m a.ImageID v1) id).isSome ↔
          ∃ img ∈ doc.Images, img.ID = id := by
        intro id
        rw [isSome_lookup_store_present m a.ImageID v1 (by simp [hv])]
        exact hm id
      simp only [hv, hc, hv1, List.find?_cons, hlen, decide_False]
      exact ih _ hm1 hrest

theorem find?_short_none (l : List COCOAnnotation) :
    l.find? (fun a => decide (a.BBox.length < 4)) = none ↔ ∀ a ∈ l, 4 ≤ a.BBox.length := by
  rw [List.find?_eq_none]
  simp

/-- What `refLoop_short` says of a reader that maps the final map to its result. -/
theorem short_box_reader {α β : Type} (l : List COCOAnnotation) (f : Except GoError α)
    (g : α → β)
    (h1 : ∀ a, l.find? (fun a => decide (a.BBox.length < 4)) = some a →
      f = .error (.indexPanic a.BBox.length a.BBox.length))
    (h2 : l.find? (fun a => decide (a.BBox.length < 4)) = none → ∃ m1, f = .ok m1) :
    ((∃ out, Except.map g f = .ok out) ↔ ∀ a ∈ l, 4 ≤ a.BBox.length) ∧
      (∀ a, l.find? (fun a => decide (a.BBox.length < 4)) = some a →
        Except.map g f = .error (.indexPanic a.BBox.length a.BBox.length)) ∧
      (∀ e, Except.map g f = .error e → e.isPanic = true) := by
  cases hf : l.find? (fun a => decide (a.BBox.length < 4)) with
  | none =>
    obtain ⟨m1, hm1⟩ := h2 hf
    rw [hm1]
    refine ⟨⟨fun _ => (find?_short_none l).mp hf, fun _ => ⟨_, rfl⟩⟩, ?_, ?_⟩
    · intro a ha; cases ha
    · intro e he; cases he
  | some a =>
    rw [h1 a hf]
    refine ⟨⟨?_, ?_⟩, ?_, ?_⟩
    · rintro ⟨out, ho⟩; cases ho
    · intro hall
      have := (find?_short_none l).mpr hall
      rw [hf] at this
      cases this
    · intro b hb
      cases hb
      rfl
    · intro e he
      cases he
      rfl

/-! ### Maps of documents with shared image ids -/

theorem store_keys_mem {κ ν : Type} [DecidableEq κ] (m : GoMap κ ν) (k : κ) (v : ν) (k1 : κ) :
    k1 ∈ (GoMap.store m k v).map Prod.fst ↔ k1 = k ∨ k1 ∈ m.map Prod.fst := by
  by_cases h : k ∈ m.map Prod.fst
  · rw [store_keys k v m h]
    constructor
    · exact Or.inr
    · rintro (h1 | h1)
      · rw [h1]; exact h
      · exact h1
  · rw [store_new k v m h]
    simp only [List.map_append, List.map_cons, List.map_nil, List.mem_append,
      List.mem_singleton]
    tauto

theorem store_keys_nodup {κ ν : Type} [DecidableEq κ] (m : GoMap κ ν) (k : κ) (v : ν)
    (hnd : (m.map Prod.fst).Nodup) : ((GoMap.store m k v).map Prod.fst).Nodup := by
  by_cases h : k ∈ m.map Prod.fst
  · rw [store_keys k v m h]; exact hnd
  · rw [store_new k v m h]
    simp only [List.map_append, List.map_cons, List.map_nil]
    rw [List.nodup_append]
    refine ⟨hnd, List.nodup_singleton _, ?_⟩
    intro a ha hb
    rw [List.mem_singleton] at hb
    subst hb
    exact h ha

theorem foldl_store_keys {α κ ν : Type} [DecidableEq κ] (key : α → κ) (val : α → ν) :
    ∀ (l : List α) (m0 : GoMap κ ν), (m0.map Prod.fst).Nodup →
      ((l.foldl (fun m x => GoMap.store m (key x) (val x)) m0).map Prod.fst).Nodup ∧
      ∀ k, k ∈ (l.foldl (fun m x => GoMap.store m (key x) (val x)) m0).map Prod.fst ↔
        k ∈ m0.map Prod.fst ∨ ∃ x ∈ l, key x = k := by
  intro l
  induction l with
  | nil => intro m0 h; exact ⟨h, fun k => by simp⟩
  | cons x rest ih =>
    intro m0 h
    obtain ⟨h1, h2⟩ := ih (GoMap.store m0 (key x) (val x)) (store_keys_nodup m0 _ _ h)
    refine ⟨h1, fun k => ?_⟩
    rw [List.foldl_cons, h2, store_keys_mem]
    simp only [List.mem_cons, exists_eq_or_imp]
    constructor
    · rintro ((h3 | h3) | h3)
      · exact Or.inr (Or.inl h3.symm)
      · exact Or.inl h3
      · exact Or.inr (Or.inr h3)
    · rintro (h3 | h3 | h3)
      · exact Or.inl (Or.inr h3)
      · exact Or.inl (Or.inl h3.symm)
      · exact Or.inr h3

theorem filter_key {κ ν : Type} [DecidableEq κ] :
    ∀ (m : GoMap κ ν), (m.map Prod.fst).Nodup → ∀ k v, GoMap.lookup m k = some v →
      m.filter (fun p => decide (p.1 = k)) = [(k, v)] := by
  intro m
  induction m with
  | nil => intro _ k v h; cases h
  | cons p rest ih =>
    intro hnd k v h
    obtain ⟨k1, v1⟩ := p
    simp only [List.map_cons, List.nodup_cons] at hnd
    unfold GoMap.lookup at h
    by_cases hk : k1 = k
    · rw [if_pos hk] at h
      cases h
      subst hk
      rw [List.filter_cons, if_pos (by simp)]
      congr 1
      rw [List.filter_eq_nil_iff]
      intro q hq hq1
      simp only [decide_eq_true_eq] at hq1
      apply hnd.1
      rw [← hq1]
      exact List.mem_map.mpr ⟨q, hq, rfl⟩
    · rw [if_neg hk] at h
      rw [List.filter_cons, if_neg (by simpa using hk)]
      exact ih hnd.2 k v h

/-- The map a COCO reader ends with: one key for every distinct image id. -/
theorem refLoop_ids {ν : Type}
    (extend : ν → COCOCategory → COCOAnnotation → Except GoError ν)
    (cm : GoMap Int COCOCategory) (shell : COCOImage → ν) (images : List COCOImage)
    (l : List COCOAnnotation) (m : GoMap Int ν)
    (h : refLoop extend cm l
      (images.foldl (fun m image => GoMap.store m image.ID (shell image)) GoMap.empty) = .ok m) :
    (m.map Prod.fst).Nodup ∧ (∀ id, id ∈ m.map Prod.fst ↔ ∃ img ∈ images, img.ID = id) ∧
      m.length = (images.map (fun img => img.ID)).toFinset.card := by
  obtain ⟨h1, h2⟩ := foldl_store_keys (fun img : COCOImage => img.ID) shell images GoMap.empty
    (by simp [GoMap.empty])
  have hkeys := refLoop_keys extend cm l _ m h
  rw [← hkeys] at h1 h2
  have hmem : ∀ id, id ∈ m.map Prod.fst ↔ ∃ img ∈ images, img.ID = id := by
    intro id
    rw [h2]
    simp [GoMap.empty]
  refine ⟨h1, hmem, ?_⟩
  have hset : (m.map Prod.fst).toFinset = (images.map (fun img => img.ID)).toFinset := by
    ext id
    simp only [List.mem_toFinset]
    rw [hmem]
    simp
  rw [← hset, List.toFinset_card_of_nodup h1, List.length_map]

/-! ### From CreateML to VOC and back -/

theorem createMLItemOfVOC_vocItemOfCreateML (item : CreateMLAnnotationItem)
    (h : SmallIntegerBox item) : createMLItemOfVOC (vocItemOfCreateML item) = item := by
  obtain ⟨x, y, w, hh, hx, hy, hw, hhh, hxw, hyh, hc⟩ := h
  obtain ⟨label, coords⟩ := item
  simp only at hc
  subst hc
  unfold createMLItemOfVOC vocItemOfCreateML
  simp only [toInt_ofInt_small x hx, toInt_ofInt_small y hy,
    toInt_add_ofInt_small x w hx hw hxw, toInt_add_ofInt_small y hh hy hhh hyh]
  have e1 : wrapInt64 (x + w - x) = w := by
    rw [wrapInt64_small] <;> omega
  have e2 : wrapInt64 (y + hh - y) = hh := by
    rw [wrapInt64_small] <;> omega
  rw [e1, e2]

/-! ### Values of `float32` -/

theorem toRat_fin_int (neg : Bool) (n : Nat) :
    F32.toRat (F32.fin neg (n * 2 ^ 149)) = some ((F32.signedUnits neg n : Int) : ℚ) := by
  show some ((F32.signedUnits neg (n * 2 ^ 149) : ℚ) / 2 ^ 149) = _
  rw [signedUnits_mul]
  congr 1
  rw [Int.cast_mul, Int.cast_natCast, Nat.cast_pow, Nat.cast_ofNat, mul_div_assoc,
    div_self (by positivity), mul_one]

theorem toRat_ofInt_small (z : Int) (hz : z.natAbs ≤ 2 ^ 24) :
    F32.toRat (F32.ofInt z) = some (z : ℚ) := by
  rw [ofInt_small z hz, toRat_fin_int, signedUnits_natAbs]

theorem truncRat_neg (q : ℚ) : truncRat (-q) = -truncRat q := by
  unfold truncRat
  rcases lt_trichotomy q 0 with h | h | h
  · rw [if_pos (by linarith), if_neg (by linarith), Int.floor_neg]
  · subst h; simp
  · rw [if_neg (by linarith), if_pos (by linarith), Int.ceil_neg]

theorem truncRat_natCast_div (k : Nat) :
    truncRat ((k : ℚ) / 2 ^ 149) = ((k / 2 ^ 149 : Nat) : Int) := by
  unfold truncRat
  rw [if_pos (by positivity)]
  have h2 : (2 : ℚ) ^ 149 = ((2 ^ 149 : ℕ) : ℚ) := by norm_cast
  rw [show (k : ℚ) = ((k : ℤ) : ℚ) from (Int.cast_natCast k).symm, h2,
    Rat.floor_intCast_div_natCast]
  rfl

theorem truncRat_units (neg : Bool) (k : Nat) :
    truncRat ((F32.signedUnits neg k : ℚ) / 2 ^ 149) = F32.signedUnits neg (k / 2 ^ 149) := by
  cases neg
  · simp only [F32.signedUnits, Bool.false_eq_true, if_false]
    push_cast
    exact truncRat_natCast_div k
  · simp only [F32.signedUnits, if_true]
    push_cast
    rw [neg_div, truncRat_neg, truncRat_natCast_div]
    norm_cast

theorem natAbs_signedUnits (neg : Bool) (k : Nat) : (F32.signedUnits neg k).natAbs = k := by
  cases neg <;> simp [F32.signedUnits]

/-- Within the range of the 64-bit `int`, `int(f)` is the truncation of the value. -/
theorem toInt_eq_truncRat (neg : Bool) (k : Nat) (hk : k < 2 ^ 212) :
    F32.toInt (F32.fin neg k) = truncRat ((F32.signedUnits neg k : ℚ) / 2 ^ 149) := by
  rw [truncRat_units]
  unfold F32.toInt
  have hdiv : k / 2 ^ 149 < 2 ^ 63 := by
    rw [Nat.div_lt_iff_lt_mul (Nat.two_pow_pos _), ← pow_add]
    exact hk
  have hr : -(2 ^ 63 : Int) ≤ F32.signedUnits neg (k / 2 ^ 149) ∧
      F32.signedUnits neg (k / 2 ^ 149) < 2 ^ 63 := by
    have h1 : ((k / 2 ^ 149 : Nat) : Int) < 2 ^ 63 := by exact_mod_cast hdiv
    unfold F32.signedUnits
    cases neg <;> simp <;> omega
  simp only [hr, and_self, if_true]

/-- A sum that is a `float32` value is not rounded. -/
theorem add_units (s1 s2 : Bool) (k1 k2 : Nat)
    (hrep : F32.Representable (F32.signedUnits s1 k1 + F32.signedUnits s2 k2).natAbs) :
    F32.add (F32.fin s1 k1) (F32.fin s2 k2) =
      F32.fin (if F32.signedUnits s1 k1 + F32.signedUnits s2 k2 = 0 then s1 && s2
        else decide (F32.signedUnits s1 k1 + F32.signedUnits s2 k2 < 0))
        (F32.signedUnits s1 k1 + F32.signedUnits s2 k2).natAbs := by
  unfold F32.add
  simp only
  by_cases h0 : F32.signedUnits s1 k1 + F32.signedUnits s2 k2 = 0
  · simp [h0]
  · rw [if_neg h0, if_neg h0]
    exact roundUnits_of_dvd _ _ hrep.1 hrep.2

theorem signedUnits_sign (e : Int) (s : Bool) :
    F32.signedUnits (if e = 0 then s else decide (e < 0)) e.natAbs = e := by
  by_cases h0 : e = 0
  · subst h0; cases s <;> simp [F32.signedUnits]
  · rw [if_neg h0]; exact signedUnits_natAbs e

/-- The corners `int(x)`, `int(y)`, `int(x + width)`, `int(y + height)` of the source are the
truncations of the four real numbers, on a box that satisfies `ExactCorners`. -/
theorem corners_trunc (x y w h : F32) (hex : ExactCorners x y w h) :
    TruncCorners x y w h
      { Xmin := F32.toInt x, Ymin := F32.toInt y, Xmax := F32.toInt (F32.add x w),
        Ymax := F32.toInt (F32.add y h) } := by
  unfold ExactCorners at hex
  cases x with
  | fin sx kx =>
    cases y with
    | fin sy ky =>
      cases w with
      | fin sw kw =>
        cases h with
        | fin sh kh =>
          simp only [F32.units] at hex
          obtain ⟨h1, h2, h3, h4, h5, h6⟩ := hex
          rw [natAbs_signedUnits] at h1 h2
          refine ⟨_, _, _, _, rfl, rfl, rfl, rfl, ?_, ?_, ?_, ?_⟩
          · exact toInt_eq_truncRat sx kx h1
          · exact toInt_eq_truncRat sy ky h2
          · show F32.toInt (F32.add (F32.fin sx kx) (F32.fin sw kw)) = _
            rw [add_units sx sw kx kw h5, toInt_eq_truncRat _ _ h3,
              signedUnits_sign _ _]
            congr 1
            push_cast
            ring
          · show F32.toInt (F32.add (F32.fin sy ky) (F32.fin sh kh)) = _
            rw [add_units sy sh ky kh h6, toInt_eq_truncRat _ _ h4,
              signedUnits_sign _ _]
            congr 1
            push_cast
            ring
        | inf _ => simp [F32.units] at hex
        | nan => simp [F32.units] at hex
      | inf _ => simp [F32.units] at hex
      | nan => simp [F32.units] at hex
    | inf _ => simp [F32.units] at hex
    | nan => simp [F32.units] at hex
  | inf _ => simp [F32.units] at hex
  | nan => simp [F32.units] at hex

/-- A magnitude whose dropped bits are all zero is kept as it is, whatever the scale. -/
theorem roundUnits_of_dvd_scaled (neg : Bool) (m t : Nat)
    (hd : 2 ^ max (bitLen m - 24) t ∣ m) (hm : m / 2 ^ t / 2 ^ 253 < 2 ^ 24) :
    roundUnits neg m t = F32.fin neg (m / 2 ^ t) := by
  unfold roundUnits
  have ht : t ≤ max (bitLen m - 24) t := le_max_right _ _
  have hr : m % 2 ^ max (bitLen m - 24) t = 0 := Nat.mod_eq_zero_of_dvd hd
  have hq : m / 2 ^ max (bitLen m - 24) t * 2 ^ max (bitLen m - 24) t = m :=
    Nat.div_mul_cancel hd
  have hk : m / 2 ^ max (bitLen m - 24) t * 2 ^ (max (bitLen m - 24) t - t) = m / 2 ^ t := by
    have h2 : 2 ^ max (bitLen m - 24) t = 2 ^ (max (bitLen m - 24) t - t) * 2 ^ t := by
      rw [← pow_add, Nat.sub_add_cancel ht]
    have h3 : m = m / 2 ^ max (bitLen m - 24) t * 2 ^ (max (bitLen m - 24) t - t) * 2 ^ t := by
      rw [mul_assoc, ← h2, hq]
    conv_rhs => rw [h3]
    rw [Nat.mul_div_cancel _ (Nat.two_pow_pos t)]
  have hc : ¬ (2 ^ max (bitLen m - 24) t < 2 * (m % 2 ^ max (bitLen m - 24) t) ∨
      (2 * (m % 2 ^ max (bitLen m - 24) t) = 2 ^ max (bitLen m - 24) t ∧
        m / 2 ^ max (bitLen m - 24) t % 2 = 1)) := by
    rw [hr]
    have hpos : 0 < 2 ^ max (bitLen m - 24) t := Nat.two_pow_pos _
    omega
  simp only [if_neg hc, hk, if_neg (not_le.mpr hm)]

set_option exponentiation.threshold 600 in
/-- The `float32` product of two integers is exact when the product is at most `2^24`. -/
theorem mul_fin_small (s1 s2 : Bool) (a b : Nat) (hab : a * b ≤ 2 ^ 24) :
    F32.mul (F32.fin s1 (a * 2 ^ 149)) (F32.fin s2 (b * 2 ^ 149)) =
      F32.fin (xor s1 s2) (a * b * 2 ^ 149) := by
  show roundUnits (xor s1 s2) (a * 2 ^ 149 * (b * 2 ^ 149)) 149 = _
  have hm : a * 2 ^ 149 * (b * 2 ^ 149) = a * b * 2 ^ 149 * 2 ^ 149 := by ring
  have hdiv : a * 2 ^ 149 * (b * 2 ^ 149) / 2 ^ 149 = a * b * 2 ^ 149 := by
    rw [hm, Nat.mul_div_cancel _ (Nat.two_pow_pos 149)]
  rw [roundUnits_of_dvd_scaled, hdiv]
  · have hm2 : a * 2 ^ 149 * (b * 2 ^ 149) = a * b * 2 ^ 298 := by ring
    rw [hm2]
    have hlt : a * b * 2 ^ 298 < 2 ^ 323 := by
      calc a * b * 2 ^ 298 ≤ 2 ^ 24 * 2 ^ 298 := Nat.mul_le_mul_right _ hab
        _ < 2 ^ 323 := by rw [← pow_add]; exact Nat.pow_lt_pow_right (by decide) (by decide)
    rcases Nat.lt_or_ge (a * b) (2 ^ 24) with h | h
    · have hlt2 : a * b * 2 ^ 298 < 2 ^ 322 := by
        calc a * b * 2 ^ 298 < 2 ^ 24 * 2 ^ 298 :=
              Nat.mul_lt_mul_of_pos_right h (Nat.two_pow_pos _)
          _ = 2 ^ 322 := by rw [← pow_add]
      have hb := bitLen_le hlt2
      have hd : max (bitLen (a * b * 2 ^ 298) - 24) 149 ≤ 298 := by
        apply max_le <;> omega
      exact Dvd.dvd.mul_left (pow_dvd_pow 2 hd) _
    · have hn2 : a * b = 2 ^ 24 := le_antisymm hab h
      have hb := bitLen_le hlt
      have hd : max (bitLen (a * b * 2 ^ 298) - 24) 149 ≤ 299 := by
        apply max_le <;> omega
      have : a * b * 2 ^ 298 = 2 ^ 23 * 2 ^ 299 := by rw [hn2, ← pow_add, ← pow_add]
      rw [this] at hd ⊢
      exact Dvd.dvd.mul_left (pow_dvd_pow 2 hd) _
  · rw [hdiv]
    have h0 : a * b * 2 ^ 149 / 2 ^ 253 = 0 := by
      apply Nat.div_eq_of_lt
      calc a * b * 2 ^ 149 ≤ 2 ^ 24 * 2 ^ 149 := Nat.mul_le_mul_right _ hab
        _ < 2 ^ 253 := by rw [← pow_add]; exact Nat.pow_lt_pow_right (by decide) (by decide)
    rw [h0]
    exact Nat.two_pow_pos _

theorem signedUnits_xor (s1 s2 : Bool) (a b : Nat) :
    F32.signedUnits (xor s1 s2) (a * b) = F32.signedUnits s1 a * F32.signedUnits s2 b := by
  cases s1 <;> cases s2 <;> simp [F32.signedUnits]

theorem toRat_mul_ofInt_small (a b : Int) (hab : (a * b).natAbs ≤ 2 ^ 24)
    (ha : a.natAbs ≤ 2 ^ 24) (hb : b.natAbs ≤ 2 ^ 24) :
    F32.toRat (F32.mul (F32.ofInt a) (F32.ofInt b)) = some ((a * b : Int) : ℚ) := by
  rw [ofInt_small a ha, ofInt_small b hb, mul_fin_small _ _ _ _ (by rwa [← Int.natAbs_mul]),
    toRat_fin_int, signedUnits_xor, signedUnits_natAbs, signedUnits_natAbs]

/-! ### Values of the boxes made from VOC objects -/

theorem vocBBox_values (b : VOCBndbox) (h : SmallBndbox b) :
    (vocBBox b).map F32.toRat =
      [some (b.Xmin : ℚ), some (b.Ymin : ℚ), some ((b.Xmax - b.Xmin : Int) : ℚ),
        some ((b.Ymax - b.Ymin : Int) : ℚ)] := by
  obtain ⟨h1, h2, h3, h4⟩ := h
  have e1 : wrapInt64 (b.Xmax - b.Xmin) = b.Xmax - b.Xmin := by
    apply wrapInt64_small <;> omega
  have e2 : wrapInt64 (b.Ymax - b.Ymin) = b.Ymax - b.Ymin := by
    apply wrapInt64_small <;> omega
  simp only [vocBBox, vocBoxWidth, vocBoxHeight, List.map_cons, List.map_nil, e1, e2,
    toRat_ofInt_small _ h1, toRat_ofInt_small _ h2, toRat_ofInt_small _ h3,
    toRat_ofInt_small _ h4]

theorem vocArea_value (b : VOCBndbox) (h : SmallBndbox b)
    (harea : ((b.Xmax - b.Xmin) * (b.Ymax - b.Ymin)).natAbs ≤ 2 ^ 24) :
    F32.toRat (F32.mul (vocBoxWidth b) (vocBoxHeight b)) =
      some (((b.Xmax - b.Xmin) * (b.Ymax - b.Ymin) : Int) : ℚ) := by
  obtain ⟨_, _, h3, h4⟩ := h
  have e1 : wrapInt64 (b.Xmax - b.Xmin) = b.Xmax - b.Xmin := by
    apply wrapInt64_small <;> omega
  have e2 : wrapInt64 (b.Ymax - b.Ymin) = b.Ymax - b.Ymin := by
    apply wrapInt64_small <;> omega
  unfold vocBoxWidth vocBoxHeight
  rw [e1, e2]
  exact toRat_mul_ofInt_small _ _ harea h3 h4

theorem createMLItemOfVOC_values (obj : VOCAnnotationItem) (h : SmallBndbox obj.Bndbox) :
    (createMLItemOfVOC obj).Coordinates.X.toRat = some (obj.Bndbox.Xmin : ℚ) ∧
      (createMLItemOfVOC obj).Coordinates.Y.toRat = some (obj.Bndbox.Ymin : ℚ) ∧
      (createMLItemOfVOC obj).Coordinates.Width.toRat =
        some ((obj.Bndbox.Xmax - obj.Bndbox.Xmin : Int) : ℚ) ∧
      (createMLItemOfVOC obj).Coordinates.Height.toRat =
        some ((obj.Bndbox.Ymax - obj.Bndbox.Ymin : Int) : ℚ) := by
  obtain ⟨h1, h2, h3, h4⟩ := h
  have e1 : wrapInt64 (obj.Bndbox.Xmax - obj.Bndbox.Xmin) = obj.Bndbox.Xmax - obj.Bndbox.Xmin := by
    apply wrapInt64_small <;> omega
  have e2 : wrapInt64 (obj.Bndbox.Ymax - obj.Bndbox.Ymin) = obj.Bndbox.Ymax - obj.Bndbox.Ymin := by
    apply wrapInt64_small <;> omega
  simp only [createMLItemOfVOC, e1, e2, toRat_ofInt_small _ h1, toRat_ofInt_small _ h2,
    toRat_ofInt_small _ h3, toRat_ofInt_small _ h4, and_self]

theorem toRat_fin_nat (n : Nat) :
    F32.toRat (F32.fin false (n * 2 ^ 149)) = some (n : ℚ) := by
  rw [toRat_fin_int]
  simp [F32.signedUnits]

theorem forall2_singleton {α β : Type} (R : α → β → Prop) (a : α) (b : β)
    (h : List.Forall₂ R [a] [b]) : R a b := by
  cases h with
  | cons h1 _ => exact h1

/-! ### Corners as truncations -/

theorem vocObjectOf_trunc (categories : List COCOCategory) (obj : VOCAnnotationItem)
    (a : COCOAnnotation) (h : VocObjectOf categories obj a) :
    VocObjectTruncOf categories obj a := by
  obtain ⟨h1, h2, h3, h4, h5, x, y, w, hh, rest, hb, hbox⟩ := h
  refine ⟨h1, h2, h3, h4, h5, x, y, w, hh, rest, hb, ?_⟩
  intro hex
  rw [hbox]
  exact corners_trunc x y w hh hex

theorem truncRat_natCast (n : Nat) : truncRat (n : ℚ) = (n : Int) := by
  unfold truncRat
  rw [if_pos (by positivity)]
  exact Int.floor_natCast n

/-! ### Failures of the reader of `ConvertToCreateML` -/

theorem readCreateMLFromVocAt_err (env : Env) (path : String) (e : GoError)
    (h : ReadCreateMLAnnotationsFromPascalVOCDirAt env path = .error e) : e.isPanic = false := by
  unfold ReadCreateMLAnnotationsFromPascalVOCDirAt at h
  cases hr : (ReadVOCAnnotationFromDir env [] path).result with
  | error e0 =>
    simp only [hr, Except.error.injEq] at h
    rw [← h]
    exact readVocDir_err env [] path e0 (result_error _ _ hr)
  | ok vocs => simp [hr] at h

/-! ## The claims -/

/-- C1. The categories of the document built by `ReadCOCOAnnotationsFromPascalVOCDir` are the
distinct object names in the order of their first appearance, with the ids 1, 2, ..., N:
there are as many categories as distinct names, their names are `firstSeen` of the object
names (which holds every name once, ordered by the position of its first occurrence), and
the category at 0-based position `k` has id `k + 1`. -/
theorem categories_first_seen (now : String) (it : MapIter (String × COCOCategory))
    (vocs : VOCAnnotations) :
    ∃ doc, ReadCOCOAnnotationsFromPascalVOCDir now it vocs = .ok doc ∧
      doc.Categories.length = (objectNames vocs).toFinset.card ∧
      doc.Categories.map (fun c => c.Name) = firstSeen (objectNames vocs) ∧
      doc.Categories.map (fun c => c.ID) =
        (List.range doc.Categories.length).map (fun k : Nat => (k : Int) + 1) ∧
      (∀ x, x ∈ firstSeen (objectNames vocs) ↔ x ∈ objectNames vocs) ∧
      (firstSeen (objectNames vocs)).Pairwise
        (fun a b => (objectNames vocs).indexOf a < (objectNames vocs).indexOf b) := by
  refine ⟨_, readCocoFromVoc_eq now it vocs, ?_, ?_, ?_, mem_firstSeen _, pairwise_firstSeen _⟩
  · simp only [cocoDoc, entryLabels_vocEntry]
    rw [length_catValues, length_firstSeen]
  · simp only [cocoDoc, entryLabels_vocEntry]
    exact catValues_names _ 0
  · simp only [cocoDoc, entryLabels_vocEntry]
    rw [catValues_ids, length_catValues, List.range_eq_range']

/-- C2. Referential integrity of both COCO builders: in every document they return, each
annotation has the `image_id` of some entry of `Images` and the `category_id` of some entry
of `Categories`; `ReadCOCOAnnotationsFromPascalVOCDir` returns a document for every list. -/
theorem referential_integrity :
    (∀ (now : String) (it : MapIter (String × COCOCategory)) (vocs : VOCAnnotations),
      ∃ doc, ReadCOCOAnnotationsFromPascalVOCDir now it vocs = .ok doc ∧
        ∀ a ∈ doc.Annotations,
          (∃ img ∈ doc.Images, img.ID = a.ImageID) ∧
          (∃ c ∈ doc.Categories, c.ID = a.CategoryID)) ∧
    (∀ (now : String) (it : MapIter (String × COCOCategory)) (probe : String → ImageProbe)
      (cml : CreateMLAnnotations) (doc : COCOAnnotations),
      ReadCOCOAnnotationsFromCreateMLFile now it probe cml = .ok doc →
        ∀ a ∈ doc.Annotations,
          (∃ img ∈ doc.Images, img.ID = a.ImageID) ∧
          (∃ c ∈ doc.Categories, c.ID = a.CategoryID)) := by
  constructor
  · intro now it vocs
    exact ⟨_, readCocoFromVoc_eq now it vocs, cocoDoc_references now _⟩
  · intro now it probe cml doc h
    rw [readCocoFromCreateML_eq] at h
    cases hp : probeEntries probe cml with
    | error e => rw [hp] at h; cases h
    | ok es =>
      rw [hp] at h
      cases h
      exact cocoDoc_references now es

set_option maxRecDepth 8000 in
set_option exponentiation.threshold 600 in
/-- The CreateML document `sampleCreateML`, whose image can be probed, is accepted, and the
document returned for it has referential integrity. -/
theorem referential_integrity_witness :
    ReadCOCOAnnotationsFromCreateMLFile "2022-01-01T00:00:00+00:00"
        (MapIter.reverseOrder _) sampleProbe sampleCreateML = .ok sampleCreateMLCoco ∧
      ∀ a ∈ sampleCreateMLCoco.Annotations,
        (∃ img ∈ sampleCreateMLCoco.Images, img.ID = a.ImageID) ∧
        (∃ c ∈ sampleCreateMLCoco.Categories, c.ID = a.CategoryID) :=
  ⟨by decide, referential_integrity.2 "2022-01-01T00:00:00+00:00" (MapIter.reverseOrder _)
    sampleProbe sampleCreateML sampleCreateMLCoco (by decide)⟩

/-- C3, as the code has it. A VOC box whose four coordinates and whose two differences
xmax - xmin and ymax - ymin have absolute value at most 2^24 = 16777216 (up to there
`float32` holds every integer exactly) comes back unchanged: the COCO box
`[xmin, ymin, xmax - xmin, ymax - ymin]` stored as `float32` and converted back by
(int(x), int(y), int(x + w), int(y + h)) gives the same four integers. -/
theorem bbox_roundtrip_small (b : VOCBndbox)
    (hx1 : b.Xmin.natAbs ≤ 2 ^ 24) (hy1 : b.Ymin.natAbs ≤ 2 ^ 24)
    (hx2 : b.Xmax.natAbs ≤ 2 ^ 24) (hy2 : b.Ymax.natAbs ≤ 2 ^ 24)
    (hw : (b.Xmax - b.Xmin).natAbs ≤ 2 ^ 24) (hh : (b.Ymax - b.Ymin).natAbs ≤ 2 ^ 24) :
    bndboxOfBBox (vocBBox b) = .ok b := by
  have hww : wrapInt64 (b.Xmax - b.Xmin) = b.Xmax - b.Xmin := by
    apply wrapInt64_small <;> omega
  have hhw : wrapInt64 (b.Ymax - b.Ymin) = b.Ymax - b.Ymin := by
    apply wrapInt64_small <;> omega
  unfold vocBBox vocBoxWidth vocBoxHeight
  rw [bndboxOfBBox_four, hww, hhw, toInt_ofInt_small _ hx1, toInt_ofInt_small _ hy1,
    toInt_add_ofInt_small _ _ hx1 hw (by simpa using hx2),
    toInt_add_ofInt_small _ _ hy1 hh (by simpa using hy2)]
  simp

/-- The box (10, 10, 60, 80) of the scenario of the specification comes back unchanged. -/
theorem bbox_roundtrip_small_witness :
    bndboxOfBBox (vocBBox { Xmin := 10, Ymin := 10, Xmax := 60, Ymax := 80 }) =
      .ok { Xmin := 10, Ymin := 10, Xmax := 60, Ymax := 80 } :=
  bbox_roundtrip_small { Xmin := 10, Ymin := 10, Xmax := 60, Ymax := 80 }
    (by decide) (by decide) (by decide) (by decide) (by decide) (by decide)

set_option maxRecDepth 8000 in
/-- C3 as stated is false: the box with xmin = xmax = 16777217 = 2^24 + 1 comes back with
xmin = xmax = 16777216, because `float32(16777217)` is 16777216. -/
theorem bbox_roundtrip_fails_above_2_24 :
    bndboxOfBBox (vocBBox { Xmin := 16777217, Ymin := 0, Xmax := 16777217, Ymax := 0 }) =
        .ok { Xmin := 16777216, Ymin := 0, Xmax := 16777216, Ymax := 0 } ∧
      bndboxOfBBox (vocBBox { Xmin := 16777217, Ymin := 0, Xmax := 16777217, Ymax := 0 }) ≠
        .ok { Xmin := 16777217, Ymin := 0, Xmax := 16777217, Ymax := 0 } := by
  decide

/-- C4. Every annotation `ReadCOCOAnnotationsFromPascalVOCDir` creates carries the id of a
category of the output whose name is the name of its object (and every category with that id
has that name); the annotations of two objects have the same `category_id` exactly when the
two objects have the same name. Annotations and objects correspond position by position. -/
theorem category_of_object (now : String) (it : MapIter (String × COCOCategory))
    (vocs : VOCAnnotations) :
    ∃ doc, ReadCOCOAnnotationsFromPascalVOCDir now it vocs = .ok doc ∧
      List.Forall₂
        (fun a (p : Nat × VOCAnnotationItem) =>
          (∃ c ∈ doc.Categories, c.ID = a.CategoryID ∧ c.Name = p.2.Name) ∧
          (∀ c ∈ doc.Categories, c.ID = a.CategoryID → c.Name = p.2.Name))
        doc.Annotations (indexedObjects vocs) ∧
      ∀ (a b : COCOAnnotation) (p q : Nat × VOCAnnotationItem),
        (a, p) ∈ doc.Annotations.zip (indexedObjects vocs) →
        (b, q) ∈ doc.Annotations.zip (indexedObjects vocs) →
        (a.CategoryID = b.CategoryID ↔ p.2.Name = q.2.Name) := by
  refine ⟨_, readCocoFromVoc_eq now it vocs, ?_, ?_⟩
  · refine (voc_items_forall2 now vocs).imp ?_
    intro a p hR
    obtain ⟨⟨_, hC, _⟩, hmem, _⟩ := hR
    have hk : p.2.Name ∈ firstSeen (objectNames vocs) := (mem_firstSeen _ _).mpr hmem
    simp only [cocoDoc, entryLabels_vocEntry]
    constructor
    · exact ⟨_, catValues_mem _ _ hk, by simp [hC, vocLabeled], rfl⟩
    · intro c hc hid
      exact catValues_name_of_id _ _ hk c hc (by rw [hid, hC]; rfl)
  · intro a b p q hp hq
    obtain ⟨⟨_, hCa, _⟩, hma, _⟩ := List.forall₂_zip (voc_items_forall2 now vocs) hp
    obtain ⟨⟨_, hCb, _⟩, hmb, _⟩ := List.forall₂_zip (voc_items_forall2 now vocs) hq
    rw [hCa, hCb]
    exact catId_inj _ _ _ ((mem_firstSeen _ _).mpr hma) ((mem_firstSeen _ _).mpr hmb)

/-- C5. The id of every annotation `ReadCOCOAnnotationsFromPascalVOCDir` emits is its 0-based
position in the output list; and for the object at 0-based index `i` of an image, the
annotation at position (number of annotations emitted for the earlier images) + `i` is the
one of that object (it has the id of that image and the box of that object) and has exactly
that number as id. -/
theorem annotation_id_is_position (now : String) (it : MapIter (String × COCOCategory))
    (vocs : VOCAnnotations) :
    ∃ doc, ReadCOCOAnnotationsFromPascalVOCDir now it vocs = .ok doc ∧
      doc.Annotations.map (fun a => a.ID) =
        (List.range doc.Annotations.length).map (fun k : Nat => (k : Int)) ∧
      ∀ (pre post : VOCAnnotations) (v : VOCAnnotation) (i : Nat),
        vocs = pre ++ v :: post → i < v.Object.length →
        ∃ a,
          doc.Annotations[(doc.Annotations.filter
              (fun a => decide (a.ImageID ≤ (pre.length : Int)))).length + i]? = some a ∧
            a.ImageID = (pre.length : Int) + 1 ∧
            (∃ obj, v.Object[i]? = some obj ∧ a.BBox = vocBBox obj.Bndbox) ∧
            a.ID = ((doc.Annotations.filter
              (fun a => decide (a.ImageID ≤ (pre.length : Int)))).length : Int) + (i : Int) := by
  refine ⟨_, readCocoFromVoc_eq now it vocs, cocoDoc_ids now _, ?_⟩
  intro pre post v i hv hi
  subst hv
  rw [List.map_append, List.map_cons]
  have hc := cocoDoc_earlier_count now (pre.map vocEntry) (post.map vocEntry) (vocEntry v)
  rw [List.length_map] at hc
  rw [hc]
  obtain ⟨a, ha, hI, x, hx, hB⟩ := cocoDoc_own_image now (pre.map vocEntry)
    (post.map vocEntry) (vocEntry v) i (by simpa [vocEntry] using hi)
  rw [List.length_map] at hI
  refine ⟨a, ha, hI, ?_, ?_⟩
  · refine ⟨v.Object[i], List.getElem?_eq_getElem hi, ?_⟩
    have hx2 : (vocEntry v).Items[i]? = some (vocLabeled v.Object[i]) := by
      simp [vocEntry, List.getElem?_eq_getElem hi]
    rw [hx2] at hx
    rw [hB, ← Option.some.inj hx]
    rfl
  · rw [cocoDoc_id_getElem? now _ _ a ha]
    push_cast
    rfl

/-- C6, as the code has it. Neither COCO builder emits a duplicate id: in every document
returned the ids of the annotations are pairwise distinct, whatever the object counts of the
images, each id being the 0-based position of its annotation in the output list. -/
theorem annotation_ids_distinct :
    (∀ (now : String) (it : MapIter (String × COCOCategory)) (vocs : VOCAnnotations),
      ∃ doc, ReadCOCOAnnotationsFromPascalVOCDir now it vocs = .ok doc ∧
        (doc.Annotations.map (fun a => a.ID)).Nodup ∧
        doc.Annotations.map (fun a => a.ID) =
          (List.range doc.Annotations.length).map (fun k : Nat => (k : Int))) ∧
    (∀ (now : String) (it : MapIter (String × COCOCategory)) (probe : String → ImageProbe)
      (cml : CreateMLAnnotations) (doc : COCOAnnotations),
      ReadCOCOAnnotationsFromCreateMLFile now it probe cml = .ok doc →
        (doc.Annotations.map (fun a => a.ID)).Nodup ∧
        doc.Annotations.map (fun a => a.ID) =
          (List.range doc.Annotations.length).map (fun k : Nat => (k : Int))) := by
  constructor
  · intro now it vocs
    exact ⟨_, readCocoFromVoc_eq now it vocs, cocoDoc_ids_nodup now _, cocoDoc_ids now _⟩
  · intro now it probe cml doc h
    rw [readCocoFromCreateML_eq] at h
    cases hp : probeEntries probe cml with
    | error e => rw [hp] at h; cases h
    | ok es =>
      rw [hp] at h
      cases h
      exact ⟨cocoDoc_ids_nodup now es, cocoDoc_ids now es⟩

/-- C6 as stated is false: no input makes `ReadCOCOAnnotationsFromPascalVOCDir` emit two
annotations of different images with the same id. -/
theorem no_shared_id_across_images :
    ¬ ∃ (now : String) (it : MapIter (String × COCOCategory)) (vocs : VOCAnnotations)
        (doc : COCOAnnotations) (j k : Nat) (a b : COCOAnnotation),
        ReadCOCOAnnotationsFromPascalVOCDir now it vocs = .ok doc ∧
          doc.Annotations[j]? = some a ∧ doc.Annotations[k]? = some b ∧
          a.ImageID ≠ b.ImageID ∧ a.ID = b.ID := by
  rintro ⟨now, it, vocs, doc, j, k, a, b, hdoc, ha, hb, hne, hid⟩
  rw [readCocoFromVoc_eq] at hdoc
  cases hdoc
  have h1 := cocoDoc_id_getElem? now _ j a ha
  have h2 := cocoDoc_id_getElem? now _ k b hb
  have hjk : j = k := by omega
  subst hjk
  rw [ha] at hb
  cases hb
  exact hne rfl

/-- C7. `ReadCOCOAnnotationsFromPascalVOCDir` produces one image per VOC annotation: the
image at 0-based position `i` has id `i + 1`, license 1, an empty `date_captured`, and the
file name, height and width of the `i`-th VOC annotation. -/
theorem images_of_annotations (now : String) (it : MapIter (String × COCOCategory))
    (vocs : VOCAnnotations) :
    ∃ doc, ReadCOCOAnnotationsFromPascalVOCDir now it vocs = .ok doc ∧
      doc.Images.length = vocs.length ∧
      doc.Images = vocs.enum.map (fun p =>
        ({ ID := (p.1 : Int) + 1
           License := 1
           FileName := p.2.Filename
           Height := p.2.Size.Height
           Width := p.2.Size.Width
           DateCaptured := "" } : COCOImage)) := by
  refine ⟨_, readCocoFromVoc_eq now it vocs, ?_, ?_⟩
  · simp [cocoDoc, length_imagesFrom]
  · exact imagesFrom_vocEntry vocs 0

set_option maxRecDepth 8000 in
set_option exponentiation.threshold 600 in
/-- C8, as stated, fails: for the object at (16777217, 0, 16781314, 4097) of `sampleLargeVoc`
the annotation has the box [16777216, 0, 4097, 4097] and the area 16785408, where the claim
gives xmin = 16777217 and the area 4097 * 4097 = 16785409: `float32` holds neither number. -/
theorem bbox_and_area_rounded_above_2_24 :
    Except.map (fun doc => doc.Annotations.map (fun a => (a.BBox, a.Area)))
        (ReadCOCOAnnotationsFromPascalVOCDir "" (MapIter.insertionOrder _) sampleLargeVoc) =
      .ok [([F32.fin false (16777216 * 2 ^ 149), F32.fin false (0 * 2 ^ 149),
              F32.fin false (4097 * 2 ^ 149), F32.fin false (4097 * 2 ^ 149)],
            F32.fin false (16785408 * 2 ^ 149))] ∧
      F32.toRat (F32.fin false (16777216 * 2 ^ 149)) = some 16777216 ∧
      F32.toRat (F32.fin false (16785408 * 2 ^ 149)) = some 16785408 ∧
      (16781314 - 16777217 : Int) * (4097 - 0) = 16785409 := by
  refine ⟨by decide, ?_, ?_, by decide⟩
  · exact (toRat_fin_nat 16777216).trans (by norm_num)
  · exact (toRat_fin_nat 16785408).trans (by norm_num)

/-- C8, amended. `ReadCOCOAnnotationsFromPascalVOCDir` emits one annotation per VOC object,
in input order (image by image, object by object): the annotation of an object with the box
(xmin, ymin, xmax, ymax) of the image at 0-based index `i` has `image_id` `i + 1`, an empty
segmentation and `iscrowd` 0; when xmin, ymin, xmax - xmin and ymax - ymin are of absolute
value at most 2^24 (`SmallBndbox`) the entries of its box are the numbers xmin, ymin,
xmax - xmin, ymax - ymin, and when the product (xmax - xmin) * (ymax - ymin) is in that range
too its area is that product. And the image `a.jpg` (300x200) with the single object `cat` at
(10, 10, 60, 80) gives image id 1, category id 1, the box [10, 10, 50, 70] and the area
3500. -/
theorem annotation_per_object_values (now : String) (it : MapIter (String × COCOCategory))
    (vocs : VOCAnnotations) :
    (∃ doc, ReadCOCOAnnotationsFromPascalVOCDir now it vocs = .ok doc ∧
      List.Forall₂
        (fun a (p : Nat × VOCAnnotationItem) =>
          a.ImageID = (p.1 : Int) + 1 ∧ a.Segmentation = [] ∧ a.IsCrowd = 0 ∧
          (SmallBndbox p.2.Bndbox →
            a.BBox.map F32.toRat =
                [some (p.2.Bndbox.Xmin : ℚ), some (p.2.Bndbox.Ymin : ℚ),
                  some ((p.2.Bndbox.Xmax - p.2.Bndbox.Xmin : Int) : ℚ),
                  some ((p.2.Bndbox.Ymax - p.2.Bndbox.Ymin : Int) : ℚ)] ∧
              (((p.2.Bndbox.Xmax - p.2.Bndbox.Xmin) *
                  (p.2.Bndbox.Ymax - p.2.Bndbox.Ymin)).natAbs ≤ 2 ^ 24 →
                a.Area.toRat =
                  some (((p.2.Bndbox.Xmax - p.2.Bndbox.Xmin) *
                    (p.2.Bndbox.Ymax - p.2.Bndbox.Ymin) : Int) : ℚ))))
        doc.Annotations (indexedObjects vocs)) ∧
    (∀ (v : VOCAnnotation) (obj : VOCAnnotationItem),
      ∃ doc a, ReadCOCOAnnotationsFromPascalVOCDir now it
          [{ v with
              Filename := "a.jpg"
              Size := { v.Size with Width := 300, Height := 200 }
              Object := [{ obj with
                Name := "cat"
                Bndbox := { Xmin := 10, Ymin := 10, Xmax := 60, Ymax := 80 } }] }] = .ok doc ∧
        doc.Images = [{ ID := 1, License := 1, FileName := "a.jpg", Height := 200,
                        Width := 300, DateCaptured := "" }] ∧
        doc.Categories = [{ ID := 1, Name := "cat", SuperCategory := "" }] ∧
        doc.Annotations = [a] ∧ a.ImageID = 1 ∧ a.CategoryID = 1 ∧
        a.BBox.map F32.toRat = [some 10, some 10, some 50, some 70] ∧
        a.Area.toRat = some 3500) := by
  constructor
  · refine ⟨_, readCocoFromVoc_eq now it vocs, ?_⟩
    refine (voc_items_forall2 now vocs).imp ?_
    intro a p hR
    obtain ⟨⟨h1, _, h3, h4, h5, h6⟩, _, _⟩ := hR
    refine ⟨h1, h5, h6, ?_⟩
    intro hsmall
    rw [h3, h4]
    exact ⟨vocBBox_values _ hsmall, fun harea => vocArea_value _ hsmall harea⟩
  · intro v obj
    have hb : SmallBndbox { Xmin := 10, Ymin := 10, Xmax := 60, Ymax := 80 } := by decide
    have hv := vocBBox_values _ hb
    have ha := vocArea_value _ hb (by decide)
    refine ⟨_,
      { ID := 0, ImageID := 1, CategoryID := 1,
        BBox := vocBBox { Xmin := 10, Ymin := 10, Xmax := 60, Ymax := 80 },
        Area := F32.mul (vocBoxWidth { Xmin := 10, Ymin := 10, Xmax := 60, Ymax := 80 })
          (vocBoxHeight { Xmin := 10, Ymin := 10, Xmax := 60, Ymax := 80 }),
        Segmentation := [], IsCrowd := 0 },
      readCocoFromVoc_eq now it _, ?_, ?_, ?_, rfl, rfl, ?_, ?_⟩
    · simp [cocoDoc, vocEntry, imagesFrom, entryImage]
    · simp [cocoDoc, vocEntry, vocLabeled, entryLabels, firstSeen, catMapFrom, GoMap.empty]
    · simp [cocoDoc, vocEntry, vocLabeled, entryLabels, firstSeen, allItemsFrom, itemsFrom,
        labeledItem, catId]
    · rw [hv]; norm_num
    · rw [ha]; norm_num

/-- C9. On a COCO document whose boxes all have four entries or more, both COCO readers
return an error exactly when some annotation dangles (its `image_id` is the id of no image
or its `category_id` the id of no category); the error is the one of the first dangling
annotation in input order, naming the missing image when the image is missing and the
missing category otherwise. -/
theorem dangling_reference_error (it1 : MapIter (Int × VOCAnnotation))
    (it2 : MapIter (Int × CreateMLAnnotation)) (doc : COCOAnnotations)
    (hbox : ∀ a ∈ doc.Annotations, 4 ≤ a.BBox.length) :
    (((∃ e, ReadVOCAnnotationsFromCOCOFile it1 doc = .error e) ↔
        ∃ a ∈ doc.Annotations, Dangling doc a) ∧
      (∀ a, doc.Annotations.find? (fun a => decide (Dangling doc a)) = some a →
        ReadVOCAnnotationsFromCOCOFile it1 doc = .error (danglingError doc a))) ∧
    (((∃ e, ReadCreateMLAnnotationsFromCOCOFile it2 doc = .error e) ↔
        ∃ a ∈ doc.Annotations, Dangling doc a) ∧
      (∀ a, doc.Annotations.find? (fun a => decide (Dangling doc a)) = some a →
        ReadCreateMLAnnotationsFromCOCOFile it2 doc = .error (danglingError doc a))) := by
  have hV := refLoop_dangling vocExtend vocExtend_ok doc doc.Annotations
    (vocImageMaps doc.Images).2
    (by intro id; rw [snd_vocImageMaps]; exact lookup_shells_isSome _ _ _) hbox
  have hC := refLoop_dangling createMLExtend createMLExtend_ok doc doc.Annotations
    (createMLImageMaps doc.Images).2
    (by intro id; rw [snd_createMLImageMaps]; exact lookup_shells_isSome _ _ _) hbox
  rw [← vocAnnotationLoop_ref] at hV
  rw [← createMLAnnotationLoop_ref] at hC
  have key : ∀ {α β : Type} (f : Except GoError α) (g : α → β),
      ((∀ a, doc.Annotations.find? (fun a => decide (Dangling doc a)) = some a →
          f = .error (danglingError doc a)) ∧
        (doc.Annotations.find? (fun a => decide (Dangling doc a)) = none →
          ∃ m1, f = .ok m1)) →
      (((∃ e, Except.map g f = .error e) ↔ ∃ a ∈ doc.Annotations, Dangling doc a) ∧
        (∀ a, doc.Annotations.find? (fun a => decide (Dangling doc a)) = some a →
          Except.map g f = .error (danglingError doc a))) := by
    intro α β f g h
    obtain ⟨h1, h2⟩ := h
    constructor
    · cases hf : doc.Annotations.find? (fun a => decide (Dangling doc a)) with
      | none =>
        obtain ⟨m1, hm1⟩ := h2 hf
        rw [hm1]
        constructor
        · rintro ⟨e, he⟩; cases he
        · intro hex; exact absurd hex ((find?_dangling_none doc _).mp hf)
      | some a =>
        rw [h1 a hf]
        constructor
        · intro _
          exact ⟨a, List.mem_of_find?_eq_some hf, by simpa using List.find?_some hf⟩
        · intro _; exact ⟨_, rfl⟩
    · intro a ha
      rw [h1 a ha]
      rfl
  rw [readVoc_eq_map, readCreateML_eq_map]
  exact ⟨key _ _ hV, key _ _ hC⟩

set_option maxRecDepth 8000 in
/-- On `sampleDangling`, whose boxes all have four entries, both readers report the second
annotation, the first that dangles, and name its missing image. -/
theorem dangling_reference_error_witness :
    (∀ a ∈ sampleDangling.Annotations, 4 ≤ a.BBox.length) ∧
      ReadVOCAnnotationsFromCOCOFile (MapIter.insertionOrder _) sampleDangling =
        .error (.imageMissing 7 5) ∧
      ReadCreateMLAnnotationsFromCOCOFile (MapIter.insertionOrder _) sampleDangling =
        .error (.imageMissing 7 5) :=
  ⟨by decide,
    ((dangling_reference_error (MapIter.insertionOrder _) (MapIter.insertionOrder _)
      sampleDangling (by decide)).1.2 sampleStray (by decide)).trans (by decide),
    ((dangling_reference_error (MapIter.insertionOrder _) (MapIter.insertionOrder _)
      sampleDangling (by decide)).2.2 sampleStray (by decide)).trans (by decide)⟩

set_option maxRecDepth 8000 in
set_option exponentiation.threshold 600 in
/-- C10, as stated, fails. The document `sampleBigBoxes` is accepted. For its box
[16777216, 16777216, 1, 3] the object has xmax = 16777216 and ymax = 16777220, where
trunc(x + width) is 16777217 and trunc(y + height) is 16777219: the `float32` sums are
rounded. For its box with x = 2^70 the object has xmin = -2^63, where trunc(x) is 2^70: the
number does not fit the 64-bit `int`. -/
theorem corners_not_truncated_sums :
    ReadVOCAnnotationsFromCOCOFile (MapIter.insertionOrder _) sampleBigBoxes =
      .ok [{ vocShell { ID := 1, License := 1, FileName := "a.jpg", Height := 200,
                        Width := 300, DateCaptured := "" } with
             Object := [sampleObject "cat" 16777216 16777216 16777216 16777220,
                        sampleObject "dog" (-(2 ^ 63)) 0 (-(2 ^ 63)) 0] }] ∧
      F32.toRat (F32.ofInt 16777216) = some 16777216 ∧ F32.toRat (F32.ofInt 1) = some 1 ∧
      F32.toRat (F32.ofInt 3) = some 3 ∧
      truncRat ((16777216 : ℚ) + 1) = 16777217 ∧ truncRat ((16777216 : ℚ) + 3) = 16777219 ∧
      F32.toRat (F32.fin false (2 ^ 70 * 2 ^ 149)) = some (2 ^ 70) ∧
      truncRat ((2 : ℚ) ^ 70) = 2 ^ 70 := by
  refine ⟨by decide, ?_, ?_, ?_, ?_, ?_, ?_, ?_⟩
  · exact (toRat_ofInt_small 16777216 (by decide)).trans (by norm_num)
  · exact (toRat_ofInt_small 1 (by decide)).trans (by norm_num)
  · exact (toRat_ofInt_small 3 (by decide)).trans (by norm_num)
  · have := truncRat_natCast 16777217
    norm_num at this ⊢
    exact this
  · have := truncRat_natCast 16777219
    norm_num at this ⊢
    exact this
  · exact (toRat_fin_nat (2 ^ 70)).trans (by norm_num)
  · have := truncRat_natCast (2 ^ 70)
    norm_num at this ⊢
    exact this

/-- C10, amended. In every result of `ReadVOCAnnotationsFromCOCOFile`, the VOC annotation
stored under the id of an image of the document is part of the output, and its objects are,
one for one and in input order, the COCO annotations with that `image_id`: each object is
named after the category with the annotation's `category_id`, has the pose `unspecified` and
the flags truncated, difficult and occluded 0, and for the box `[x, y, width, height]` has
xmin = trunc(x), ymin = trunc(y), xmax = trunc(x + width), ymax = trunc(y + height) whenever
x, y, x + width and y + height are below 2^63 in absolute value and the sums x + width and
y + height are `float32` values themselves (`ExactCorners`; the relation
`VocObjectTruncOf`). -/
theorem objects_of_image_exact (it : MapIter (Int × VOCAnnotation)) (doc : COCOAnnotations)
    (out : VOCAnnotations) (hok : ReadVOCAnnotationsFromCOCOFile it doc = .ok out) :
    ∀ img ∈ doc.Images, ∃ m voc,
      vocAnnotationMapOfCOCO doc = .ok m ∧ GoMap.lookup m img.ID = some voc ∧ voc ∈ out ∧
      List.Forall₂ (VocObjectTruncOf doc.Categories)
        voc.Object (doc.Annotations.filter (fun a => decide (a.ImageID = img.ID))) := by
  intro img himg
  unfold ReadVOCAnnotationsFromCOCOFile at hok
  cases hm : vocAnnotationMapOfCOCO doc with
  | error e => rw [hm] at hok; cases hok
  | ok m =>
    rw [hm] at hok
    simp only [Except.ok.injEq] at hok
    have hloop := hm
    unfold vocAnnotationMapOfCOCO at hloop
    rw [vocAnnotationLoop_ref] at hloop
    obtain ⟨h1, _⟩ := refLoop_extends vocExtend _ _ _ _ hloop img.ID
    have hshell : (GoMap.lookup (vocImageMaps doc.Images).2 img.ID).isSome := by
      rw [snd_vocImageMaps, lookup_shells_isSome]
      exact ⟨img, himg, rfl⟩
    obtain ⟨v0, hv0⟩ := Option.isSome_iff_exists.mp hshell
    obtain ⟨voc, hvoc, hext⟩ := h1 v0 hv0
    have hv0obj : v0.Object = [] := by
      rw [snd_vocImageMaps, lookup_shells] at hv0
      cases hf : doc.Images.reverse.find? (fun image => decide (image.ID = img.ID)) with
      | none => rw [hf] at hv0; cases hv0
      | some i0 =>
        rw [hf] at hv0
        simp only [Option.map_some', Option.some.injEq] at hv0
        rw [← hv0]
        rfl
    obtain ⟨_, objs, hobjs, hf⟩ := vocExtend_objects doc.Categories img.ID _ _ _ hext
    rw [hv0obj, List.nil_append] at hobjs
    refine ⟨m, voc, rfl, hvoc, ?_, ?_⟩
    · rw [← hok]
      have hmem : (img.ID, voc) ∈ it.order (GoMap.entries m) :=
        (it.perm _).symm.subset (lookup_mem m _ _ hvoc)
      exact List.mem_map.mpr ⟨_, hmem, rfl⟩
    · rw [hobjs]
      exact hf.imp (fun obj a h => vocObjectOf_trunc doc.Categories obj a h)

set_option maxRecDepth 8000 in
set_option exponentiation.threshold 600 in
/-- C10 amended, on an instance: the document `sampleCoco` is accepted, its box
[5.5, 5, 20, 30] satisfies `ExactCorners`, and the objects of its two images are as the
theorem says. -/
theorem objects_of_image_exact_witness :
    ReadVOCAnnotationsFromCOCOFile (MapIter.reverseOrder _) sampleCoco = .ok sampleVocResult ∧
      ExactCorners (F32.fin false (11 * 2 ^ 148)) (F32.ofInt 5) (F32.ofInt 20) (F32.ofInt 30) ∧
      ∀ img ∈ sampleCoco.Images, ∃ m voc,
        vocAnnotationMapOfCOCO sampleCoco = .ok m ∧ GoMap.lookup m img.ID = some voc ∧
        voc ∈ sampleVocResult ∧
        List.Forall₂ (VocObjectTruncOf sampleCoco.Categories) voc.Object
          (sampleCoco.Annotations.filter (fun a => decide (a.ImageID = img.ID))) :=
  ⟨by decide, by decide,
    objects_of_image_exact (MapIter.reverseOrder _) sampleCoco sampleVocResult (by decide)⟩

/-- C11, as stated, fails: the document `sampleSharedId` has two images, both with the id 1;
it is accepted, and the result has one entry, the one of `b.jpg`, and none for `a.jpg`. -/
theorem shared_id_one_entry :
    sampleSharedId.Images.length = 2 ∧
      ReadVOCAnnotationsFromCOCOFile (MapIter.insertionOrder _) sampleSharedId =
        .ok [vocShell sampleLater] ∧
      ∀ it out, ReadVOCAnnotationsFromCOCOFile it sampleSharedId = .ok out →
        out.length ≠ sampleSharedId.Images.length ∧ ∀ voc ∈ out, voc.Filename ≠ "a.jpg" := by
  refine ⟨rfl, by decide, ?_⟩
  intro it out h
  have hm : vocAnnotationMapOfCOCO sampleSharedId = .ok [(1, vocShell sampleLater)] := by
    decide
  unfold ReadVOCAnnotationsFromCOCOFile at h
  rw [hm] at h
  simp only [Except.ok.injEq] at h
  have hs := List.perm_singleton.mp (it.perm (GoMap.entries [(1, vocShell sampleLater)]))
  simp only [GoMap.entries] at hs h
  rw [hs] at h
  subst h
  constructor
  · decide
  · intro voc hv
    simp only [List.map_cons, List.map_nil, List.mem_singleton] at hv
    subst hv
    decide

/-- C11, amended. When the images of the document have pairwise distinct ids and
`ReadVOCAnnotationsFromCOCOFile` accepts it, the result has as many entries as the document
has images and is, in some order, one VOC annotation for each image (a rearrangement of the
list that gives every image, in order, its annotation `entryOf img`): the annotation of an
image has file name and path equal to the `file_name` of the image, the size (width of the
image, height of the image, 3), and no object when no annotation of the document references
the image. -/
theorem voc_entry_per_image (it : MapIter (Int × VOCAnnotation)) (doc : COCOAnnotations)
    (out : VOCAnnotations) (hids : (doc.Images.map (fun img => img.ID)).Nodup)
    (hok : ReadVOCAnnotationsFromCOCOFile it doc = .ok out) :
    out.length = doc.Images.length ∧
    ∃ entryOf : COCOImage → VOCAnnotation,
      out.Perm (doc.Images.map entryOf) ∧
      ∀ img ∈ doc.Images,
        entryOf img ∈ out ∧
        (entryOf img).Filename = img.FileName ∧ (entryOf img).Path = img.FileName ∧
        (entryOf img).Size = { Width := img.Width, Height := img.Height, Depth := 3 } ∧
        ((∀ a ∈ doc.Annotations, a.ImageID ≠ img.ID) → (entryOf img).Object = []) := by
  unfold ReadVOCAnnotationsFromCOCOFile at hok
  cases hm : vocAnnotationMapOfCOCO doc with
  | error e => rw [hm] at hok; cases hok
  | ok m =>
    rw [hm] at hok
    simp only [Except.ok.injEq] at hok
    have hloop := hm
    unfold vocAnnotationMapOfCOCO at hloop
    rw [vocAnnotationLoop_ref, snd_vocImageMaps] at hloop
    obtain ⟨hvals, hshell⟩ := refLoop_values vocExtend _ vocShell doc.Images _ m hids hloop
    have hperm : out.Perm (doc.Images.map
        (fun img => (GoMap.lookup m img.ID).getD (vocShell img))) := by
      rw [← hok, ← hvals]
      exact (it.perm _).map Prod.snd
    refine ⟨?_, fun img => (GoMap.lookup m img.ID).getD (vocShell img), hperm, ?_⟩
    · have := hperm.length_eq
      simpa using this
    · intro img himg
      obtain ⟨h1, _⟩ := refLoop_extends vocExtend _ _ _ _ hloop img.ID
      obtain ⟨voc, hvoc, hext⟩ := h1 _ (hshell img himg)
      obtain ⟨hframe, objs, hobjs, hf⟩ := vocExtend_objects doc.Categories img.ID _ _ _ hext
      simp only [hvoc, Option.getD_some]
      have hF : voc.Filename = img.FileName := congrArg VOCAnnotation.Filename hframe
      have hP : voc.Path = img.FileName := congrArg VOCAnnotation.Path hframe
      have hS : voc.Size = { Width := img.Width, Height := img.Height, Depth := 3 } :=
        congrArg VOCAnnotation.Size hframe
      refine ⟨?_, hF, hP, hS, ?_⟩
      · apply hperm.symm.subset
        exact List.mem_map.mpr ⟨img, himg, by simp [hvoc]⟩
      · intro hnone
        have hfil : doc.Annotations.filter (fun a => decide (a.ImageID = img.ID)) = [] := by
          rw [List.filter_eq_nil_iff]
          intro a ha
          simpa using hnone a ha
        rw [hfil] at hf
        cases hf
        rw [hobjs]
        rfl

set_option maxRecDepth 8000 in
/-- C11 amended, on an instance: the two images of `sampleCoco` have different ids, and the
result has two entries. -/
theorem voc_entry_per_image_witness :
    ReadVOCAnnotationsFromCOCOFile (MapIter.reverseOrder _) sampleCoco = .ok sampleVocResult ∧
      sampleVocResult.length = sampleCoco.Images.length :=
  ⟨by decide,
    (voc_entry_per_image (MapIter.reverseOrder _) sampleCoco sampleVocResult (by decide)
      (by decide)).1⟩

set_option maxRecDepth 8000 in
set_option exponentiation.threshold 600 in
/-- C12, as stated, fails. For the item of `sampleWide`, at x = 16777216 with width 1, the
object has xmax = 16777216, where trunc(x + width) is 16777217: the `float32` sum is rounded.
For the item of `sampleFar`, at x = 2^70, the object has xmin = -2^63, where trunc(x) is
2^70: the number does not fit the 64-bit `int`. -/
theorem createml_corners_not_truncated_sums :
    Except.map (List.map (fun (voc : VOCAnnotation) => voc.Object.map (fun obj => obj.Bndbox)))
        (ReadVOCAnnotationsFromCreateMLFile id sampleProbe sampleWide) =
      .ok [[{ Xmin := 16777216, Ymin := 0, Xmax := 16777216, Ymax := 1 }]] ∧
    Except.map (List.map (fun (voc : VOCAnnotation) => voc.Object.map (fun obj => obj.Bndbox)))
        (ReadVOCAnnotationsFromCreateMLFile id sampleProbe sampleFar) =
      .ok [[{ Xmin := -(2 ^ 63), Ymin := 0, Xmax := -(2 ^ 63), Ymax := 0 }]] ∧
    F32.toRat (F32.ofInt 16777216) = some 16777216 ∧ F32.toRat (F32.ofInt 1) = some 1 ∧
    truncRat ((16777216 : ℚ) + 1) = 16777217 ∧
    F32.toRat (F32.fin false (2 ^ 70 * 2 ^ 149)) = some (2 ^ 70) ∧
    truncRat ((2 : ℚ) ^ 70) = 2 ^ 70 := by
  refine ⟨by decide, by decide, ?_, ?_, ?_, ?_, ?_⟩
  · exact (toRat_ofInt_small 16777216 (by decide)).trans (by norm_num)
  · exact (toRat_ofInt_small 1 (by decide)).trans (by norm_num)
  · have := truncRat_natCast 16777217
    norm_num at this ⊢
    exact this
  · exact (toRat_fin_nat (2 ^ 70)).trans (by norm_num)
  · have := truncRat_natCast (2 ^ 70)
    norm_num at this ⊢
    exact this

/-- C12, amended. When the image of every entry can be probed,
`ReadVOCAnnotationsFromCreateMLFile` returns one VOC annotation per entry, in input order: its
file name is the image of the entry, its size the probed width and height with depth 3, and
its objects are, one for one and in order, the items of the entry, each with the label as
name and, whenever x, y, x + width and y + height are below 2^63 in absolute value and the
sums x + width and y + height are `float32` values themselves (`ExactCorners`), the corners
xmin = trunc(x), ymin = trunc(y), xmax = trunc(x + width), ymax = trunc(y + height). And the
entry `b.jpg` with the item `dog` at x = 5, y = 5, width = 20, height = 30 gives one object
`dog` with the box (5, 5, 25, 35). -/
theorem voc_of_createml_exact (imagePath : String → String) (probe : String → ImageProbe)
    (cml : CreateMLAnnotations) (hprobe : ∀ c ∈ cml, ∃ w h, probe c.Image = .config w h) :
    (∃ out, ReadVOCAnnotationsFromCreateMLFile imagePath probe cml = .ok out ∧
      List.Forall₂
        (fun (voc : VOCAnnotation) (c : CreateMLAnnotation) =>
          voc.Filename = c.Image ∧
          (∃ w h, probe c.Image = .config w h ∧
            voc.Size = { Width := w, Height := h, Depth := 3 }) ∧
          List.Forall₂
            (fun (obj : VOCAnnotationItem) (item : CreateMLAnnotationItem) =>
              obj.Name = item.Label ∧
              (ExactCorners item.Coordinates.X item.Coordinates.Y item.Coordinates.Width
                  item.Coordinates.Height →
                TruncCorners item.Coordinates.X item.Coordinates.Y item.Coordinates.Width
                  item.Coordinates.Height obj.Bndbox))
            voc.Object c.Annotations)
        out cml) ∧
    (∀ w h, probe "b.jpg" = .config w h →
      ∃ voc, ReadVOCAnnotationsFromCreateMLFile imagePath probe
          [{ Image := "b.jpg"
             Annotations := [{ Label := "dog"
                               Coordinates := { X := F32.ofInt 5, Y := F32.ofInt 5,
                                                Width := F32.ofInt 20,
                                                Height := F32.ofInt 30 } }] }] = .ok [voc] ∧
        voc.Filename = "b.jpg" ∧
        voc.Object = [{ Name := "dog", Pose := "unspecified", Truncated := 0, Difficult := 0,
                        Occluded := 0,
                        Bndbox := { Xmin := 5, Ymin := 5, Xmax := 25, Ymax := 35 } }]) := by
  constructor
  · refine ⟨cml.map (fun c =>
      vocOfCreateMLEntry c (probe c.Image).size.1 (probe c.Image).size.2), ?_, ?_⟩
    · unfold ReadVOCAnnotationsFromCreateMLFile
      rw [vocEntriesOfCreateML_ok imagePath probe cml [] hprobe, List.nil_append]
    · rw [List.forall₂_map_left_iff, List.forall₂_same]
      intro c hc
      obtain ⟨w, h, hp⟩ := hprobe c hc
      refine ⟨rfl, ⟨w, h, hp, by simp [vocOfCreateMLEntry, vocShellOfCreateML, hp, ImageProbe.size]⟩, ?_⟩
      simp only [vocOfCreateMLEntry]
      rw [List.forall₂_map_left_iff, List.forall₂_same]
      intro item _
      exact ⟨rfl, fun hex => corners_trunc _ _ _ _ hex⟩
  · intro w h hp
    refine ⟨vocOfCreateMLEntry
      { Image := "b.jpg"
        Annotations := [{ Label := "dog"
                          Coordinates := { X := F32.ofInt 5, Y := F32.ofInt 5,
                                           Width := F32.ofInt 20,
                                           Height := F32.ofInt 30 } }] } w h, ?_, ?_, ?_⟩
    · unfold ReadVOCAnnotationsFromCreateMLFile
      rw [vocEntriesOfCreateML_ok imagePath probe _ [] (by
        intro c hc
        simp only [List.mem_singleton] at hc
        subst hc
        exact ⟨w, h, hp⟩)]
      simp [hp, ImageProbe.size]
    · rfl
    · simp [vocOfCreateMLEntry, vocItemOfCreateML, toInt_5, toInt_5_20, toInt_5_30, Unspecified]

set_option maxRecDepth 8000 in
set_option exponentiation.threshold 600 in
/-- C12 amended, on an instance: the probe `sampleProbe` finds the image of the one entry of
`sampleCreateML`, the coordinates (5, 5, 20, 30) satisfy `ExactCorners`, and the entry
`b.jpg` with the item `dog` gives the box (5, 5, 25, 35). -/
theorem voc_of_createml_exact_witness :
    ExactCorners (F32.ofInt 5) (F32.ofInt 5) (F32.ofInt 20) (F32.ofInt 30) ∧
    ∃ voc, ReadVOCAnnotationsFromCreateMLFile id sampleProbe
        [{ Image := "b.jpg"
           Annotations := [{ Label := "dog"
                             Coordinates := { X := F32.ofInt 5, Y := F32.ofInt 5,
                                              Width := F32.ofInt 20,
                                              Height := F32.ofInt 30 } }] }] = .ok [voc] ∧
      voc.Filename = "b.jpg" ∧
      voc.Object = [{ Name := "dog", Pose := "unspecified", Truncated := 0, Difficult := 0,
                      Occluded := 0,
                      Bndbox := { Xmin := 5, Ymin := 5, Xmax := 25, Ymax := 35 } }] :=
  ⟨by decide,
    (voc_of_createml_exact id sampleProbe sampleCreateML
      (fun c hc => ⟨640, 480, by
        simp only [sampleCreateML, List.mem_singleton] at hc
        subst hc
        decide⟩)).2 640 480 (by decide)⟩

set_option maxRecDepth 8000 in
set_option exponentiation.threshold 600 in
/-- C13, as stated, fails: for the object at (16777217, 0, 16781314, 4097) of
`sampleLargeVoc` the item has x = 16777216, where the claim gives x = xmin = 16777217, a
number `float32` does not hold. -/
theorem createml_x_rounded_above_2_24 :
    ReadCreateMLAnnotationsFromPascalVOCDir sampleLargeVoc =
      [{ Image := "a.jpg"
         Annotations := [{ Label := "cat"
                           Coordinates := { X := F32.fin false (16777216 * 2 ^ 149),
                                            Y := F32.fin false (0 * 2 ^ 149),
                                            Width := F32.fin false (4097 * 2 ^ 149),
                                            Height := F32.fin false (4097 * 2 ^ 149) } }] }] ∧
      F32.toRat (F32.fin false (16777216 * 2 ^ 149)) = some 16777216 ∧
      (16777216 : ℚ) ≠ ((16777217 : Int) : ℚ) := by
  refine ⟨by decide, ?_, by norm_num⟩
  exact (toRat_fin_nat 16777216).trans (by norm_num)

/-- C13, amended. `ReadCreateMLAnnotationsFromPascalVOCDir` produces a CreateML list of the
same length and order as the VOC list: the entry of a VOC annotation has its file name as
image, and its items correspond one to one, in order, to the objects of the annotation; the
item of an object has the name of the object as label and, when xmin, ymin, xmax - xmin and
ymax - ymin are of absolute value at most 2^24 (`SmallBndbox`), the coordinates x = xmin,
y = ymin, width = xmax - xmin, height = ymax - ymin. -/
theorem createml_of_voc_values (vocs : VOCAnnotations) :
    (ReadCreateMLAnnotationsFromPascalVOCDir vocs).length = vocs.length ∧
    List.Forall₂
      (fun (entry : CreateMLAnnotation) (v : VOCAnnotation) =>
        entry.Image = v.Filename ∧
        List.Forall₂
          (fun (item : CreateMLAnnotationItem) (obj : VOCAnnotationItem) =>
            item.Label = obj.Name ∧
            (SmallBndbox obj.Bndbox →
              item.Coordinates.X.toRat = some (obj.Bndbox.Xmin : ℚ) ∧
              item.Coordinates.Y.toRat = some (obj.Bndbox.Ymin : ℚ) ∧
              item.Coordinates.Width.toRat =
                some ((obj.Bndbox.Xmax - obj.Bndbox.Xmin : Int) : ℚ) ∧
              item.Coordinates.Height.toRat =
                some ((obj.Bndbox.Ymax - obj.Bndbox.Ymin : Int) : ℚ)))
          entry.Annotations v.Object)
      (ReadCreateMLAnnotationsFromPascalVOCDir vocs) vocs := by
  unfold ReadCreateMLAnnotationsFromPascalVOCDir
  rw [createMLEntriesOfVOC_eq, List.nil_append]
  refine ⟨by simp, ?_⟩
  rw [List.forall₂_map_left_iff, List.forall₂_same]
  intro v _
  refine ⟨rfl, ?_⟩
  simp only
  rw [List.forall₂_map_left_iff, List.forall₂_same]
  intro obj _
  exact ⟨rfl, fun h => createMLItemOfVOC_values obj h⟩

/-- C13 amended, on an instance: the object `dog` at (5, 5, 25, 35) of the image `b.jpg`
becomes the item `dog` with x = 5, y = 5, width = 20, height = 30. -/
theorem createml_of_voc_values_witness :
    ∃ item, ReadCreateMLAnnotationsFromPascalVOCDir
        [{ VOCAnnotation.zero with Filename := "b.jpg", Object := [sampleObject "dog" 5 5 25 35] }] =
        [{ Image := "b.jpg", Annotations := [item] }] ∧
      item.Label = "dog" ∧ item.Coordinates.X.toRat = some 5 ∧
      item.Coordinates.Y.toRat = some 5 ∧ item.Coordinates.Width.toRat = some 20 ∧
      item.Coordinates.Height.toRat = some 30 :=
  have h := forall2_singleton _ _ _
    (forall2_singleton _ _ _
      (createml_of_voc_values
        [{ VOCAnnotation.zero with
           Filename := "b.jpg", Object := [sampleObject "dog" 5 5 25 35] }]).2).2
  have hv := h.2 (by decide)
  ⟨_, rfl, h.1, hv.1.trans (by norm_num [sampleObject]), hv.2.1.trans (by norm_num [sampleObject]),
    hv.2.2.1.trans (by norm_num [sampleObject]), hv.2.2.2.trans (by norm_num [sampleObject])⟩

/-- C14, as stated, fails: the image `a.jpg` of the document `sampleSharedId` has the id 1,
and the entry produced for the id 1 has the image `b.jpg`; no entry of the result has the
image `a.jpg`. -/
theorem shared_id_later_name :
    sampleEarlier ∈ sampleSharedId.Images ∧ sampleEarlier.ID = 1 ∧
      sampleEarlier.FileName = "a.jpg" ∧
      createMLAnnotationMapOfCOCO sampleSharedId =
        .ok [(1, { Image := "b.jpg", Annotations := [] })] ∧
      ∀ it out, ReadCreateMLAnnotationsFromCOCOFile it sampleSharedId = .ok out →
        ∀ entry ∈ out, entry.Image ≠ sampleEarlier.FileName := by
  refine ⟨by decide, rfl, rfl, by decide, ?_⟩
  intro it out h
  have hm : createMLAnnotationMapOfCOCO sampleSharedId =
      .ok [(1, createMLShell sampleLater)] := by decide
  unfold ReadCreateMLAnnotationsFromCOCOFile at h
  rw [hm] at h
  simp only [Except.ok.injEq] at h
  have hs := List.perm_singleton.mp (it.perm (GoMap.entries [(1, createMLShell sampleLater)]))
  simp only [GoMap.entries] at hs h
  rw [hs] at h
  subst h
  intro entry hv
  simp only [List.map_cons, List.map_nil, List.mem_singleton] at hv
  subst hv
  decide

/-- C14, amended. In every result of `ReadCreateMLAnnotationsFromCOCOFile`, the CreateML
entry stored under the id of an image of the document is part of the output; its image is
the `file_name` of the last image of the document with that id, hence the `file_name` of the
image itself when every image with that id has the same `file_name` (as when no other image
shares the id); and its items are, one for one and in input order, the COCO annotations with
that `image_id`: each item is labelled with the name of the category with the annotation's
`category_id`, and for the box `[x, y, width, height]` has the coordinates x, y, width,
height as they are (the relation `CreateMLItemOf`). -/
theorem createml_entry_of_image (it : MapIter (Int × CreateMLAnnotation))
    (doc : COCOAnnotations) (out : CreateMLAnnotations)
    (hok : ReadCreateMLAnnotationsFromCOCOFile it doc = .ok out) :
    ∀ img ∈ doc.Images, ∃ m entry,
      createMLAnnotationMapOfCOCO doc = .ok m ∧ GoMap.lookup m img.ID = some entry ∧
      entry ∈ out ∧
      (∃ last, doc.Images.reverse.find? (fun i => decide (i.ID = img.ID)) = some last ∧
        entry.Image = last.FileName) ∧
      ((∀ other ∈ doc.Images, other.ID = img.ID → other.FileName = img.FileName) →
        entry.Image = img.FileName) ∧
      List.Forall₂ (CreateMLItemOf doc.Categories)
        entry.Annotations (doc.Annotations.filter (fun a => decide (a.ImageID = img.ID))) := by
  intro img himg
  unfold ReadCreateMLAnnotationsFromCOCOFile at hok
  cases hm : createMLAnnotationMapOfCOCO doc with
  | error e => rw [hm] at hok; cases hok
  | ok m =>
    rw [hm] at hok
    simp only [Except.ok.injEq] at hok
    have hloop := hm
    unfold createMLAnnotationMapOfCOCO at hloop
    rw [createMLAnnotationLoop_ref] at hloop
    obtain ⟨h1, _⟩ := refLoop_extends createMLExtend _ _ _ _ hloop img.ID
    have hshell : (GoMap.lookup (createMLImageMaps doc.Images).2 img.ID).isSome := by
      rw [snd_createMLImageMaps, lookup_shells_isSome]
      exact ⟨img, himg, rfl⟩
    obtain ⟨v0, hv0⟩ := Option.isSome_iff_exists.mp hshell
    obtain ⟨entry, hentry, hext⟩ := h1 v0 hv0
    rw [snd_createMLImageMaps, lookup_shells] at hv0
    cases hf : doc.Images.reverse.find? (fun image => decide (image.ID = img.ID)) with
    | none => rw [hf] at hv0; cases hv0
    | some last =>
      rw [hf] at hv0
      simp only [Option.map_some', Option.some.injEq] at hv0
      obtain ⟨himage, items, hitems, hfor⟩ :=
        createMLExtend_items doc.Categories img.ID _ _ _ hext
      have hname : entry.Image = last.FileName := by rw [himage, ← hv0]; rfl
      have hnil : v0.Annotations = [] := by rw [← hv0]; rfl
      rw [hnil, List.nil_append] at hitems
      refine ⟨m, entry, rfl, hentry, ?_, ⟨last, rfl, hname⟩, ?_, ?_⟩
      · rw [← hok]
        have hmem : (img.ID, entry) ∈ it.order (GoMap.entries m) :=
          (it.perm _).symm.subset (lookup_mem m _ _ hentry)
        exact List.mem_map.mpr ⟨_, hmem, rfl⟩
      · intro hsame
        rw [hname]
        have hl := List.mem_of_find?_eq_some hf
        have hid := List.find?_some hf
        exact hsame last (List.mem_reverse.mp hl) (by simpa using hid)
      · rw [hitems]
        exact hfor

set_option maxRecDepth 8000 in
/-- C14 amended, on an instance: the document `sampleCoco` is accepted, and the entries of
its two images are as the theorem says. -/
theorem createml_entry_of_image_witness :
    ReadCreateMLAnnotationsFromCOCOFile (MapIter.insertionOrder _) sampleCoco =
        .ok sampleCreateMLResult ∧
      ∀ img ∈ sampleCoco.Images, ∃ m entry,
        createMLAnnotationMapOfCOCO sampleCoco = .ok m ∧ GoMap.lookup m img.ID = some entry ∧
        entry ∈ sampleCreateMLResult ∧
        (∃ last, sampleCoco.Images.reverse.find? (fun i => decide (i.ID = img.ID)) = some last ∧
          entry.Image = last.FileName) ∧
        ((∀ other ∈ sampleCoco.Images, other.ID = img.ID → other.FileName = img.FileName) →
          entry.Image = img.FileName) ∧
        List.Forall₂ (CreateMLItemOf sampleCoco.Categories)
          entry.Annotations
          (sampleCoco.Annotations.filter (fun a => decide (a.ImageID = img.ID))) :=
  ⟨by decide,
    createml_entry_of_image (MapIter.insertionOrder _) sampleCoco sampleCreateMLResult
      (by decide)⟩

/-- C15. `ReadCOCOAnnotationsFromCreateMLFile` follows the id policy of
`ReadCOCOAnnotationsFromPascalVOCDir`: it returns a document exactly when the conversion to
VOC (`ReadVOCAnnotationsFromCreateMLFile`) returns a list, and then the conversion of that
list to COCO returns a document with the same categories, the same image ids (the same
images, in fact) and, annotation by annotation, the same id, `image_id` and `category_id`. -/
theorem same_id_policy (now : String) (it1 it2 : MapIter (String × COCOCategory))
    (imagePath : String → String) (probe : String → ImageProbe) (cml : CreateMLAnnotations) :
    ((∃ doc, ReadCOCOAnnotationsFromCreateMLFile now it1 probe cml = .ok doc) ↔
      (∃ vocs, ReadVOCAnnotationsFromCreateMLFile imagePath probe cml = .ok vocs)) ∧
    ∀ doc vocs, ReadCOCOAnnotationsFromCreateMLFile now it1 probe cml = .ok doc →
      ReadVOCAnnotationsFromCreateMLFile imagePath probe cml = .ok vocs →
      ∃ doc2, ReadCOCOAnnotationsFromPascalVOCDir now it2 vocs = .ok doc2 ∧
        doc2.Categories = doc.Categories ∧
        doc2.Images.map (fun img => img.ID) = doc.Images.map (fun img => img.ID) ∧
        doc2.Images = doc.Images ∧
        doc2.Annotations.map (fun a => (a.ID, a.ImageID, a.CategoryID)) =
          doc.Annotations.map (fun a => (a.ID, a.ImageID, a.CategoryID)) := by
  obtain ⟨h1, h2⟩ := probeEntries_vocEntries imagePath probe cml []
  rw [readCocoFromCreateML_eq]
  unfold ReadVOCAnnotationsFromCreateMLFile
  cases hr : probeEntries probe cml with
  | error e =>
    obtain ⟨e2, he2⟩ := h2 e hr
    rw [he2]
    constructor
    · constructor
      · rintro ⟨doc, hd⟩; cases hd
      · rintro ⟨vocs, hv⟩; cases hv
    · intro doc vocs hd; cases hd
  | ok es =>
    obtain ⟨vocs0, hv0, hs⟩ := h1 es hr
    rw [hv0]
    constructor
    · exact ⟨fun _ => ⟨_, rfl⟩, fun _ => ⟨_, rfl⟩⟩
    · intro doc vocs hd hv
      simp only [Except.ok.injEq, List.nil_append] at hd hv
      subst hd hv
      obtain ⟨c1, c2, c3⟩ := cocoDoc_sameShape now es (vocs0.map vocEntry) hs
      exact ⟨_, readCocoFromVoc_eq now it2 vocs0, c1.symm, by rw [c2], c2.symm, c3.symm⟩

/-- C16, as stated, fails: the extension of `a.JSON` is `.JSON`, not `.json`, and both
readers of JSON files read the file and return no error; the extension of `b.XML` is not
`.xml`, and `ReadVOCAnnotationFromFile` reads the file and returns no error. -/
theorem upper_case_extension_read :
    filepathExt "a.JSON" = ".JSON" ∧ filepathExt "a.JSON" ≠ ".json" ∧
    (ReadCOCOAnnotationsFromFile sampleEnv COCOAnnotations.zero "a.JSON").err = none ∧
    (ReadCOCOAnnotationsFromFile sampleEnv COCOAnnotations.zero "a.JSON").reads = ["a.JSON"] ∧
    (ReadCreateMLAnnotationsFromFile sampleEnv [] "a.JSON").err = none ∧
    (ReadCreateMLAnnotationsFromFile sampleEnv [] "a.JSON").reads = ["a.JSON"] ∧
    filepathExt "b.XML" = ".XML" ∧ filepathExt "b.XML" ≠ ".xml" ∧
    (ReadVOCAnnotationFromFile sampleEnv VOCAnnotation.zero "b.XML").err = none ∧
    (ReadVOCAnnotationFromFile sampleEnv VOCAnnotation.zero "b.XML").reads = ["b.XML"] := by
  decide

/-- C16, amended. A path whose extension is not `.json` in any letter case makes
`ReadCOCOAnnotationsFromFile` and `ReadCreateMLAnnotationsFromFile` return the error
"<path> is not a valid json file path", and a path whose extension is not `.xml` in any letter
case makes `ReadVOCAnnotationFromFile` return the error "<path> is not a valid xml file path";
in each case no file is read and the out-parameter keeps its value. The extension is the one
`filepath.Ext` gives, compared after lower-casing as the source compares it (so `.JSON` counts
as `.json`): a path with the extension, in whatever letter case, is read. -/
theorem wrong_extension_rejected (env : Env) (path : String) :
    (goToLower (filepathExt path) ≠ ".json" →
      (∀ a : COCOAnnotations,
        (ReadCOCOAnnotationsFromFile env a path).err =
            some (.other (path ++ " is not a valid json file path")) ∧
          (ReadCOCOAnnotationsFromFile env a path).value = a ∧
          (ReadCOCOAnnotationsFromFile env a path).reads = []) ∧
      (∀ a : CreateMLAnnotations,
        (ReadCreateMLAnnotationsFromFile env a path).err =
            some (.other (path ++ " is not a valid json file path")) ∧
          (ReadCreateMLAnnotationsFromFile env a path).value = a ∧
          (ReadCreateMLAnnotationsFromFile env a path).reads = [])) ∧
    (goToLower (filepathExt path) ≠ ".xml" →
      ∀ a : VOCAnnotation,
        (ReadVOCAnnotationFromFile env a path).err =
            some (.other (path ++ " is not a valid xml file path")) ∧
          (ReadVOCAnnotationFromFile env a path).value = a ∧
          (ReadVOCAnnotationFromFile env a path).reads = []) ∧
    (goToLower (filepathExt path) = ".json" →
      (∀ a : COCOAnnotations, (ReadCOCOAnnotationsFromFile env a path).reads = [path]) ∧
      (∀ a : CreateMLAnnotations,
        (ReadCreateMLAnnotationsFromFile env a path).reads = [path])) ∧
    (goToLower (filepathExt path) = ".xml" →
      ∀ a : VOCAnnotation, (ReadVOCAnnotationFromFile env a path).reads = [path]) := by
  refine ⟨?_, ?_, ?_, ?_⟩
  · intro h
    constructor
    · intro a
      simp [ReadCOCOAnnotationsFromFile, h]
    · intro a
      simp [ReadCreateMLAnnotationsFromFile, h]
  · intro h a
    simp [ReadVOCAnnotationFromFile, h]
  · intro h
    have hne := not_bad_ext path ".json" (by decide) h
    constructor
    · intro a
      unfold ReadCOCOAnnotationsFromFile
      simp only [if_neg hne]
      cases env.readFile path <;> rfl
    · intro a
      unfold ReadCreateMLAnnotationsFromFile
      simp only [if_neg hne]
      cases env.readFile path <;> rfl
  · intro h a
    exact readVocFile_reads env a path h

/-- C16 amended, on an instance: `notes.txt` is refused as a COCO file without being read, and
`b.XML` is read as a VOC file. -/
theorem wrong_extension_rejected_witness :
    (ReadCOCOAnnotationsFromFile sampleEnv COCOAnnotations.zero "notes.txt").err =
        some (.other "notes.txt is not a valid json file path") ∧
      (ReadCOCOAnnotationsFromFile sampleEnv COCOAnnotations.zero "notes.txt").reads = [] ∧
      (ReadVOCAnnotationFromFile sampleEnv VOCAnnotation.zero "b.XML").reads = ["b.XML"] :=
  have h := wrong_extension_rejected sampleEnv "notes.txt"
  have h2 := wrong_extension_rejected sampleEnv "b.XML"
  ⟨((h.1 (by decide)).1 COCOAnnotations.zero).1, ((h.1 (by decide)).1 COCOAnnotations.zero).2.2,
    h2.2.2.2 (by decide) VOCAnnotation.zero⟩

/-- C17, as stated, fails: the directory `voc` of `sampleUpperEnv` lists the one entry
`b.XML`, whose extension is `.XML`, not `.xml`; `ReadVOCAnnotationFromDir` does not fail, it
reads the entry and returns one annotation. -/
theorem upper_case_entry_parsed :
    sampleUpperEnv.readDir "voc" = .ok ["b.XML"] ∧
    filepathExt (sampleUpperEnv.join "voc" "b.XML") = ".XML" ∧
    filepathExt (sampleUpperEnv.join "voc" "b.XML") ≠ ".xml" ∧
    (ReadVOCAnnotationFromDir sampleUpperEnv [] "voc").err = none ∧
    (ReadVOCAnnotationFromDir sampleUpperEnv [] "voc").value = [ VOCAnnotation.zero] ∧
    (ReadVOCAnnotationFromDir sampleUpperEnv [] "voc").reads = ["voc/b.XML"] := by
  decide

/-- C17, amended. Over a directory `path` whose listing is `names`, with the entries of
extension `.xml`, in any letter case, taken by their joined paths in listing order
(`xmlPaths`; the extension is compared after lower-casing, as the source does): when there is
no such entry
`ReadVOCAnnotationFromDir` fails with "not found xml file in the directory path", reads no
file and leaves the slice as it was; when the `.xml` entry `p` is the first that fails to
parse, the error returned is the error of `p`, the files read are the `.xml` entries up to
and including `p` (none after it), and the slice has grown by the annotations of the entries
before `p`; and when there is at least one `.xml` entry and all of them parse, the call
succeeds, reads exactly the `.xml` entries, and appends exactly one annotation for each of
them, in listing order. -/
theorem voc_dir_reading (env : Env) (annotations : VOCAnnotations) (path : String)
    (names : List String) (hdir : env.readDir path = .ok names) :
    (xmlPaths env path names = [] →
      (ReadVOCAnnotationFromDir env annotations path).err =
          some (.other "not found xml file in the directory path") ∧
        (ReadVOCAnnotationFromDir env annotations path).value = annotations ∧
        (ReadVOCAnnotationFromDir env annotations path).reads = []) ∧
    (∀ pre p post e, xmlPaths env path names = pre ++ p :: post →
      (∀ q ∈ pre, (ReadVOCAnnotationFromFile env VOCAnnotation.zero q).err = none) →
      (ReadVOCAnnotationFromFile env VOCAnnotation.zero p).err = some e →
      (ReadVOCAnnotationFromDir env annotations path).err = some e ∧
        (ReadVOCAnnotationFromDir env annotations path).reads = pre ++ [p] ∧
        (ReadVOCAnnotationFromDir env annotations path).value = annotations ++
          pre.map (fun q => (ReadVOCAnnotationFromFile env VOCAnnotation.zero q).value)) ∧
    (xmlPaths env path names ≠ [] →
      (∀ q ∈ xmlPaths env path names,
        (ReadVOCAnnotationFromFile env VOCAnnotation.zero q).err = none) →
      (ReadVOCAnnotationFromDir env annotations path).err = none ∧
        (ReadVOCAnnotationFromDir env annotations path).reads = xmlPaths env path names ∧
        (ReadVOCAnnotationFromDir env annotations path).value = annotations ++
          (xmlPaths env path names).map
            (fun q => (ReadVOCAnnotationFromFile env VOCAnnotation.zero q).value)) := by
  obtain ⟨h1, h2⟩ := vocDirLoop_spec env path names
    { annotations := annotations, isEmpty := true, reads := [], err := none } rfl
  refine ⟨?_, ?_, ?_⟩
  · intro hnone
    obtain ⟨e1, e2, e3, e4⟩ := h2 (by rw [hnone]; intro q hq; cases hq)
    rw [hnone] at e2 e3 e4
    simp only [ReadVOCAnnotationFromDir, hdir, e1, e2, e3, e4]
    simp
  · intro pre p post e hsplit hpre hp
    obtain ⟨e1, e2, e3⟩ := h1 pre p post e hsplit hpre hp
    simp only [ReadVOCAnnotationFromDir, hdir, e1, e2, e3]
    simp
  · intro hsome hall
    obtain ⟨e1, e2, e3, e4⟩ := h2 hall
    have hne : (xmlPaths env path names).isEmpty = false := by
      cases hx : xmlPaths env path names with
      | nil => exact absurd hx hsome
      | cons _ _ => rfl
    rw [hne] at e4
    simp only [ReadVOCAnnotationFromDir, hdir, e1, e2, e3, e4]
    simp

/-- C17 amended, on an instance: in the directory `voc` of `sampleEnv`, listed as `a.xml`,
`notes.txt`, `b.XML`, the two `.xml` entries are read, in listing order, and the call
succeeds with one annotation for each. -/
theorem voc_dir_reading_witness :
    (ReadVOCAnnotationFromDir sampleEnv [] "voc").err = none ∧
      (ReadVOCAnnotationFromDir sampleEnv [] "voc").reads = ["voc/a.xml", "voc/b.XML"] ∧
      (ReadVOCAnnotationFromDir sampleEnv [] "voc").value =
        [ VOCAnnotation.zero, VOCAnnotation.zero] :=
  (voc_dir_reading sampleEnv [] "voc" ["a.xml", "notes.txt", "b.XML"] rfl).2.2
    (by decide) (by decide)

/-- C18, as stated, fails. The image file names `a.jpg` and `a.png` are distinct, yet both
annotations are written to `out/a.xml`, so two annotations leave one file. And the image file
names `a.jpg` and `./a.jpg` have the distinct stems `a` and `./a` and the distinct derived
names `a.xml` and `./a.xml`, yet with a join that cleans the path, as `filepath.Join` does,
both annotations are written to `out/a.xml`. -/
theorem same_xml_path_for_two_images :
    ((sampleSameStem.map (fun v => v.Filename)).Nodup ∧
      ¬ (sampleSameStem.map (fun v => xmlNameOf v.Filename)).Nodup ∧
      (WriteVOCAnnotationsToFile sampleEnv sampleSameStem "out").err = none ∧
      (WriteVOCAnnotationsToFile sampleEnv sampleSameStem "out").writes.map Prod.fst =
        ["out/a.xml", "out/a.xml"]) ∧
    (sampleDotSlash.map (fun v => imageStem v.Filename) = ["a", "./a"] ∧
      sampleDotSlash.map (fun v => xmlNameOf v.Filename) = ["a.xml", "./a.xml"] ∧
      (WriteVOCAnnotationsToFile sampleCleanEnv sampleDotSlash "out").err = none ∧
      (WriteVOCAnnotationsToFile sampleCleanEnv sampleDotSlash "out").writes.map Prod.fst =
        ["out/a.xml", "out/a.xml"]) := by
  decide

/-- C18, amended. The file name derived for an annotation is its image file name with the
final extension replaced by `.xml`: it is the stem followed by `.xml`, where the stem followed
by the final extension is the image file name. For every list of annotations whose image
file names have pairwise distinct stems the derived XML file names are pairwise distinct;
and when every encoding and every write succeeds, `WriteVOCAnnotationsToFile` returns no
error and writes once per annotation, in order, to the derived name joined to `path`, so
that the writes are as many as the annotations; when moreover the join maps the derived names
of the list to pairwise distinct paths, the files written are pairwise distinct and as many
as the annotations. -/
theorem xml_files_of_distinct_stems (env : Env) (annotations : VOCAnnotations) (path : String)
    (hstems : (annotations.map (fun v => imageStem v.Filename)).Nodup)
    (hwrite : ∀ v ∈ annotations, ∃ b, env.xmlMarshalIndent v = .ok b ∧
      env.writeFile (env.join path (xmlNameOf v.Filename)) b = none) :
    (∀ v ∈ annotations, xmlNameOf v.Filename = imageStem v.Filename ++ ".xml" ∧
      imageStem v.Filename ++ filepathExt v.Filename = v.Filename) ∧
    (annotations.map (fun v => xmlNameOf v.Filename)).Nodup ∧
    (WriteVOCAnnotationsToFile env annotations path).err = none ∧
    (WriteVOCAnnotationsToFile env annotations path).writes.map Prod.fst =
      annotations.map (fun v => env.join path (xmlNameOf v.Filename)) ∧
    (WriteVOCAnnotationsToFile env annotations path).writes.length = annotations.length ∧
    ((∀ a ∈ annotations.map (fun v => xmlNameOf v.Filename),
        ∀ b ∈ annotations.map (fun v => xmlNameOf v.Filename),
          env.join path a = env.join path b → a = b) →
      ((WriteVOCAnnotationsToFile env annotations path).writes.map Prod.fst).Nodup ∧
      ((WriteVOCAnnotationsToFile env annotations path).writes.map Prod.fst).toFinset.card =
        annotations.length) := by
  have hnames : (annotations.map (fun v => xmlNameOf v.Filename)).Nodup := by
    have := xmlNameOf_nodup (annotations.map (fun v => v.Filename))
      (by simpa [List.map_map, Function.comp] using hstems)
    simpa [List.map_map, Function.comp] using this
  obtain ⟨e1, e2⟩ := vocWriteLoop_ok env path annotations [] hwrite
  simp only [List.map_nil, List.nil_append] at e2
  refine ⟨fun v _ => ⟨rfl, imageStem_append_ext _⟩, hnames, e1, e2, ?_, ?_⟩
  · have := congrArg List.length e2
    simpa using this
  · intro hinj
    have hnd : ((WriteVOCAnnotationsToFile env annotations path).writes.map Prod.fst).Nodup := by
      unfold WriteVOCAnnotationsToFile
      rw [e2]
      have : annotations.map (fun v => env.join path (xmlNameOf v.Filename)) =
          (annotations.map (fun v => xmlNameOf v.Filename)).map (env.join path) := by
        simp [List.map_map, Function.comp]
      rw [this]
      exact List.Nodup.map_on (fun a ha b hb hab => hinj a ha b hb hab) hnames
    refine ⟨hnd, ?_⟩
    rw [List.toFinset_card_of_nodup hnd]
    have := congrArg List.length e2
    simpa [WriteVOCAnnotationsToFile] using this

/-- C18 amended, on an instance: `a.jpg` and `b.png` are written to the two files
`out/a.xml` and `out/b.xml`. -/
theorem xml_files_of_distinct_stems_witness :
    (WriteVOCAnnotationsToFile sampleEnv sampleTwoStems "out").writes.map Prod.fst =
        ["out/a.xml", "out/b.xml"] ∧
      ((WriteVOCAnnotationsToFile sampleEnv sampleTwoStems "out").writes.map
        Prod.fst).toFinset.card = sampleTwoStems.length :=
  have h := xml_files_of_distinct_stems sampleEnv sampleTwoStems "out" (by decide)
    (fun _ _ => ⟨[], rfl, rfl⟩)
  ⟨h.2.2.2.1, (h.2.2.2.2.2 (by decide)).2⟩

/-- C19, as stated, fails. The extension of `out.JSON` is not `.json`, yet `ConvertToCOCO`
prints nothing and calls its writer, which writes the file `out.JSON`. And with the output
path `out.txt` and a COCO source whose one annotation has a box of three entries,
`ConvertToCreateML` prints no error: it ends in the panic of its reader. -/
theorem output_written_or_panic :
    (filepathExt "out.JSON" ≠ ".json" ∧
      (ConvertToCOCO sampleEnv PascalVOC COCO "voc" "out.JSON").printed = [] ∧
      (ConvertToCOCO sampleEnv PascalVOC COCO "voc" "out.JSON").writerCalls = ["out.JSON"] ∧
      (ConvertToCOCO sampleEnv PascalVOC COCO "voc" "out.JSON").writes.map Prod.fst =
        ["out.JSON"]) ∧
    (filepathExt "out.txt" ≠ ".json" ∧
      (ConvertToCreateML sampleShortBoxEnv COCO CreateML "coco.json" "out.txt").printed = [] ∧
      (ConvertToCreateML sampleShortBoxEnv COCO CreateML "coco.json" "out.txt").panic =
        some (.indexPanic 3 3)) := by
  decide

/-- C19, amended. With an explicit output path (`oDatasetPath` not empty) whose extension is
not `.json` in any letter case (the source compares the lower-cased extension), whatever the
formats and the source, neither `ConvertToCOCO` nor `ConvertToCreateML` calls its writer,
makes a directory or writes a file. `ConvertToCOCO` prints an error and does not panic.
`ConvertToCreateML` prints an error unless it ends in a panic; it ends in a panic only when
the input format is not `voc` and its reader `ReadCreateMLAnnotationsFromCOCOFile` ends in
that panic, and then nothing is printed. When the source was read without failure the error
printed is "<path> is not a valid json file path". -/
theorem bad_output_path_never_written (env : Env) (iFormat oFormat : DatasetFormat)
    (datasetPath oDatasetPath : String) (hpath : oDatasetPath ≠ "")
    (hext : goToLower (filepathExt oDatasetPath) ≠ ".json") :
    ((ConvertToCOCO env iFormat oFormat datasetPath oDatasetPath).printed ≠ [] ∧
      (ConvertToCOCO env iFormat oFormat datasetPath oDatasetPath).panic = none ∧
      (ConvertToCOCO env iFormat oFormat datasetPath oDatasetPath).writerCalls = [] ∧
      (ConvertToCOCO env iFormat oFormat datasetPath oDatasetPath).writes = [] ∧
      (ConvertToCOCO env iFormat oFormat datasetPath oDatasetPath).mkdirs = []) ∧
    ((ConvertToCreateML env iFormat oFormat datasetPath oDatasetPath).writerCalls = [] ∧
      (ConvertToCreateML env iFormat oFormat datasetPath oDatasetPath).writes = [] ∧
      (ConvertToCreateML env iFormat oFormat datasetPath oDatasetPath).mkdirs = [] ∧
      ((ConvertToCreateML env iFormat oFormat datasetPath oDatasetPath).panic = none →
        (ConvertToCreateML env iFormat oFormat datasetPath oDatasetPath).printed ≠ []) ∧
      (∀ e, (ConvertToCreateML env iFormat oFormat datasetPath oDatasetPath).panic = some e →
        (ConvertToCreateML env iFormat oFormat datasetPath oDatasetPath).printed = [] ∧
        e.isPanic = true ∧ iFormat ≠ PascalVOC ∧
        ReadCreateMLAnnotationsFromCOCOFileAt env datasetPath = .error e)) ∧
    (∀ annotations,
      (if iFormat = PascalVOC then ReadCOCOAnnotationsFromPascalVOCDirAt env datasetPath
        else ReadCOCOAnnotationsFromCreateMLFileAt env datasetPath) = .ok annotations →
      (ConvertToCOCO env iFormat oFormat datasetPath oDatasetPath).printed =
        [.other (oDatasetPath ++ " is not a valid json file path")]) ∧
    (∀ annotations,
      (if iFormat = PascalVOC then ReadCreateMLAnnotationsFromPascalVOCDirAt env datasetPath
        else ReadCreateMLAnnotationsFromCOCOFileAt env datasetPath) = .ok annotations →
      (ConvertToCreateML env iFormat oFormat datasetPath oDatasetPath).printed =
        [.other (oDatasetPath ++ " is not a valid json file path")]) := by
  have hbad : filepathExt oDatasetPath = "" ∨ goToLower (filepathExt oDatasetPath) ≠ ".json" :=
    Or.inr hext
  refine ⟨?_, ?_, ?_, ?_⟩
  · unfold ConvertToCOCO
    cases hr : (if iFormat = PascalVOC then ReadCOCOAnnotationsFromPascalVOCDirAt env datasetPath
        else ReadCOCOAnnotationsFromCreateMLFileAt env datasetPath) with
    | error e =>
      have hp : e.isPanic = false := by
        by_cases hf : iFormat = PascalVOC
        · rw [if_pos hf] at hr; exact readCocoFromVocAt_err env _ e hr
        · rw [if_neg hf] at hr; exact readCocoFromCreateMLAt_err env _ e hr
      simp [failed_returned e hp]
    | ok annotations => simp [hpath, hbad]
  · unfold ConvertToCreateML
    cases hr : (if iFormat = PascalVOC then ReadCreateMLAnnotationsFromPascalVOCDirAt env datasetPath
        else ReadCreateMLAnnotationsFromCOCOFileAt env datasetPath) with
    | error e =>
      simp only
      cases hp : e.isPanic with
      | false => simp [failed_returned e hp]
      | true =>
        have hf : ¬ iFormat = PascalVOC := by
          intro hf
          rw [if_pos hf] at hr
          have := readCreateMLFromVocAt_err env _ e hr
          rw [hp] at this
          cases this
        rw [if_neg hf] at hr
        have hfail : ConvertOutcome.failed e = ⟨[], some e, [], [], []⟩ := by
          simp [ConvertOutcome.failed, hp]
        rw [hfail]
        refine ⟨rfl, rfl, rfl, fun h => (by cases h), ?_⟩
        intro e1 he1
        cases he1
        exact ⟨rfl, hp, hf, hr⟩
    | ok annotations => simp [hpath, hbad]
  · intro annotations hr
    unfold ConvertToCOCO
    simp [hr, hpath, hbad]
  · intro annotations hr
    unfold ConvertToCreateML
    simp [hr, hpath, hbad]

set_option maxRecDepth 8000 in
/-- C19 amended, on an instance: converting the directory `voc` of `sampleEnv` to COCO with
the output path `out.txt` prints the error and writes nothing. -/
theorem bad_output_path_never_written_witness :
    (ConvertToCOCO sampleEnv PascalVOC COCO "voc" "out.txt").printed ≠ [] ∧
      (ConvertToCOCO sampleEnv PascalVOC COCO "voc" "out.txt").writerCalls = [] ∧
      (ConvertToCOCO sampleEnv PascalVOC COCO "voc" "out.txt").writes = [] :=
  have h := (bad_output_path_never_written sampleEnv PascalVOC COCO "voc" "out.txt"
    (by decide) (by decide)).1
  ⟨h.1, h.2.2.1, h.2.2.2.1⟩

/-- C20. The coordinates object of a serialized CreateML item has the keys `x`, `y`,
`width` and `Height`, in this order: the last key has a capital letter, it is not `height`;
and these are the items of the value that `WriteCreateMLAnnotationsToFile` encodes. -/
theorem createml_coordinates_keys (item : CreateMLAnnotationItem) :
    JSON.keys (JSON.member (CreateMLAnnotationItem.toJSON item) "coordinates") =
        ["x", "y", "width", "Height"] ∧
      "height" ∉ JSON.keys (JSON.member (CreateMLAnnotationItem.toJSON item) "coordinates") ∧
      ∀ ( annotation : CreateMLAnnotation),
        JSON.member ( CreateMLAnnotation.toJSON annotation) "annotations" =
          .array ( annotation.Annotations.map CreateMLAnnotationItem.toJSON) := by
  refine ⟨?_, ?_, ?_⟩
  · simp [CreateMLAnnotationItem.toJSON, CreateMLCoordinates.toJSON, JSON.member, JSON.keys]
  · simp [CreateMLAnnotationItem.toJSON, CreateMLCoordinates.toJSON, JSON.member, JSON.keys]
  · intro annotation
    simp [ CreateMLAnnotation.toJSON, JSON.member]

set_option maxRecDepth 8000 in
/-- C21, as stated, fails. In `sampleFilesEnv`, `ReadCOCOAnnotationsFromFile` reads
`coco.json`, but `ConvertToCOCO` with the input format `coco` decodes the file as CreateML,
prints the error of that decoder and calls no writer; `ReadCreateMLAnnotationsFromFile` reads
`createml.json`, but `ConvertToCreateML` with the input format `createml` decodes the file as
COCO and prints the error of that decoder; `ReadVOCAnnotationFromDir` reads the directory
`voc`, but `ConvertToPascalVOC` with the input format `voc` takes the directory for a
CreateML file and prints "voc is not a valid json file path". -/
theorem same_format_other_reader :
    ((ReadCOCOAnnotationsFromFile sampleFilesEnv COCOAnnotations.zero "coco.json").result =
        .ok sampleCoco ∧
      (ConvertToCOCO sampleFilesEnv COCO COCO "coco.json" "").printed =
        [.other
          "json: cannot unmarshal object into Go value of type model.CreateMLAnnotations"] ∧
      (ConvertToCOCO sampleFilesEnv COCO COCO "coco.json" "").writerCalls = []) ∧
    ((ReadCreateMLAnnotationsFromFile sampleFilesEnv [] "createml.json").result =
        .ok sampleCreateML ∧
      (ConvertToCreateML sampleFilesEnv CreateML CreateML "createml.json" "").printed =
        [.other "json: cannot unmarshal array into Go value of type model.COCOAnnotations"] ∧
      (ConvertToCreateML sampleFilesEnv CreateML CreateML "createml.json" "").writerCalls =
        []) ∧
    ((ReadVOCAnnotationFromDir sampleFilesEnv [] "voc").result =
        .ok [ VOCAnnotation.zero, VOCAnnotation.zero] ∧
      (ConvertToPascalVOC sampleFilesEnv PascalVOC PascalVOC "voc" "").printed =
        [.other "voc is not a valid json file path"] ∧
      (ConvertToPascalVOC sampleFilesEnv PascalVOC PascalVOC "voc" "").writerCalls = []) := by
  decide

/-- C21, amended. When the declared input format equals the target format, the conversion
entry point reads the source through the second branch of its test on the input format, as
it does for the other file format, and not with the reader of the target schema.
`ConvertToCOCO` with the input format `coco` does what it does with `createml`: it reads the
source with `ReadCOCOAnnotationsFromCreateMLFile`, which parses it with
`ReadCreateMLAnnotationsFromFile`: an error of either is the outcome, a document returned is
the one written, and the decoder of COCO files plays no part. `ConvertToCreateML` with the
input format `createml` does what it does with `coco`: it reads the source with
`ReadCreateMLAnnotationsFromCOCOFile`, which parses it with `ReadCOCOAnnotationsFromFile`,
and the decoder of CreateML files plays no part. `ConvertToPascalVOC` with the input format
`voc` does what it does with `createml`: it reads the source with
`ReadVOCAnnotationsFromCreateMLFile`, which parses it with `ReadCreateMLAnnotationsFromFile`,
and neither the listing of a directory nor the decoder of XML files plays a part. -/
theorem same_format_second_branch (env : Env) (oFormat : DatasetFormat)
    (datasetPath oDatasetPath : String) :
    (ConvertToCOCO env COCO oFormat datasetPath oDatasetPath =
        ConvertToCOCO env CreateML oFormat datasetPath oDatasetPath ∧
      (∀ err, (ReadCreateMLAnnotationsFromFile env [] datasetPath).err = some err →
        ConvertToCOCO env COCO oFormat datasetPath oDatasetPath = ConvertOutcome.failed err) ∧
      (∀ err, ReadCOCOAnnotationsFromCreateMLFileAt env datasetPath = .error err →
        ConvertToCOCO env COCO oFormat datasetPath oDatasetPath = ConvertOutcome.failed err) ∧
      (∀ annotations, ReadCOCOAnnotationsFromCreateMLFileAt env datasetPath = .ok annotations →
        ConvertToCOCO env COCO oFormat datasetPath "" =
          ConvertOutcome.wrote []
            (env.join (env.dir datasetPath)
              ("_annotations.coco." ++ env.nowFileStamp ++ ".json"))
            (WriteCOCOAnnotationsToFile env annotations
              (env.join (env.dir datasetPath)
                ("_annotations.coco." ++ env.nowFileStamp ++ ".json")))) ∧
      (∀ decoder, ConvertToCOCO { env with jsonUnmarshalCOCO := decoder } COCO oFormat
          datasetPath oDatasetPath =
        ConvertToCOCO env COCO oFormat datasetPath oDatasetPath)) ∧
    (ConvertToCreateML env CreateML oFormat datasetPath oDatasetPath =
        ConvertToCreateML env COCO oFormat datasetPath oDatasetPath ∧
      (∀ err, (ReadCOCOAnnotationsFromFile env COCOAnnotations.zero datasetPath).err =
          some err →
        ConvertToCreateML env CreateML oFormat datasetPath oDatasetPath =
          ConvertOutcome.failed err) ∧
      (∀ err, ReadCreateMLAnnotationsFromCOCOFileAt env datasetPath = .error err →
        ConvertToCreateML env CreateML oFormat datasetPath oDatasetPath =
          ConvertOutcome.failed err) ∧
      (∀ annotations, ReadCreateMLAnnotationsFromCOCOFileAt env datasetPath = .ok annotations →
        ConvertToCreateML env CreateML oFormat datasetPath "" =
          ConvertOutcome.wrote []
            (env.join (env.dir datasetPath)
              ("_annotations.createml." ++ env.nowFileStamp ++ ".json"))
            (WriteCreateMLAnnotationsToFile env annotations
              (env.join (env.dir datasetPath)
                ("_annotations.createml." ++ env.nowFileStamp ++ ".json")))) ∧
      (∀ decoder, ConvertToCreateML { env with jsonUnmarshalCreateML := decoder } CreateML
          oFormat datasetPath oDatasetPath =
        ConvertToCreateML env CreateML oFormat datasetPath oDatasetPath)) ∧
    (ConvertToPascalVOC env PascalVOC oFormat datasetPath oDatasetPath =
        ConvertToPascalVOC env CreateML oFormat datasetPath oDatasetPath ∧
      (∀ err, (ReadCreateMLAnnotationsFromFile env [] datasetPath).err = some err →
        ConvertToPascalVOC env PascalVOC oFormat datasetPath oDatasetPath =
          ConvertOutcome.failed err) ∧
      (∀ err, ReadVOCAnnotationsFromCreateMLFileAt env datasetPath = .error err →
        ConvertToPascalVOC env PascalVOC oFormat datasetPath oDatasetPath =
          ConvertOutcome.failed err) ∧
      (∀ annotations, ReadVOCAnnotationsFromCreateMLFileAt env datasetPath = .ok annotations →
        ConvertToPascalVOC env PascalVOC oFormat datasetPath "" =
          ConvertOutcome.wrote [] (env.dir datasetPath)
            (WriteVOCAnnotationsToFile env annotations (env.dir datasetPath))) ∧
      (∀ listing decoder,
        ConvertToPascalVOC { env with readDir := listing, xmlUnmarshal := decoder } PascalVOC
          oFormat datasetPath oDatasetPath =
        ConvertToPascalVOC env PascalVOC oFormat datasetPath oDatasetPath)) := by
  refine ⟨⟨?_, ?_, ?_, ?_, ?_⟩, ⟨?_, ?_, ?_, ?_, ?_⟩, ⟨?_, ?_, ?_, ?_, ?_⟩⟩
  · unfold ConvertToCOCO
    simp only [if_neg coco_ne_voc, if_neg createml_ne_voc]
  · intro err h
    unfold ConvertToCOCO ReadCOCOAnnotationsFromCreateMLFileAt
    simp only [if_neg coco_ne_voc, result_of_err _ _ h]
  · intro err h
    unfold ConvertToCOCO
    simp only [if_neg coco_ne_voc, h]
  · intro annotations h
    unfold ConvertToCOCO
    simp only [if_neg coco_ne_voc, h, if_true]
  · intro decoder
    rfl
  · unfold ConvertToCreateML
    simp only [if_neg coco_ne_voc, if_neg createml_ne_voc]
  · intro err h
    unfold ConvertToCreateML ReadCreateMLAnnotationsFromCOCOFileAt
    simp only [if_neg createml_ne_voc, result_of_err _ _ h]
  · intro err h
    unfold ConvertToCreateML
    simp only [if_neg createml_ne_voc, h]
  · intro annotations h
    unfold ConvertToCreateML
    simp only [if_neg createml_ne_voc, h, if_true]
  · intro decoder
    rfl
  · unfold ConvertToPascalVOC
    simp only [if_neg voc_ne_coco, if_neg createml_ne_coco]
  · intro err h
    unfold ConvertToPascalVOC ReadVOCAnnotationsFromCreateMLFileAt
    simp only [if_neg voc_ne_coco, result_of_err _ _ h]
  · intro err h
    unfold ConvertToPascalVOC
    simp only [if_neg voc_ne_coco, h]
  · intro annotations h
    unfold ConvertToPascalVOC
    simp only [if_neg voc_ne_coco, h, if_true]
  · intro listing decoder
    unfold ConvertToPascalVOC WriteVOCAnnotationsToFile
    simp only [vocWriteLoop_env]
    rfl

/-- C22. On a COCO document in which the `image_id` and the `category_id` of every
annotation resolve, each of `ReadVOCAnnotationsFromCOCOFile` and
`ReadCreateMLAnnotationsFromCOCOFile` returns a result exactly when the box of every
annotation has at least four entries; otherwise the index expression on the first shorter
box, in input order, goes out of range at the index that is the length of the box, and the
reader ends in that run-time panic: every failure on such a document is a panic, none is a
returned error. -/
theorem bbox_indexing_in_range (it1 : MapIter (Int × VOCAnnotation))
    (it2 : MapIter (Int × CreateMLAnnotation)) (doc : COCOAnnotations)
    (hres : ∀ a ∈ doc.Annotations, (∃ img ∈ doc.Images, img.ID = a.ImageID) ∧
      (∃ c ∈ doc.Categories, c.ID = a.CategoryID)) :
    (((∃ out, ReadVOCAnnotationsFromCOCOFile it1 doc = .ok out) ↔
        ∀ a ∈ doc.Annotations, 4 ≤ a.BBox.length) ∧
      (∀ a, doc.Annotations.find? (fun a => decide (a.BBox.length < 4)) = some a →
        ReadVOCAnnotationsFromCOCOFile it1 doc =
          .error (.indexPanic a.BBox.length a.BBox.length)) ∧
      (∀ e, ReadVOCAnnotationsFromCOCOFile it1 doc = .error e → e.isPanic = true)) ∧
    (((∃ out, ReadCreateMLAnnotationsFromCOCOFile it2 doc = .ok out) ↔
        ∀ a ∈ doc.Annotations, 4 ≤ a.BBox.length) ∧
      (∀ a, doc.Annotations.find? (fun a => decide (a.BBox.length < 4)) = some a →
        ReadCreateMLAnnotationsFromCOCOFile it2 doc =
          .error (.indexPanic a.BBox.length a.BBox.length)) ∧
      (∀ e, ReadCreateMLAnnotationsFromCOCOFile it2 doc = .error e → e.isPanic = true)) := by
  have hV := refLoop_short vocExtend vocExtend_ok vocExtend_short doc doc.Annotations
    (vocImageMaps doc.Images).2
    (by intro id; rw [snd_vocImageMaps]; exact lookup_shells_isSome _ _ _) hres
  have hC := refLoop_short createMLExtend createMLExtend_ok createMLExtend_short doc
    doc.Annotations (createMLImageMaps doc.Images).2
    (by intro id; rw [snd_createMLImageMaps]; exact lookup_shells_isSome _ _ _) hres
  rw [← vocAnnotationLoop_ref] at hV
  rw [← createMLAnnotationLoop_ref] at hC
  rw [readVoc_eq_map, readCreateML_eq_map]
  exact ⟨short_box_reader _ _ _ hV.1 hV.2, short_box_reader _ _ _ hC.1 hC.2⟩

set_option maxRecDepth 8000 in
/-- C22, on an instance: the one annotation of `sampleShortBox` resolves and its box has
three entries; both readers end in the panic "index out of range [3] with length 3". -/
theorem bbox_indexing_in_range_witness :
    ReadVOCAnnotationsFromCOCOFile (MapIter.insertionOrder _) sampleShortBox =
        .error (.indexPanic 3 3) ∧
      ReadCreateMLAnnotationsFromCOCOFile (MapIter.insertionOrder _) sampleShortBox =
        .error (.indexPanic 3 3) :=
  have h := bbox_indexing_in_range (MapIter.insertionOrder _) (MapIter.insertionOrder _)
    sampleShortBox (by decide)
  ⟨h.1.2.1 _ rfl, h.2.2.1 _ rfl⟩

/-- C23. Whatever ids the images of the document share: the result of
`ReadVOCAnnotationsFromCOCOFile` has as many entries as the document has distinct image ids
and is a rearrangement of the values of a map with pairwise distinct keys; for every image,
the map has a single entry under the id of the image, which carries the file name and the
dimensions (with depth 3) of the last image of the document with that id (the later one of
two that share it) and whose objects are, one for one and in input order, the annotations with
that `image_id`. The same holds of `ReadCreateMLAnnotationsFromCOCOFile`, for the file name
and the items. -/
theorem shared_id_single_entry (doc : COCOAnnotations) :
    (∀ (it : MapIter (Int × VOCAnnotation)) (out : VOCAnnotations),
      ReadVOCAnnotationsFromCOCOFile it doc = .ok out →
      out.length = (doc.Images.map (fun img => img.ID)).toFinset.card ∧
      ∃ m, vocAnnotationMapOfCOCO doc = .ok m ∧ out.Perm (m.map Prod.snd) ∧
        (m.map Prod.fst).Nodup ∧
        ∀ img ∈ doc.Images, ∃ entry last,
          m.filter (fun p => decide (p.1 = img.ID)) = [(img.ID, entry)] ∧
          doc.Images.reverse.find? (fun i => decide (i.ID = img.ID)) = some last ∧
          entry.Filename = last.FileName ∧
          entry.Size = { Width := last.Width, Height := last.Height, Depth := 3 } ∧
          List.Forall₂ (VocObjectOf doc.Categories) entry.Object
            (doc.Annotations.filter (fun a => decide (a.ImageID = img.ID)))) ∧
    (∀ (it : MapIter (Int × CreateMLAnnotation)) (out : CreateMLAnnotations),
      ReadCreateMLAnnotationsFromCOCOFile it doc = .ok out →
      out.length = (doc.Images.map (fun img => img.ID)).toFinset.card ∧
      ∃ m, createMLAnnotationMapOfCOCO doc = .ok m ∧ out.Perm (m.map Prod.snd) ∧
        (m.map Prod.fst).Nodup ∧
        ∀ img ∈ doc.Images, ∃ entry last,
          m.filter (fun p => decide (p.1 = img.ID)) = [(img.ID, entry)] ∧
          doc.Images.reverse.find? (fun i => decide (i.ID = img.ID)) = some last ∧
          entry.Image = last.FileName ∧
          List.Forall₂ (CreateMLItemOf doc.Categories) entry.Annotations
            (doc.Annotations.filter (fun a => decide (a.ImageID = img.ID)))) := by
  constructor
  · intro it out hok
    unfold ReadVOCAnnotationsFromCOCOFile at hok
    cases hm : vocAnnotationMapOfCOCO doc with
    | error e => rw [hm] at hok; cases hok
    | ok m =>
      rw [hm] at hok
      simp only [Except.ok.injEq] at hok
      have hloop := hm
      unfold vocAnnotationMapOfCOCO at hloop
      rw [vocAnnotationLoop_ref, snd_vocImageMaps] at hloop
      obtain ⟨hnd, _, hcard⟩ := refLoop_ids vocExtend _ vocShell doc.Images _ m hloop
      have hperm : out.Perm (m.map Prod.snd) := by
        rw [← hok]
        exact (it.perm _).map Prod.snd
      refine ⟨?_, m, rfl, hperm, hnd, ?_⟩
      · rw [hperm.length_eq, List.length_map, hcard]
      · intro img himg
        obtain ⟨h1, _⟩ := refLoop_extends vocExtend _ _ _ _ hloop img.ID
        have hshell := lookup_shells vocShell doc.Images img.ID
        cases hf : doc.Images.reverse.find? (fun image => decide (image.ID = img.ID)) with
        | none =>
          have := (find?_reverse_isSome (fun image => decide (image.ID = img.ID))
            doc.Images).mpr ⟨img, himg, by simp⟩
          rw [hf] at this
          cases this
        | some last =>
          rw [hf] at hshell
          obtain ⟨entry, hentry, hext⟩ := h1 _ hshell
          obtain ⟨hframe, objs, hobjs, hfor⟩ :=
            vocExtend_objects doc.Categories img.ID _ _ _ hext
          refine ⟨entry, last, filter_key m hnd _ _ hentry, rfl,
            congrArg VOCAnnotation.Filename hframe, congrArg VOCAnnotation.Size hframe, ?_⟩
          rw [hobjs]
          exact hfor
  · intro it out hok
    unfold ReadCreateMLAnnotationsFromCOCOFile at hok
    cases hm : createMLAnnotationMapOfCOCO doc with
    | error e => rw [hm] at hok; cases hok
    | ok m =>
      rw [hm] at hok
      simp only [Except.ok.injEq] at hok
      have hloop := hm
      unfold createMLAnnotationMapOfCOCO at hloop
      rw [createMLAnnotationLoop_ref, snd_createMLImageMaps] at hloop
      obtain ⟨hnd, _, hcard⟩ := refLoop_ids createMLExtend _ createMLShell doc.Images _ m hloop
      have hperm : out.Perm (m.map Prod.snd) := by
        rw [← hok]
        exact (it.perm _).map Prod.snd
      refine ⟨?_, m, rfl, hperm, hnd, ?_⟩
      · rw [hperm.length_eq, List.length_map, hcard]
      · intro img himg
        obtain ⟨h1, _⟩ := refLoop_extends createMLExtend _ _ _ _ hloop img.ID
        have hshell := lookup_shells createMLShell doc.Images img.ID
        cases hf : doc.Images.reverse.find? (fun image => decide (image.ID = img.ID)) with
        | none =>
          have := (find?_reverse_isSome (fun image => decide (image.ID = img.ID))
            doc.Images).mpr ⟨img, himg, by simp⟩
          rw [hf] at this
          cases this
        | some last =>
          rw [hf] at hshell
          obtain ⟨entry, hentry, hext⟩ := h1 _ hshell
          obtain ⟨himage, items, hitems, hfor⟩ :=
            createMLExtend_items doc.Categories img.ID _ _ _ hext
          refine ⟨entry, last, filter_key m hnd _ _ hentry, rfl, himage, ?_⟩
          rw [hitems]
          exact hfor

set_option maxRecDepth 8000 in
/-- C23, on an instance: the first two of the three images of `sampleSharedIdBoxes` share the
id 1; the result has two entries, and the one of the id 1 has the file name `b.jpg` of the
later image and both annotations of the id 1. -/
theorem shared_id_single_entry_witness :
    ReadVOCAnnotationsFromCOCOFile (MapIter.insertionOrder _) sampleSharedIdBoxes =
        .ok sampleSharedVocResult ∧
      sampleSharedVocResult.length =
        (sampleSharedIdBoxes.Images.map (fun img => img.ID)).toFinset.card :=
  ⟨by decide,
    ((shared_id_single_entry sampleSharedIdBoxes).1 (MapIter.insertionOrder _)
      sampleSharedVocResult (by decide)).1⟩

set_option maxRecDepth 8000 in
/-- C24, as stated, fails: in `sampleWide` all coordinates are integers (x = 16777216, y = 0,
width = 1, height = 1) and the image can be probed, yet the way to VOC and back returns the
item with width 0, because the `float32` sum 16777216 + 1 is 16777216. -/
theorem roundtrip_loses_width_above_2_24 :
    Except.map ReadCreateMLAnnotationsFromPascalVOCDir
        (ReadVOCAnnotationsFromCreateMLFile id sampleProbe sampleWide) = .ok sampleWideBack ∧
      sampleWideBack ≠ sampleWide := by
  decide

/-- C24, amended. For every CreateML document whose images can all be probed and whose
coordinates are the `float32` values of integers x, y, width, height of absolute value at
most 2^24, the sums x + width and y + height being in that range too (`SmallIntegerBox`),
`ReadVOCAnnotationsFromCreateMLFile` returns a VOC list from which
`ReadCreateMLAnnotationsFromPascalVOCDir` makes the document again: the same entries in the
same order, with the same image names, labels and coordinates. -/
theorem createml_voc_roundtrip_small (imagePath : String → String)
    (probe : String → ImageProbe) (cml : CreateMLAnnotations)
    (hprobe : ∀ c ∈ cml, ∃ w h, probe c.Image = .config w h)
    (hsmall : ∀ c ∈ cml, ∀ item ∈ c.Annotations, SmallIntegerBox item) :
    ∃ vocs, ReadVOCAnnotationsFromCreateMLFile imagePath probe cml = .ok vocs ∧
      ReadCreateMLAnnotationsFromPascalVOCDir vocs = cml := by
  refine ⟨cml.map (fun c =>
    vocOfCreateMLEntry c (probe c.Image).size.1 (probe c.Image).size.2), ?_, ?_⟩
  · unfold ReadVOCAnnotationsFromCreateMLFile
    rw [vocEntriesOfCreateML_ok imagePath probe cml [] hprobe, List.nil_append]
  · unfold ReadCreateMLAnnotationsFromPascalVOCDir
    rw [createMLEntriesOfVOC_eq, List.nil_append, List.map_map]
    conv_rhs => rw [← List.map_id cml]
    apply List.map_congr_left
    intro c hc
    obtain ⟨image, items⟩ := c
    simp only [Function.comp, vocOfCreateMLEntry, vocShellOfCreateML, List.map_map, id]
    congr 1
    conv_rhs => rw [← List.map_id items]
    apply List.map_congr_left
    intro item hitem
    exact createMLItemOfVOC_vocItemOfCreateML item (hsmall _ hc item hitem)

set_option maxRecDepth 8000 in
/-- C24 amended, on an instance: the document `sampleCreateML`, with the coordinates
(5, 5, 20, 30) and (0, 0, 1, 1), comes back as it was. -/
theorem createml_voc_roundtrip_small_witness :
    ∃ vocs, ReadVOCAnnotationsFromCreateMLFile id sampleProbe sampleCreateML = .ok vocs ∧
      ReadCreateMLAnnotationsFromPascalVOCDir vocs = sampleCreateML :=
  createml_voc_roundtrip_small id sampleProbe sampleCreateML
    (fun c hc => ⟨640, 480, by
      simp only [sampleCreateML, List.mem_singleton] at hc
      subst hc
      decide⟩)
    (fun c hc item hitem => by
      simp only [sampleCreateML, List.mem_singleton] at hc
      subst hc
      simp only [List.mem_cons, List.mem_singleton, List.not_mem_nil, or_false] at hitem
      rcases hitem with h | h
      · subst h
        exact ⟨5, 5, 20, 30, by decide, by decide, by decide, by decide, by decide, by decide,
          rfl⟩
      · subst h
        exact ⟨0, 0, 1, 1, by decide, by decide, by decide, by decide, by decide, by decide,
          rfl⟩)

end Datasetgo
